import Mathlib

/-!
# Cargo distribution: link statistics, flow statistics and cargo packets

A shallow embedding of parts of `src/station_base.h` and `src/cargopacket.h`.

* `uint` is a natural number below `2 ^ 32`; every arithmetic result that can
  leave that range is reduced modulo `2 ^ 32` explicitly.
* `int` is an integer in `[-2 ^ 31, 2 ^ 31)`; the conversion `(int)u` and the
  signed subtraction wrap around modulo `2 ^ 32` (two's complement).
* A division by zero has no result: the operation returns `none`.
-/

namespace CargoDist

/-! ## Machine integers -/

/-- Number of values of a 32-bit `uint`. -/
def UINT_RANGE : Nat := 2 ^ 32

/-- The conversion `(int)u` of a `uint` to a 32-bit two's complement `int`. -/
def toInt32 (u : Nat) : Int :=
  if u % UINT_RANGE < 2 ^ 31 then ((u % UINT_RANGE : Nat) : Int)
  else ((u % UINT_RANGE : Nat) : Int) - (UINT_RANGE : Int)

/-- Reduction of an integer result into the range of a 32-bit `int`. -/
def wrapInt32 (i : Int) : Int :=
  (i + 2 ^ 31) % (2 ^ 32) - 2 ^ 31

/-! ## `LinkStat` (station_base.h) -/

/-- The class `LinkStat`: three `uint` members. -/
structure LinkStat where
  capacity : Nat
  frozen : Nat
  usage : Nat
  deriving DecidableEq, Repr

namespace LinkStat

/-- `LinkStat::operator*=(uint factor)`: the products are `uint` products. -/
def mulAssign (s : LinkStat) (factor : Nat) : LinkStat :=
  { capacity := (s.capacity * factor) % UINT_RANGE
    frozen := s.frozen
    usage := (s.usage * factor) % UINT_RANGE }

/-- `LinkStat::operator/=(uint divident)`: no result for a zero divisor. -/
def divAssign (s : LinkStat) (divident : Nat) : Option LinkStat :=
  if divident = 0 then none
  else
    let capacity := s.capacity / divident
    let capacity := if capacity < s.frozen then s.frozen else capacity
    some { capacity := capacity, frozen := s.frozen, usage := s.usage / divident }

end LinkStat

/-! ## `FlowStat` (station_base.h) -/

/-- The class `FlowStat`: `planned` and `sent` are `uint`, `via` a `StationID`. -/
structure FlowStat where
  planned : Nat
  sent : Nat
  via : Nat
  deriving DecidableEq, Repr

namespace FlowStat

/-- The local `diff_x` of `FlowStat::comp`: `(int)x.planned - (int)x.sent`. -/
def diff (x : FlowStat) : Int :=
  wrapInt32 (toInt32 x.planned - toInt32 x.sent)

/-- `FlowStat::comp::operator()`. -/
def comp (x y : FlowStat) : Bool :=
  let diff_x := diff x
  let diff_y := diff y
  if diff_x ≠ diff_y then
    decide (diff_x > diff_y)
  else
    decide (x.via > y.via)

/-- The remaining credit of a flow stat as the spec words it: the integer
difference `planned − sent`. -/
def remainingCredit (x : FlowStat) : Int :=
  (x.planned : Int) - (x.sent : Int)

/-- The order the spec describes: remaining credit descending, ties broken by
`via` descending. -/
def specOrder (x y : FlowStat) : Prop :=
  remainingCredit x > remainingCredit y ∨
    (remainingCredit x = remainingCredit y ∧ x.via > y.via)

end FlowStat

/-! ## `FlowStatSet`: `std::set<FlowStat, FlowStat::comp>` -/

/-- A `std::set` is kept as the list of its elements in iteration order. -/
abbrev FlowStatSet := List FlowStat

namespace FlowStatSet

/-- `std::set::insert`: the element goes before the first element it precedes;
when an element equivalent to it (neither precedes the other) is met first,
the set is left as it is. -/
def insert : FlowStatSet → FlowStat → FlowStatSet
  | [], x => [x]
  | y :: ys, x =>
    if FlowStat.comp x y then x :: y :: ys
    else if FlowStat.comp y x then y :: insert ys x
    else y :: ys

/-- The set obtained from the empty set by inserting `xs` from left to right. -/
def ofInserts (xs : List FlowStat) : FlowStatSet :=
  xs.foldl insert []

end FlowStatSet

/-! ## `CargoPacket` (cargopacket.h) -/

/-- The enum `SourceType`. -/
inductive SourceType where
  | ST_INDUSTRY
  | ST_TOWN
  | ST_HEADQUARTERS
  deriving DecidableEq, Repr

/-- The struct `CargoPacket`. `feeder_share` is `Money`, a signed amount. -/
structure CargoPacket where
  feeder_share : Int
  count : Nat
  days_in_transit : Nat
  next : Nat
  source : Nat
  source_type : SourceType
  source_id : Nat
  source_xy : Nat
  loaded_at_xy : Nat
  deriving DecidableEq, Repr

namespace CargoPacket

/-- `CargoPacket::SameSource`. -/
def SameSource (self cp : CargoPacket) : Bool :=
  self.source_xy == cp.source_xy && self.days_in_transit == cp.days_in_transit &&
    self.next == cp.next &&
    self.source_type == cp.source_type && self.source_id == cp.source_id

/-- Modelled from the spec: `CargoPacket::Split`, declared in cargopacket.h and
defined in cargopacket.cpp, which is not among the sources. Spec 4.1: the new
packet has `count = new_size`, `days_in_transit` and all origin fields copied,
`feeder_share = floor(old.feeder * new_size / old.count)`; then
`old.feeder -= new.feeder` and `old.count -= new_size`; precondition
`0 < new_size < count`. `next` is copied too (3: `Split` preserves it, and the
round trip of 8.2 merges the two halves, which needs `SameSource`). The result
is `(this after the call, the returned packet)`, or `none` when the
precondition fails. The divisor is positive, so `/` on `Int` is the floor. -/
def Split (self : CargoPacket) (new_size : Nat) : Option (CargoPacket × CargoPacket) :=
  if 0 < new_size ∧ new_size < self.count then
    let fs : Int := self.feeder_share * (new_size : Int) / (self.count : Int)
    let cp_new : CargoPacket := { self with count := new_size, feeder_share := fs }
    some ({ self with count := self.count - new_size, feeder_share := self.feeder_share - fs },
      cp_new)
  else none

/-- Modelled from the spec: `CargoPacket::Merge`, declared in cargopacket.h and
defined in cargopacket.cpp, which is not among the sources. Spec 4.1: requires
`SameSource(this, other)`; `count += other.count`;
`feeder_share += other.feeder_share`; `other` is destroyed. The result is
`this` after the call, or `none` when the requirement fails. -/
def Merge (self other : CargoPacket) : Option CargoPacket :=
  if self.SameSource other then
    some { self with count := self.count + other.count
                     feeder_share := self.feeder_share + other.feeder_share }
  else none

/-- One cargo entity of a packet: the attributes of the packet, apart from its
size and its feeder share. -/
def unit (cp : CargoPacket) : CargoPacket :=
  { cp with count := 1, feeder_share := 0 }

/-- The cargo entities of a packet: `count` units, each with the packet's
attributes. -/
def entities (cp : CargoPacket) : List CargoPacket :=
  List.replicate cp.count cp.unit

end CargoPacket

/-! ## `CargoList<LIST>` (cargopacket.h) -/

/-- The two instantiations of the template: `VehicleCargoList` over
`CargoPacketList` and `StationCargoList` over `StationCargoPacketMap`. -/
inductive Variant where
  | vehicle
  | station
  deriving DecidableEq, Repr

/-- The element type of `LIST`: a packet for `std::list<CargoPacket *>`, a pair
of key and packet for `std::multimap<StationID, CargoPacket *>`. Both
containers are kept as the list of their elements in iteration order. -/
@[reducible]
def Entry : Variant → Type
  | .vehicle => CargoPacket
  | .station => Nat × CargoPacket

/-- The overloaded `Deref`: the packet an iterator designates. -/
def Deref : {v : Variant} → Entry v → CargoPacket
  | .vehicle, cp => cp
  | .station, e => e.2

/-- The element after a write through its packet pointer: the packet changes,
the key of a map element stays. -/
def Entry.assign : {v : Variant} → Entry v → CargoPacket → Entry v
  | .vehicle, _, cp => cp
  | .station, e, cp => (e.1, cp)

/-- `std::multimap::insert`: the new element goes after the elements whose key
is not greater, before the first element with a greater key. -/
def multimapInsert : List (Nat × CargoPacket) → Nat → CargoPacket → List (Nat × CargoPacket)
  | [], key, cp => [(key, cp)]
  | e :: es, key, cp =>
    if key < e.1 then (key, cp) :: e :: es else e :: multimapInsert es key cp

/-- The virtual `Insert`: `packets.push_back(cp)` for `VehicleCargoList`,
`packets.insert(std::make_pair(cp->Next(), cp))` for `StationCargoList`. -/
def Insert : {v : Variant} → List (Entry v) → CargoPacket → List (Entry v)
  | .vehicle, packets, cp => packets ++ [cp]
  | .station, packets, cp => multimapInsert packets cp.next cp

/-- The members of `CargoList<LIST>`. -/
structure CargoList (v : Variant) where
  packets : List (Entry v)
  count : Nat
  feeder_share : Int
  days_in_transit : Nat

/-- The class `VehicleCargoList`. -/
abbrev VehicleCargoList := CargoList Variant.vehicle

/-- The class `StationCargoList`. -/
abbrev StationCargoList := CargoList Variant.station

/-- Sum of the packet counts. -/
def sumCount (ps : List CargoPacket) : Nat :=
  (ps.map fun cp => cp.count).sum

/-- Sum of the packet feeder shares. -/
def sumFeederShare (ps : List CargoPacket) : Int :=
  (ps.map fun cp => cp.feeder_share).sum

/-- Sum of `count * days_in_transit` over the packets. -/
def sumDays (ps : List CargoPacket) : Nat :=
  (ps.map fun cp => cp.count * cp.days_in_transit).sum

namespace CargoList

variable {v : Variant}

/-- The constructor `CargoList()`: no packets, all caches 0. -/
def construct (v : Variant) : CargoList v :=
  { packets := [], count := 0, feeder_share := 0, days_in_transit := 0 }

/-- The packets of the list in iteration order. -/
def derefAll (l : CargoList v) : List CargoPacket :=
  l.packets.map Deref

/-- `CargoList::Empty`. -/
def Empty (l : CargoList v) : Bool :=
  l.packets.isEmpty

/-- `CargoList::Count`. -/
def Count (l : CargoList v) : Nat :=
  l.count

/-- `CargoList::FeederShare`. -/
def FeederShare (l : CargoList v) : Int :=
  l.feeder_share

/-- `CargoList::DaysInTransit`: `days_in_transit / count`, without a result
when `count` is 0. -/
def DaysInTransit (l : CargoList v) : Option Nat :=
  if l.count = 0 then none else some (l.days_in_transit / l.count)

/-- The caches agree with the packets. -/
structure Consistent (l : CargoList v) : Prop where
  count_eq : l.count = sumCount l.derefAll
  feeder_share_eq : l.feeder_share = sumFeederShare l.derefAll
  days_in_transit_eq : l.days_in_transit = sumDays l.derefAll

/-- The cargo entities of the list, in the order of its packets. -/
def entities (l : CargoList v) : List CargoPacket :=
  l.derefAll.flatMap CargoPacket.entities

end CargoList

/-! ## The operations of `CargoList` defined in cargopacket.cpp

cargopacket.cpp is not among the sources. The operations below follow the
declarations in cargopacket.h and the wording of the spec, which states them
over exact integers: sizes and cached sums are natural numbers, feeder shares
integers, without wrap-around. -/

namespace CargoList

variable {v : Variant}

/-- Modelled from the spec: `CargoList::AddToCache`, declared in cargopacket.h
and defined in cargopacket.cpp, which is not among the sources. Its
declaration: "Update the cache to reflect adding of this packet. Increases
count, feeder share and days_in_transit"; spec 3: the caches are `Σ count`,
`Σ feeder_share` and `Σ count × days`. -/
def AddToCache (l : CargoList v) (cp : CargoPacket) : CargoList v :=
  { l with count := l.count + cp.count
           feeder_share := l.feeder_share + cp.feeder_share
           days_in_transit := l.days_in_transit + cp.count * cp.days_in_transit }

/-- Modelled from the spec: `CargoList::RemoveFromCache`, declared in
cargopacket.h and defined in cargopacket.cpp, which is not among the sources.
Its declaration: "Update the cached values to reflect the removal of this
packet. Decreases count, feeder share and days_in_transit". -/
def RemoveFromCache (l : CargoList v) (cp : CargoPacket) : CargoList v :=
  { l with count := l.count - cp.count
           feeder_share := l.feeder_share - cp.feeder_share
           days_in_transit := l.days_in_transit - cp.count * cp.days_in_transit }

/-- Modelled from the spec: `CargoList::Append`, declared in cargopacket.h and
defined in cargopacket.cpp, which is not among the sources. Spec 4.2: "updates
cached count, feeder_share, days_in_transit. If merge and the last existing
packet has SameSource, absorbs into it and destroys the new packet; otherwise
inserts." -/
def Append (l : CargoList v) (cp : CargoPacket) (merge : Bool) : CargoList v :=
  let l := l.AddToCache cp
  match merge, l.packets.getLast? with
  | true, some e =>
    match (Deref e).Merge cp with
    | some merged => { l with packets := l.packets.dropLast ++ [e.assign merged] }
    | none => { l with packets := Insert l.packets cp }
  | _, _ => { l with packets := Insert l.packets cp }

/-- Modelled from the spec: the loop of `CargoList::Truncate` (cargopacket.cpp,
not among the sources) over the elements from the front; `l` carries the
caches, `max_remain` is the number of entities that may still stay. A packet
met when nothing may stay is removed and taken out of the cache; a packet
larger than what may stay is split and the excess half destroyed and taken out
of the cache; any other packet stays. The result holds the elements that
stay. -/
def truncateLoop (l : CargoList v) : List (Entry v) → Nat → CargoList v
  | [], _ => { l with packets := [] }
  | e :: es, max_remain =>
    if max_remain = 0 then
      truncateLoop (l.RemoveFromCache (Deref e)) es 0
    else if max_remain < (Deref e).count then
      match (Deref e).Split ((Deref e).count - max_remain) with
      | some (kept, excess) =>
        let r := truncateLoop (l.RemoveFromCache excess) es 0
        { r with packets := e.assign kept :: r.packets }
      | none => { l with packets := e :: es }
    else
      let r := truncateLoop l es (max_remain - (Deref e).count)
      { r with packets := e :: r.packets }

/-- Modelled from the spec: `CargoList::Truncate`, declared in cargopacket.h
and defined in cargopacket.cpp, which is not among the sources. Its
declaration: "Truncates the cargo in this list to the given amount. It leaves
the first count cargo entities and removes the rest"; spec 4.2: a packet that
straddles the cut is split and the excess half destroyed, "Cache updated
incrementally"; spec 8, S3: `[10, 20, 30]` truncated to 15 leaves `[10, 5]`. -/
def Truncate (l : CargoList v) (count : Nat) : CargoList v :=
  truncateLoop l l.packets count

/-- Modelled from the spec: the loop of `CargoList::AgeCargo` (cargopacket.cpp,
not among the sources) over the elements; `l` carries the caches. -/
def ageLoop (l : CargoList v) : List (Entry v) → CargoList v
  | [] => { l with packets := [] }
  | e :: es =>
    if (Deref e).days_in_transit < 255 then
      let r := ageLoop { l with days_in_transit := l.days_in_transit + (Deref e).count } es
      { r with packets :=
          e.assign { Deref e with days_in_transit := (Deref e).days_in_transit + 1 } :: r.packets }
    else
      let r := ageLoop l es
      { r with packets := e :: r.packets }

/-- Modelled from the spec: `CargoList::AgeCargo`, declared in cargopacket.h
and defined in cargopacket.cpp, which is not among the sources. Spec 4.2:
"increments days_in_transit on every packet saturating at 255; adds count to
the cached days sum": a packet below 255 gets one day more and its count is
added to the cached sum, a packet at 255 is left as it is. -/
def AgeCargo (l : CargoList v) : CargoList v :=
  ageLoop l l.packets

end CargoList

/-- The actions `WillUnload` decides between (spec 4.2: keep, deliver,
transfer), with the names of the enum `UnloadType`. -/
inductive UnloadType where
  | UL_KEEP
  | UL_DELIVER
  | UL_TRANSFER
  deriving DecidableEq, Repr

/-- The struct `UnloadDescription` without its pointer `dest`. -/
structure UnloadDescription where
  curr_station : Nat
  next_station : Nat
  flags : Nat
  deriving DecidableEq, Repr

/-- Modelled from the spec: the collaborators of the move operations, none of
them among the sources: `WillUnload` (cargopacket.cpp), the payment
(`CargoPayment`) and `GoodsEntry::UpdateFlowStatsTransfer` (station code). They
work on a state `σ` (settings, goods entry flows, payment) and are taken as
they come: the decision for a packet, the state after a final delivery, the
feeder credit of a transfer and the new next hop. -/
structure MoveEnv (σ : Type) where
  WillUnload : σ → UnloadDescription → CargoPacket → UnloadType
  PayFinalDelivery : σ → CargoPacket → Nat → σ
  PayTransfer : σ → CargoPacket → Nat → σ × Int
  UpdateFlowStatsTransfer : σ → Nat → Nat → Nat → σ × Nat

/-- Modelled from the spec: what a move operation leaves, the list moved from,
the list moved to and the number of entities moved (its return value). -/
structure MoveResult (a b : Variant) where
  source : CargoList a
  dest : CargoList b
  moved : Nat

/-- Modelled from the spec: the packet with `loaded_at_xy` ("Location where
this cargo has been loaded into the vehicle") set to the loading place of a
move, when one is given (`none` stands for the default `INVALID_TILE`). -/
def CargoPacket.loadedAt (cp : CargoPacket) : Option Nat → CargoPacket
  | some tile => { cp with loaded_at_xy := tile }
  | none => cp

namespace CargoList

/-- Modelled from the spec: the loop of `StationCargoList::MovePackets` and of
`VehicleCargoList::MoveToVehicle` (cargopacket.cpp, not among the sources) over
a range of elements, each step a `MovePacket`: while capacity remains, a packet
that fits leaves the source whole, a packet that does not fit is split and the
split-off part leaves; what leaves is taken out of the cache of the source and
appended to the destination (spec 4.2: the load operation is "the symmetric"
one of the unload; "If insufficient remaining capacity, split first"). `src`
carries the caches of the source; the result holds the elements of the range
that stay. -/
def movePacketsLoop {a b : Variant} (load_place : Option Nat) :
    CargoList a → CargoList b → List (Entry a) → Nat → MoveResult a b
  | src, dest, [], _ => { source := { src with packets := [] }, dest := dest, moved := 0 }
  | src, dest, e :: es, cap =>
    if cap = 0 then
      { source := { src with packets := e :: es }, dest := dest, moved := 0 }
    else if (Deref e).count ≤ cap then
      let r := movePacketsLoop load_place (src.RemoveFromCache (Deref e))
        (dest.Append ((Deref e).loadedAt load_place) true) es (cap - (Deref e).count)
      { r with moved := r.moved + (Deref e).count }
    else
      match (Deref e).Split cap with
      | some (rest, part) =>
        { source := { src.RemoveFromCache part with packets := e.assign rest :: es }
          dest := dest.Append (part.loadedAt load_place) true
          moved := cap }
      | none => { source := { src with packets := e :: es }, dest := dest, moved := 0 }

/-- Modelled from the spec: `StationCargoList::MovePackets(dest, cap, begin,
end, load_place)` (cargopacket.cpp, not among the sources): the move loop over
the elements at the positions `begin ≤ i < end`; the elements before and after
the range stay. -/
def MovePackets {a b : Variant} (src : CargoList a) (dest : CargoList b) (cap : Nat)
    (range : Nat × Nat) (load_place : Option Nat) : MoveResult a b :=
  let front := src.packets.take range.1
  let middle := (src.packets.drop range.1).take (range.2 - range.1)
  let back := (src.packets.drop range.1).drop (range.2 - range.1)
  let r := movePacketsLoop load_place src dest middle cap
  { r with source := { r.source with packets := front ++ r.source.packets ++ back } }

end CargoList

/-- `VehicleCargoList::FindByNext`: the whole list, `(begin(), end())`. -/
def VehicleCargoList.FindByNext (l : VehicleCargoList) (_to_station : Nat) : Nat × Nat :=
  (0, l.packets.length)

/-- `StationCargoList::FindByNext`: `packets.equal_range(to)`, the positions of
the first element whose key is not less than `to` and of the first element
whose key is greater. -/
def StationCargoList.FindByNext (l : StationCargoList) (to_station : Nat) : Nat × Nat :=
  ((l.packets.takeWhile fun e => e.1 < to_station).length,
    (l.packets.takeWhile fun e => e.1 ≤ to_station).length)

/-- Modelled from the spec: `VehicleCargoList::MoveToVehicle` (cargopacket.cpp,
not among the sources), spec 4.2 "the symmetric load operation": packets move
from the head of this list to `dest` until `cap` entities are moved. -/
def VehicleCargoList.MoveToVehicle (src dest : VehicleCargoList) (cap : Nat)
    (load_place : Option Nat) : MoveResult Variant.vehicle Variant.vehicle :=
  CargoList.MovePackets src dest cap (0, src.packets.length) load_place

/-- Modelled from the spec: `StationCargoList::MoveToVehicle` (cargopacket.cpp,
not among the sources). Spec 4.2: "The station variant consults its
next-bucket matching the vehicle's next scheduled station first, then falls
back to any if capacity remains and orders permit"; whether the orders permit
is the argument `any_permitted`. -/
def StationCargoList.MoveToVehicle (src : StationCargoList) (dest : VehicleCargoList)
    (cap : Nat) (next_station : Nat) (load_place : Option Nat) (any_permitted : Bool) :
    MoveResult Variant.station Variant.vehicle :=
  let r := CargoList.MovePackets src dest cap (src.FindByNext next_station) load_place
  if r.moved < cap ∧ any_permitted = true then
    let r2 := CargoList.MovePackets r.source r.dest (cap - r.moved)
      (0, r.source.packets.length) load_place
    { r2 with moved := r.moved + r2.moved }
  else r

/-- Modelled from the spec: the loop of `VehicleCargoList::MoveToStation`
(cargopacket.cpp, not among the sources) over the packets from the head; `src`
carries the caches of the vehicle list, `max_unload` is the number of entities
that may still be moved. -/
def moveToStationLoop {σ : Type} (env : MoveEnv σ) (ul : UnloadDescription) :
    σ → VehicleCargoList → StationCargoList → List CargoPacket → Nat →
      σ × MoveResult Variant.vehicle Variant.station
  | w, src, dest, [], _ => (w, { source := { src with packets := [] }, dest := dest, moved := 0 })
  | w, src, dest, cp :: es, max_unload =>
    if max_unload = 0 then
      (w, { source := { src with packets := cp :: es }, dest := dest, moved := 0 })
    else
      match env.WillUnload w ul cp with
      | UnloadType.UL_KEEP =>
        let r := moveToStationLoop env ul w src dest es max_unload
        (r.1, { r.2 with source := { r.2.source with packets := cp :: r.2.source.packets } })
      | UnloadType.UL_DELIVER =>
        if cp.count ≤ max_unload then
          let r := moveToStationLoop env ul (env.PayFinalDelivery w cp cp.count)
            (src.RemoveFromCache cp) dest es (max_unload - cp.count)
          (r.1, { r.2 with moved := r.2.moved + cp.count })
        else
          match cp.Split max_unload with
          | some (rest, part) =>
            (env.PayFinalDelivery w part part.count,
              { source := { src.RemoveFromCache part with packets := rest :: es }
                dest := dest
                moved := max_unload })
          | none => (w, { source := { src with packets := cp :: es }, dest := dest, moved := 0 })
      | UnloadType.UL_TRANSFER =>
        if cp.count ≤ max_unload then
          let paid := env.PayTransfer w cp cp.count
          let hop := env.UpdateFlowStatsTransfer paid.1 cp.source cp.count ul.curr_station
          let r := moveToStationLoop env ul hop.1 (src.RemoveFromCache cp)
            (dest.Append { cp with feeder_share := cp.feeder_share + paid.2, next := hop.2 } true)
            es (max_unload - cp.count)
          (r.1, { r.2 with moved := r.2.moved + cp.count })
        else
          match cp.Split max_unload with
          | some (rest, part) =>
            let paid := env.PayTransfer w part part.count
            let hop := env.UpdateFlowStatsTransfer paid.1 part.source part.count ul.curr_station
            (hop.1,
              { source := { src.RemoveFromCache part with packets := rest :: es }
                dest := dest.Append
                  { part with feeder_share := part.feeder_share + paid.2, next := hop.2 } true
                moved := max_unload })
          | none => (w, { source := { src with packets := cp :: es }, dest := dest, moved := 0 })

/-- Modelled from the spec: `VehicleCargoList::MoveToStation` (cargopacket.cpp,
not among the sources). Spec 4.2, per packet from the head: `WillUnload`
decides keep, deliver or transfer; keep leaves the packet and goes on to the
next one; deliver pays the final price and destroys the packet; transfer pays
the feeder credit, adds it to the feeder share of the packet, sets its `next`
through `UpdateFlowStatsTransfer(source, count, curr_station)` and appends it
to the cargo of the destination goods entry; a packet larger than the amount
that may still be moved is split first; the loop stops when the limit is
reached. The result is the state of the collaborators and the two lists. -/
def VehicleCargoList.MoveToStation {σ : Type} (env : MoveEnv σ) (w : σ)
    (src : VehicleCargoList) (dest : StationCargoList) (max_unload : Nat)
    (ul : UnloadDescription) : σ × MoveResult Variant.vehicle Variant.station :=
  moveToStationLoop env ul w src dest src.packets max_unload

/-- The cargo lists reachable from newly constructed ones through `Append`,
`Truncate`, `AgeCargo` and the move operations, on either side of a move. -/
inductive Reachable : {v : Variant} → CargoList v → Prop
  | construct (v : Variant) : Reachable (CargoList.construct v)
  | append {v : Variant} (l : CargoList v) (cp : CargoPacket) (merge : Bool) :
      Reachable l → Reachable (l.Append cp merge)
  | truncate {v : Variant} (l : CargoList v) (count : Nat) :
      Reachable l → Reachable (l.Truncate count)
  | ageCargo {v : Variant} (l : CargoList v) : Reachable l → Reachable l.AgeCargo
  | moveToStation_source {σ : Type} (env : MoveEnv σ) (w : σ) (src : VehicleCargoList)
      (dest : StationCargoList) (max_unload : Nat) (ul : UnloadDescription) :
      Reachable src → Reachable dest →
        Reachable (src.MoveToStation env w dest max_unload ul).2.source
  | moveToStation_dest {σ : Type} (env : MoveEnv σ) (w : σ) (src : VehicleCargoList)
      (dest : StationCargoList) (max_unload : Nat) (ul : UnloadDescription) :
      Reachable src → Reachable dest →
        Reachable (src.MoveToStation env w dest max_unload ul).2.dest
  | vehicleMoveToVehicle_source (src dest : VehicleCargoList) (cap : Nat)
      (load_place : Option Nat) :
      Reachable src → Reachable dest → Reachable (src.MoveToVehicle dest cap load_place).source
  | vehicleMoveToVehicle_dest (src dest : VehicleCargoList) (cap : Nat)
      (load_place : Option Nat) :
      Reachable src → Reachable dest → Reachable (src.MoveToVehicle dest cap load_place).dest
  | stationMoveToVehicle_source (src : StationCargoList) (dest : VehicleCargoList) (cap : Nat)
      (next_station : Nat) (load_place : Option Nat) (any_permitted : Bool) :
      Reachable src → Reachable dest →
        Reachable (src.MoveToVehicle dest cap next_station load_place any_permitted).source
  | stationMoveToVehicle_dest (src : StationCargoList) (dest : VehicleCargoList) (cap : Nat)
      (next_station : Nat) (load_place : Option Nat) (any_permitted : Bool) :
      Reachable src → Reachable dest →
        Reachable (src.MoveToVehicle dest cap next_station load_place any_permitted).dest

/-- The caches of `l` are the sums over the packets `ps` plus the offsets `a`,
`b` and `c`: the state of the caches in the middle of a loop, the offsets
standing for the packets already passed. -/
def CargoList.CachedWith {v : Variant} (l : CargoList v) (ps : List CargoPacket)
    (a : Nat) (b : Int) (c : Nat) : Prop :=
  l.count = sumCount ps + a ∧ l.feeder_share = sumFeederShare ps + b ∧
    l.days_in_transit = sumDays ps + c

/-! ## Scenarios -/

/-- A packet of the scenarios: the given size, feeder share, days in transit
and next hop, from source station 1. -/
def scenarioPacket (count : Nat) (feeder_share : Int) (days_in_transit next : Nat) :
    CargoPacket :=
  { feeder_share := feeder_share, count := count, days_in_transit := days_in_transit
    next := next, source := 1, source_type := SourceType.ST_TOWN, source_id := 4
    source_xy := 5, loaded_at_xy := 6 }

/-- Spec scenario S2: an empty `VehicleCargoList`, then P1 `{days=2, count=10,
feeder=5}` and P2 `{days=2, count=7, feeder=2}` with the same header appended
with `merge = true`. -/
def scenarioS2 : VehicleCargoList :=
  ((CargoList.construct Variant.vehicle).Append (scenarioPacket 10 5 2 7) true).Append
    (scenarioPacket 7 2 2 7) true

/-- Spec scenario S3: a list with packets of 10, 20 and 30 entities. -/
def scenarioS3 : VehicleCargoList :=
  (((CargoList.construct Variant.vehicle).Append (scenarioPacket 10 5 1 7) false).Append
    (scenarioPacket 20 2 2 7) false).Append (scenarioPacket 30 9 255 8) false

/-- A station list with packets for the next hops 3 and 7. -/
def scenarioStation : StationCargoList :=
  (((CargoList.construct Variant.station).Append (scenarioPacket 10 5 1 7) false).Append
    (scenarioPacket 20 2 2 3) false).Append (scenarioPacket 30 9 255 7) false

/-- Collaborators for a scenario: packets one day in transit are kept, packets
two days in transit are delivered, all others are transferred with a feeder
credit of 3 per entity to the station after the current one. -/
def scenarioEnv : MoveEnv Nat :=
  { WillUnload := fun _ _ cp =>
      if cp.days_in_transit = 1 then UnloadType.UL_KEEP
      else if cp.days_in_transit = 2 then UnloadType.UL_DELIVER
      else UnloadType.UL_TRANSFER
    PayFinalDelivery := fun w _ n => w + n
    PayTransfer := fun w _ n => (w, 3 * (n : Int))
    UpdateFlowStatsTransfer := fun w _ _ curr => (w, curr + 1) }

/-- The station list of the scenario after the vehicle of scenario S3 has
unloaded at most 25 entities at station 7, aged and truncated to 40. -/
def scenarioUnloaded : StationCargoList :=
  ((scenarioS3.MoveToStation scenarioEnv 0 scenarioStation 25 ⟨7, 8, 0⟩).2.dest.AgeCargo).Truncate 40

/-! ## Constants of headers that are not among the sources -/

/-- Modelled from the spec: `INVALID_STATION` (station_type.h, not among the
sources), the sentinel "none" of a `StationID` (spec 3: `next` "may be sentinel
none"), the default of `FlowStat::via`, `CargoPacket::source` and
`CargoPacket::next`. A `StationID` is 16 bits wide and the sentinel is taken as
its largest value, as `INVALID_LINKGRAPH_COMPONENT = UINT16_MAX` in
linkgraph_type.h; no theorem depends on the value. -/
def INVALID_STATION : Nat := 65535

/-- The largest value of a 32-bit `uint`, `UINT_MAX` of `<limits.h>`. -/
def UINT_MAX : Nat := UINT_RANGE - 1

/-! ## More of `LinkStat` and `FlowStat` (station_base.h) -/

namespace LinkStat

/-- The constructor `LinkStat()`. -/
def construct : LinkStat :=
  { capacity := 0, frozen := 0, usage := 0 }

/-- `LinkStat::operator+=`: three `uint` sums. -/
def addAssign (self other : LinkStat) : LinkStat :=
  { capacity := (self.capacity + other.capacity) % UINT_RANGE
    usage := (self.usage + other.usage) % UINT_RANGE
    frozen := (self.frozen + other.frozen) % UINT_RANGE }

/-- `LinkStat::Clear`. -/
def Clear (_self : LinkStat) : LinkStat :=
  { capacity := 0, usage := 0, frozen := 0 }

end LinkStat

namespace FlowStat

/-- The constructor `FlowStat(st = INVALID_STATION, p = 0, s = 0)` with its
default arguments. -/
def construct : FlowStat :=
  { planned := 0, sent := 0, via := INVALID_STATION }

/-- `FlowStat::operator*=`: `uint` products. -/
def mulAssign (self : FlowStat) (factor : Nat) : FlowStat :=
  { self with planned := (self.planned * factor) % UINT_RANGE
              sent := (self.sent * factor) % UINT_RANGE }

/-- `FlowStat::operator/=`: no result for a zero divisor. -/
def divAssign (self : FlowStat) (divident : Nat) : Option FlowStat :=
  if divident = 0 then none
  else some { self with planned := self.planned / divident, sent := self.sent / divident }

/-- `FlowStat::operator+=`: `none` when the assertion fails; otherwise `via` is
taken from `other` and `planned` and `sent` are `uint` sums. -/
def addAssign (self other : FlowStat) : Option FlowStat :=
  if self.via = INVALID_STATION ∨ other.via = INVALID_STATION ∨ self.via = other.via then
    some { via := other.via
           planned := (self.planned + other.planned) % UINT_RANGE
           sent := (self.sent + other.sent) % UINT_RANGE }
  else none

/-- `FlowStat::Clear`. -/
def Clear (_self : FlowStat) : FlowStat :=
  { planned := 0, sent := 0, via := INVALID_STATION }

/-- Accumulation with `+=`: `a += b` for each `b` of `bs` in turn, `none` as
soon as an assertion fails. -/
def addAll : FlowStat → List FlowStat → Option FlowStat
  | a, [] => some a
  | a, b :: bs =>
    match a.addAssign b with
    | some r => addAll r bs
    | none => none

end FlowStat

/-! ## `LinkValueDrawer` (smallmap_gui.cpp) -/

/-- The members of `LinkValueDrawer`. -/
structure LinkValueDrawer where
  link : LinkStat
  flow : FlowStat
  scale : Nat
  deriving DecidableEq, Repr

namespace LinkValueDrawer

/-- `LinkValueDrawer::AddLink`: `link += orig_link; flow += orig_flow`; `none`
when the assertion of the second `+=` fails. -/
def AddLink (self : LinkValueDrawer) (orig_link : LinkStat) (orig_flow : FlowStat) :
    Option LinkValueDrawer :=
  match self.flow.addAssign orig_flow with
  | some flow => some { self with link := self.link.addAssign orig_link, flow := flow }
  | none => none

/-- `LinkValueDrawer::Scale`: both members `*= 30` and `/= scale`; no result
for a zero `scale`. -/
def Scale (self : LinkValueDrawer) : Option LinkValueDrawer :=
  match (self.link.mulAssign 30).divAssign self.scale,
      (self.flow.mulAssign 30).divAssign self.scale with
  | some link, some flow => some { self with link := link, flow := flow }
  | _, _ => none

end LinkValueDrawer

/-! ## More of the cargo lists (cargopacket.h) -/

/-- `CargoList::Source`: `INVALID_STATION` for an empty list, else the `source`
of the packet at `packets.begin()`; `none` would be a dereference of the
beginning of an empty container. -/
def CargoList.Source {v : Variant} (l : CargoList v) : Option Nat :=
  if l.Empty then some INVALID_STATION
  else l.packets.head?.map fun e => (Deref e).source

/-- `VehicleCargoList::Insert`: `packets.push_back(cp)`. -/
def VehicleCargoList.Insert (l : VehicleCargoList) (cp : CargoPacket) : VehicleCargoList :=
  { l with packets := CargoDist.Insert l.packets cp }

/-- `StationCargoList::Insert`:
`packets.insert(std::make_pair(cp->Next(), cp))`. -/
def StationCargoList.Insert (l : StationCargoList) (cp : CargoPacket) : StationCargoList :=
  { l with packets := CargoDist.Insert l.packets cp }

/-- The elements a pair of positions `(begin, end)` designates. -/
def rangeOf {α : Type} (xs : List α) (range : Nat × Nat) : List α :=
  (xs.drop range.1).take (range.2 - range.1)

/-! ## Link graph (linkgraph/linkgraph.h, linkgraph/demands.h) -/

/-- `Node::INVALID = UINT_MAX`. -/
def Node.INVALID : Nat := UINT_MAX

/-- The class `Edge`: six `uint` members. -/
structure Edge where
  distance : Nat
  capacity : Nat
  demand : Nat
  unsatisfied_demand : Nat
  flow : Nat
  next_edge : Nat
  deriving DecidableEq, Repr

/-- The constructor `Edge()`. -/
def Edge.construct : Edge :=
  { distance := 0, capacity := 0, demand := 0, unsatisfied_demand := 0, flow := 0
    next_edge := Node.INVALID }

/-- The class `Node` without its path set. -/
structure Node where
  supply : Nat
  undelivered_supply : Nat
  demand : Nat
  station : Nat
  deriving DecidableEq, Repr

/-- The members of `LinkGraphComponent` without its settings; `edges` is the
vector of the rows of the edge matrix. -/
structure LinkGraphComponent where
  cargo : Nat
  num_nodes : Nat
  component_colour : Nat
  nodes : List Node
  edges : List (List Edge)
  deriving DecidableEq, Repr

namespace LinkGraphComponent

/-- `LinkGraphComponent::GetSize`. -/
def GetSize (c : LinkGraphComponent) : Nat :=
  c.num_nodes

/-- `LinkGraphComponent::GetEdge`: `edges[from][to]`, without a result outside
the matrix. -/
def GetEdge (c : LinkGraphComponent) (from_node to_node : Nat) : Option Edge :=
  match c.edges[from_node]? with
  | some row => row[to_node]?
  | none => none

/-- `LinkGraphComponent::GetFirstEdge`: `edges[from][from].next_edge`. -/
def GetFirstEdge (c : LinkGraphComponent) (from_node : Nat) : Option Nat :=
  match c.edges[from_node]? with
  | some row =>
    match row[from_node]? with
    | some edge => some edge.next_edge
    | none => none
  | none => none

/-- The edge matrix has `num_nodes` rows of `num_nodes` cells. -/
def Square (c : LinkGraphComponent) : Prop :=
  c.edges.length = c.num_nodes ∧ ∀ row ∈ c.edges, row.length = c.num_nodes

end LinkGraphComponent

/-- `LinkGraph::COMPONENTS_JOIN_TICK`. -/
def LinkGraph.COMPONENTS_JOIN_TICK : Nat := 21

/-- `LinkGraph::COMPONENTS_SPAWN_TICK`. -/
def LinkGraph.COMPONENTS_SPAWN_TICK : Nat := 58

/-- The members of `DemandCalculator`; a member the constructor does not
initialise is `none`. -/
structure DemandCalculator where
  max_distance : Nat
  mod_size : Option Nat
  mod_dist : Option Nat
  accuracy : Option Nat
  deriving DecidableEq, Repr

/-- The constructor `DemandCalculator()`: `max_distance(MapSizeX() + MapSizeY()
+ 1)`, a `uint` sum. `MapSizeX()` and `MapSizeY()` (map_func.h, not among the
sources) are taken as the arguments. -/
def DemandCalculator.construct (MapSizeX MapSizeY : Nat) : DemandCalculator :=
  { max_distance := (MapSizeX + MapSizeY + 1) % UINT_RANGE
    mod_size := none, mod_dist := none, accuracy := none }

/-! ## `GoodsEntry` (station_base.h) -/

/-- `std::map::find` on a map kept as the list of its pairs in key order. -/
def mapFind {α : Type} : List (Nat × α) → Nat → Option α
  | [], _ => none
  | e :: es, key => if e.1 = key then some e.2 else mapFind es key

/-- Assignment `m[key] = a` on a map kept as the list of its pairs in key
order: the value of an existing key is replaced, a new key goes to its place in
the order. -/
def mapSet {α : Type} : List (Nat × α) → Nat → α → List (Nat × α)
  | [], key, a => [(key, a)]
  | e :: es, key, a =>
    if key < e.1 then (key, a) :: e :: es
    else if key = e.1 then (key, a) :: es
    else e :: mapSet es key a

/-- `FlowStatMap`: `std::map<StationID, FlowStatSet>`. -/
abbrev FlowStatMap := List (Nat × FlowStatSet)

/-- `LinkStatMap`: `std::map<StationID, LinkStat>`. -/
abbrev LinkStatMap := List (Nat × LinkStat)

/-- `INITIAL_STATION_RATING`. -/
def INITIAL_STATION_RATING : Nat := 175

/-- The members of the struct `GoodsEntry`. -/
structure GoodsEntry where
  acceptance_pickup : Nat
  days_since_pickup : Nat
  rating : Nat
  last_speed : Nat
  last_age : Nat
  cargo : StationCargoList
  supply : Nat
  flows : FlowStatMap
  link_stats : LinkStatMap
  last_component : Nat

namespace GoodsEntry

/-- The constructor `GoodsEntry()`; `supply`, which it does not initialise, is
the argument. -/
def construct (supply : Nat) : GoodsEntry :=
  { acceptance_pickup := 0, days_since_pickup := 255, rating := INITIAL_STATION_RATING
    last_speed := 0, last_age := 255, cargo := CargoList.construct Variant.station
    supply := supply, flows := [], link_stats := [], last_component := 0 }

/-- Modelled from the spec: the private `GoodsEntry::UpdateFlowStats(flow_stats,
flow_it, count)`, declared in station_base.h and defined in a source file that
is not among the sources. Spec 4.3: on selection of an entry "its sent +=
count (set must be re-balanced because ordering key changes)"; spec 9: "updates
require remove-and-reinsert". `sent` is a `uint`. -/
def UpdateFlowStatsAt (flow_stats : FlowStatSet) (flow_it : FlowStat) (count : Nat) :
    FlowStatSet :=
  FlowStatSet.insert (flow_stats.erase flow_it)
    { flow_it with sent := (flow_it.sent + count) % UINT_RANGE }

/-- Modelled from the spec: `GoodsEntry::UpdateFlowStatsTransfer(source, count,
curr)`, declared in station_base.h ("update the flow stats for count cargo that
cannot be delivered here; return the direction where it is sent") and defined
in a source file that is not among the sources. Spec 4.3: the next hop for a
packet from `source` is "the first entry of the set with strictly positive
remaining credit", whose `sent` grows by `count`; `UpdateFlowStatsTransfer`
"additionally excludes any via equal to the caller's curr_station". Spec 4.3
names no result for the case that no entry qualifies, and the model has none
there. The result is the goods entry after the call and the returned station. -/
def UpdateFlowStatsTransfer (ge : GoodsEntry) (source count curr : Nat) :
    Option (GoodsEntry × Nat) :=
  let flow_stats := (mapFind ge.flows source).getD []
  match flow_stats.find? fun fs => decide (0 < fs.remainingCredit) && fs.via != curr with
  | some fs =>
    some ({ ge with flows := mapSet ge.flows source (UpdateFlowStatsAt flow_stats fs count) },
      fs.via)
  | none => none

end GoodsEntry

/-- `MultiMap<KEY, VALUE, COMPARE>` for keys that are natural numbers under
`std::less`: the `std::map<KEY, std::list<VALUE>>` it derives from, kept as the
list of its pairs of key and list in key order. -/
abbrev MultiMap (V : Type) := List (Nat × List V)

/-- The members of `MultiMapIterator`. `map_iter` is a position in the map, the
number of pairs standing for `end()`; `list_iter` is a position in the list of
that pair. -/
structure MultiMapIterator where
  list_iter : Nat
  map_iter : Nat
  list_valid : Bool
  deriving DecidableEq, Repr

/-- How a loop over a `MultiMap` ends: it reaches `end()`, an operation has no
defined result (a failed assertion or a dereference of `end()`), or the fuel of
the model runs out. -/
inductive Outcome where
  | finished
  | faulted
  | out_of_fuel
  deriving DecidableEq, Repr

namespace MultiMap

variable {V : Type}

/-- `(*this)[key]` followed by `list.push_back(val)`: the value goes to the end
of the list of its key; a key that is not in the map gets a list of its own at
its place in the key order. -/
def pushBack : MultiMap V → Nat → V → MultiMap V
  | [], key, val => [(key, [val])]
  | e :: es, key, val =>
    if key < e.1 then (key, [val]) :: e :: es
    else if key = e.1 then (e.1, e.2 ++ [val]) :: es
    else e :: pushBack es key val

/-- `MultiMap::Insert`: `none` when the assertion `!list.empty()` on the list
of the key fails. -/
def Insert (m : MultiMap V) (key : Nat) (val : V) : Option (MultiMap V) :=
  match mapFind (pushBack m key val) key with
  | some list => if list.isEmpty then none else some (pushBack m key val)
  | none => none

/-- The map after the insertions of `kvs` from left to right into the empty
map. -/
def ofInserts : List (Nat × V) → Option (MultiMap V)
  | kvs => kvs.foldl (fun acc kv => acc.bind fun m => Insert m kv.1 kv.2) (some [])

/-- `MultiMap::size`: the sum of the sizes of the lists. -/
def size (m : MultiMap V) : Nat :=
  m.foldl (fun ret e => ret + e.2.length) 0

/-- `MultiMap::MapSize`. -/
def MapSize (m : MultiMap V) : Nat :=
  m.length

/-- `begin()` of the underlying map, converted by `MultiMapIterator(MAP_ITER
mi)`: `list_valid` is false; the default constructed `list_iter` is kept as
position 0. -/
def begin (_m : MultiMap V) : MultiMapIterator :=
  { list_iter := 0, map_iter := 0, list_valid := false }

/-- `end()` of the underlying map, a map iterator. -/
def mapEnd (m : MultiMap V) : Nat :=
  m.length

/-- The values of the map, list after list in key order. -/
def values (m : MultiMap V) : List V :=
  m.flatMap fun e => e.2

end MultiMap

namespace MultiMapIterator

variable {V : Type}

/-- `operator==(MultiMapIterator, MAP_ITER)`. -/
def eqMapIter (iter1 : MultiMapIterator) (iter2 : Nat) : Bool :=
  !iter1.list_valid && iter1.map_iter == iter2

/-- `operator!=(MultiMapIterator, MAP_ITER)`. -/
def neMapIter (iter1 : MultiMapIterator) (iter2 : Nat) : Bool :=
  iter1.list_valid || iter1.map_iter != iter2

/-- `MultiMapIterator::operator*`: `none` when `map_iter` is `end()`, when the
assertion `!map_iter->second.empty()` fails or when `list_iter` is the end of
the list. -/
def deref (m : MultiMap V) (it : MultiMapIterator) : Option V :=
  match m[it.map_iter]? with
  | none => none
  | some e =>
    if e.2.isEmpty then none
    else if it.list_valid then e.2[it.list_iter]?
    else e.2.head?

/-- `MultiMapIterator::operator++` (prefix): `none` when `map_iter->second` is
evaluated at `end()`, when an assertion `!map_iter->second.empty()` fails or
when the end of a list is incremented. In the branch for `list_valid == false`
the assertion after `++map_iter` evaluates `map_iter->second` at the new
position. -/
def inc (m : MultiMap V) (it : MultiMapIterator) : Option MultiMapIterator :=
  match m[it.map_iter]? with
  | none => none
  | some e =>
    if e.2.isEmpty then none
    else if it.list_valid then
      if it.list_iter < e.2.length then
        if it.list_iter + 1 = e.2.length then
          some { list_iter := it.list_iter + 1, map_iter := it.map_iter + 1, list_valid := false }
        else
          some { list_iter := it.list_iter + 1, map_iter := it.map_iter, list_valid := true }
      else none
    else
      if 1 = e.2.length then
        match m[it.map_iter + 1]? with
        | none => none
        | some e2 =>
          if e2.2.isEmpty then none
          else some { list_iter := 1, map_iter := it.map_iter + 1, list_valid := false }
      else
        some { list_iter := 1, map_iter := it.map_iter, list_valid := true }

end MultiMapIterator

/-- The loop `for (it = ...; it != end(); ++it)` that reads `*it` in its body:
the values read, in the order of reading, and how the loop ended. -/
def MultiMap.traverse {V : Type} (m : MultiMap V) : Nat → MultiMapIterator → List V × Outcome
  | 0, _ => ([], Outcome.out_of_fuel)
  | fuel + 1, it =>
    if it.neMapIter m.mapEnd then
      match it.deref m with
      | none => ([], Outcome.faulted)
      | some val =>
        match it.inc m with
        | none => ([val], Outcome.faulted)
        | some next =>
          let r := MultiMap.traverse m fuel next
          (val :: r.1, r.2)
    else ([], Outcome.finished)

namespace MultiMap

variable {V : Type}

/-- No key of the map has an empty list. -/
def NoEmptyList (m : MultiMap V) : Prop :=
  ∀ e ∈ m, e.2 ≠ []

/-- The list of the greatest key holds exactly one value. -/
def lastIsSingleton (m : MultiMap V) : Bool :=
  match m.getLast? with
  | some e => e.2.length == 1
  | none => false

/-- How the loop over the whole map ends: it faults when the list of the
greatest key holds exactly one value and finishes otherwise. -/
def outcomeOf (m : MultiMap V) : Outcome :=
  if m.lastIsSingleton then Outcome.faulted else Outcome.finished

end MultiMap

/-! ## More of `MultiMap` (core/multimap.hpp) -/

namespace MultiMapIterator

variable {V : Type}

/-- The position in the list of its pair that an iterator stands for: the
position `list_iter` when `list_valid`, the beginning of the list otherwise. -/
def position (it : MultiMapIterator) : Nat :=
  if it.list_valid then it.list_iter else 0

/-- The iterator designates a stored element: `map_iter` is at a pair of the
map and the position is inside the list of that pair. -/
def Designates (m : MultiMap V) (it : MultiMapIterator) : Prop :=
  ∃ e, m[it.map_iter]? = some e ∧ it.position < e.2.length

/-- The element an iterator designates, when it designates one. -/
def element (m : MultiMap V) (it : MultiMapIterator) : Option V :=
  match m[it.map_iter]? with
  | some e => e.2[it.position]?
  | none => none

/-- The iterator designates the last element of the map: the last element of
the list of the last pair. -/
def IsLast (m : MultiMap V) (it : MultiMapIterator) : Prop :=
  ∃ e, m[it.map_iter]? = some e ∧ it.map_iter + 1 = m.length ∧ it.position + 1 = e.2.length

/-- Canonical form: `list_valid` is false exactly at the first element of a
list. -/
def Canonical (it : MultiMapIterator) : Prop :=
  it.list_valid = true → it.list_iter ≠ 0

/-- `operator==(MultiMapIterator, MultiMapIterator)`:
`iter1.GetListIter() == iter1.GetListIter() && iter1.GetMapIter() ==
iter2.GetMapIter()`, the first comparison with `iter1` on both sides as in the
source. -/
def eqIter (iter1 iter2 : MultiMapIterator) : Bool :=
  iter1.list_iter == iter1.list_iter && iter1.map_iter == iter2.map_iter

/-- `operator!=(MultiMapIterator, MultiMapIterator)`:
`iter1.GetListIter() != iter1.GetListIter() || iter1.GetMapIter() !=
iter2.GetMapIter()`, the first comparison with `iter1` on both sides as in the
source. -/
def neIter (iter1 iter2 : MultiMapIterator) : Bool :=
  iter1.list_iter != iter1.list_iter || iter1.map_iter != iter2.map_iter

/-- `MultiMapIterator::operator--` (prefix): `none` when `map_iter->second` is
evaluated at `end()`, when an assertion `!map_iter->second.empty()` fails, when
the beginning of the map or of a list is decremented. -/
def dec (m : MultiMap V) (it : MultiMapIterator) : Option MultiMapIterator :=
  match m[it.map_iter]? with
  | none => none
  | some e =>
    if e.2.isEmpty then none
    else if it.list_valid then
      if 0 < it.list_iter ∧ it.list_iter ≤ e.2.length then
        some { list_iter := it.list_iter - 1, map_iter := it.map_iter
               list_valid := it.list_iter - 1 != 0 }
      else none
    else
      if it.map_iter = 0 then none
      else
        match m[it.map_iter - 1]? with
        | none => none
        | some e2 =>
          if e2.2.isEmpty then none
          else
            some { list_iter := e2.2.length - 1, map_iter := it.map_iter - 1
                   list_valid := e2.2.length - 1 != 0 }

end MultiMapIterator

namespace MultiMap

variable {V : Type}

/-- `MultiMap::erase`: `none` when `it.map_iter->second` is evaluated at
`end()`, when the assertion `!list.empty()` fails or when the end of the list
is erased. The element at the position of the iterator leaves its list, and a
list that becomes empty leaves the map with its key. -/
def erase (m : MultiMap V) (it : MultiMapIterator) : Option (MultiMap V) :=
  match m[it.map_iter]? with
  | none => none
  | some e =>
    if e.2.isEmpty then none
    else if it.position < e.2.length then
      if (e.2.eraseIdx it.position).isEmpty then some (m.eraseIdx it.map_iter)
      else some (m.set it.map_iter (e.1, e.2.eraseIdx it.position))
    else none

/-- The maps reachable from the empty map by `Insert` and `erase` calls that
have a result. -/
inductive Reachable : MultiMap V → Prop
  | empty : Reachable []
  | insert (m m2 : MultiMap V) (key : Nat) (val : V) :
      Reachable m → Insert m key val = some m2 → Reachable m2
  | erase (m m2 : MultiMap V) (it : MultiMapIterator) :
      Reachable m → erase m it = some m2 → Reachable m2

end MultiMap

/-! ## `AIObject` (ai/api/ai_object.cpp) -/

/-- The callback of a command: `AIInstance::DoCommandReturn` or another
procedure. -/
inductive AISuspendCallback where
  | DoCommandReturn
  | other (id : Nat)
  deriving DecidableEq, Repr

/-- The members of `AIStorage` (ai_storage.hpp, not among the sources) that
ai_object.cpp reads and writes. `mode` is the mode procedure, `none` for
`NULL`, kept as the value it returns when called; `costs` is the cost of the
`CommandCost` member. -/
structure AIStorage where
  mode : Option Bool
  mode_instance : Option Nat
  delay : Nat
  allow_do_command : Bool
  costs : Int
  last_cost : Int
  last_error : Nat
  last_command_res : Bool
  new_vehicle_id : Nat
  new_sign_id : Nat
  new_tunnel_endtile : Nat
  new_group_id : Nat
  road_type : Nat
  rail_type : Nat
  callback_value : List Int
  deriving DecidableEq, Repr

/-- An `AIInstance` as far as ai_object.cpp looks at it: its storage and
whether its script engine can suspend (`Squirrel::CanSuspend`, not among the
sources). -/
structure AIInstance where
  storage : AIStorage
  engine_can_suspend : Bool
  deriving DecidableEq, Repr

/-- A `CommandCost` (command_type.h, not among the sources): the cost, whether
the command failed and its error message. -/
structure CommandCost where
  cost : Int
  failed : Bool
  message : Nat
  deriving DecidableEq, Repr

/-- The game around the AI, of a type `W`, and what ai_object.cpp calls in it,
none of it among the sources: `DoCommandPInternal` (with the tile, `p1`, `p2`,
the command, whether the callback `CcAI` is passed, the text and
`estimate_only`), whether the flags of a command hold `CMD_CLIENT_ID`,
`AIError::StringToError`, the globals `_networking`, `_new_vehicle_id`,
`_new_sign_id`, `_build_tunnel_endtile` and `_new_group_id`, and whether the
program is compiled with `ENABLE_NETWORK`. -/
structure CommandEnv (W : Type) where
  DoCommandPInternal : W → Nat → Nat → Nat → Nat → Bool → Option String → Bool → W × CommandCost
  hasClientIdFlag : Nat → Bool
  StringToError : Nat → Nat
  networking : W → Bool
  new_vehicle_id : W → Nat
  new_sign_id : W → Nat
  build_tunnel_endtile : W → Nat
  new_group_id : W → Nat
  enable_network : Bool

/-- The state `AIObject::DoCommand` works on: the active instance
(`AIObject::ActiveInstance::active`, `none` for `NULL`) and the game. -/
structure AIState (W : Type) where
  active : Option AIInstance
  world : W

/-- How `AIObject::DoCommand` ends: it returns a value, it throws
`AI_FatalError` with a message, it throws `AI_VMSuspend` with a time and a
callback, or an assertion fails. -/
inductive DoCommandExit where
  | returned (value : Bool)
  | AI_FatalError (message : String)
  | AI_VMSuspend (time : Int) (callback : AISuspendCallback)
  | assertion_failed
  deriving DecidableEq, Repr

/-- `AIError::ERR_NONE` (ai_error.hpp, not among the sources), taken as 0. -/
def AIError.ERR_NONE : Nat := 0

/-- The message of the fatal error of `AIObject::DoCommand`. -/
def AIObject.DO_COMMAND_NOT_ALLOWED : String :=
  "You are not allowed to execute any DoCommand (even indirect) in your constructor, Save(), Load(), and any valuator."

namespace AIObject

variable {W : Type}

/-- `AIObject::CanSuspend`: `allow_do_command` of the storage and
`CanSuspend()` of the engine of the active instance; `none` when the assertion
of `GetActiveInstance` fails. -/
def CanSuspend (s : AIState W) : Option Bool :=
  match s.active with
  | some inst => some (inst.storage.allow_do_command && inst.engine_can_suspend)
  | none => none

/-- `AIObject::SetLastCommandRes`: the result and the four globals go to the
storage. -/
def SetLastCommandRes (env : CommandEnv W) (world : W) (st : AIStorage) (res : Bool) :
    AIStorage :=
  { st with last_command_res := res
            new_vehicle_id := env.new_vehicle_id world
            new_sign_id := env.new_sign_id world
            new_tunnel_endtile := env.build_tunnel_endtile world
            new_group_id := env.new_group_id world }

/-- `AIObject::DoCommand`: the state after the call and how the call ended. -/
def DoCommand (env : CommandEnv W) (s : AIState W) (tile p1 p2 cmd : Nat)
    (text : Option String) (callback : Option AISuspendCallback) : AIState W × DoCommandExit :=
  match s.active with
  | none => (s, DoCommandExit.assertion_failed)
  | some inst =>
    if !(inst.storage.allow_do_command && inst.engine_can_suspend) then
      (s, DoCommandExit.AI_FatalError DO_COMMAND_NOT_ALLOWED)
    else
      let callback := callback.getD AISuspendCallback.DoCommandReturn
      let estimate_only :=
        match inst.storage.mode with
        | some result => !result
        | none => false
      let p2 := if env.enable_network && env.hasClientIdFlag cmd && p2 == 0 then UINT_MAX else p2
      let done := env.DoCommandPInternal s.world tile p1 p2 cmd (env.networking s.world) text
        estimate_only
      let world := done.1
      let res := done.2
      if res.failed then
        ({ active := some { inst with storage :=
              { inst.storage with last_error := env.StringToError res.message } }
           world := world }, DoCommandExit.returned false)
      else
        let st := { inst.storage with last_error := AIError.ERR_NONE }
        if estimate_only then
          ({ active := some { inst with storage := { st with costs := st.costs + res.cost } }
             world := world }, DoCommandExit.returned true)
        else
          let st := SetLastCommandRes env world { st with last_cost := res.cost } true
          if env.networking world then
            ({ active := some { inst with storage := st }, world := world },
              DoCommandExit.AI_VMSuspend (wrapInt32 (-(toInt32 st.delay))) callback)
          else
            ({ active := some { inst with storage := { st with costs := st.costs + res.cost } }
               world := world },
              DoCommandExit.AI_VMSuspend (toInt32 st.delay) callback)

end AIObject

/-- A storage for a scenario: commands are not allowed. -/
def scenarioStorage : AIStorage :=
  { mode := none, mode_instance := none, delay := 1, allow_do_command := false
    costs := 100, last_cost := 7, last_error := 3, last_command_res := true
    new_vehicle_id := 0, new_sign_id := 0, new_tunnel_endtile := 0, new_group_id := 0
    road_type := 0, rail_type := 0, callback_value := [] }

/-- A game for a scenario: a counter of the commands carried out; every
command succeeds at a cost of 5. -/
def scenarioCommandEnv : CommandEnv Nat :=
  { DoCommandPInternal := fun w _ _ _ _ _ _ _ => (w + 1, { cost := 5, failed := false, message := 0 })
    hasClientIdFlag := fun _ => false
    StringToError := fun e => e
    networking := fun _ => false
    new_vehicle_id := fun _ => 0
    new_sign_id := fun _ => 0
    build_tunnel_endtile := fun _ => 0
    new_group_id := fun _ => 0
    enable_network := true }

/-- A component of two nodes with fresh edges, the head of row 1 set to 0. -/
def scenarioComponent : LinkGraphComponent :=
  { cargo := 0, num_nodes := 2, component_colour := 1
    nodes := [⟨10, 10, 0, 3⟩, ⟨0, 0, 10, 4⟩]
    edges := [[Edge.construct, Edge.construct],
      [Edge.construct, { Edge.construct with next_edge := 0 }]] }

/-! ## Theorems -/

section LinkStatTheorems

/-- C1: ageing a `LinkStat` (`*= 30` then `/= d` with `d > 0`) whose
`30 * capacity` and `30 * usage` fit in a `uint` gives
`usage = ⌊30 * usage / d⌋`, `capacity = max frozen ⌊30 * capacity / d⌋` and the
same `frozen`. -/
theorem LinkStat.ageing_value (s : LinkStat) (d : Nat) (hd : 0 < d)
    (hcap : 30 * s.capacity < 2 ^ 32) (huse : 30 * s.usage < 2 ^ 32) :
    (s.mulAssign 30).divAssign d =
      some { capacity := max s.frozen (30 * s.capacity / d)
             frozen := s.frozen
             usage := 30 * s.usage / d } := by
  have h1 : (s.capacity * 30) % UINT_RANGE = 30 * s.capacity := by
    rw [Nat.mul_comm]; exact Nat.mod_eq_of_lt hcap
  have h2 : (s.usage * 30) % UINT_RANGE = 30 * s.usage := by
    rw [Nat.mul_comm]; exact Nat.mod_eq_of_lt huse
  simp only [LinkStat.mulAssign, LinkStat.divAssign, h1, h2, Nat.pos_iff_ne_zero.mp hd,
    if_false]
  congr 2
  by_cases h : 30 * s.capacity / d < s.frozen
  · rw [if_pos h, Nat.max_eq_left (Nat.le_of_lt h)]
  · rw [if_neg h, Nat.max_eq_right (Nat.le_of_not_lt h)]

/-- Witness of C1: the spec scenario S6, `{capacity=300, usage=150,
frozen=100}` aged with `d = 300` becomes capacity 100 and usage 15. -/
theorem LinkStat.ageing_value_witness :
    (({ capacity := 300, frozen := 100, usage := 150 } : LinkStat).mulAssign 30).divAssign 300 =
      some { capacity := 100, frozen := 100, usage := 15 } :=
  LinkStat.ageing_value { capacity := 300, frozen := 100, usage := 150 } 300
    (by decide) (by decide) (by decide)

/-- C2: for every `LinkStat`, factor and nonzero divisor, `*= factor` followed
by `/= divisor` has a result, and in it `capacity` is at least `frozen`, which
is the `frozen` of the start. -/
theorem LinkStat.ageing_capacity_ge_frozen (s : LinkStat) (factor divisor : Nat)
    (hd : divisor ≠ 0) :
    ∃ r, (s.mulAssign factor).divAssign divisor = some r ∧
      r.frozen = s.frozen ∧ r.frozen ≤ r.capacity := by
  have hres : (s.mulAssign factor).divAssign divisor =
      some { capacity := if (s.mulAssign factor).capacity / divisor < s.frozen then s.frozen
                         else (s.mulAssign factor).capacity / divisor
             frozen := s.frozen
             usage := (s.mulAssign factor).usage / divisor } := by
    simp only [LinkStat.divAssign, hd, if_false]
    rfl
  refine ⟨_, hres, rfl, ?_⟩
  show s.frozen ≤ if (s.mulAssign factor).capacity / divisor < s.frozen then s.frozen
      else (s.mulAssign factor).capacity / divisor
  split
  · exact Nat.le_refl _
  · next h => exact Nat.le_of_not_lt h

/-- Witness of C2: a capacity whose product with the factor wraps around. -/
theorem LinkStat.ageing_capacity_ge_frozen_witness :
    ∃ r, (({ capacity := 4294967295, frozen := 5, usage := 4294967295 } :
        LinkStat).mulAssign 30).divAssign 7 = some r ∧
      r.frozen = 5 ∧ r.frozen ≤ r.capacity :=
  LinkStat.ageing_capacity_ge_frozen
    { capacity := 4294967295, frozen := 5, usage := 4294967295 } 30 7 (by decide)

end LinkStatTheorems

section FlowStatTheorems

/-- The conversion `(int)u` is the identity below `2 ^ 31`. -/
theorem toInt32_of_lt {u : Nat} (h : u < 2 ^ 31) : toInt32 u = (u : Int) := by
  have h1 : u % UINT_RANGE = u := Nat.mod_eq_of_lt (by unfold UINT_RANGE; omega)
  unfold toInt32
  rw [h1, if_pos h]

/-- An integer in the range of `int` is not changed by the reduction. -/
theorem wrapInt32_of_range {i : Int} (h1 : -(2 ^ 31) ≤ i) (h2 : i < 2 ^ 31) :
    wrapInt32 i = i := by
  unfold wrapInt32
  omega

/-- Below `2 ^ 31` the signed difference of the code is the integer difference. -/
theorem FlowStat.diff_eq_remainingCredit (x : FlowStat) (hp : x.planned < 2 ^ 31)
    (hs : x.sent < 2 ^ 31) : x.diff = x.remainingCredit := by
  unfold FlowStat.diff FlowStat.remainingCredit
  rw [toInt32_of_lt hp, toInt32_of_lt hs]
  apply wrapInt32_of_range <;> omega

/-- The comparison in terms of the signed difference and `via`. -/
theorem FlowStat.comp_iff (x y : FlowStat) :
    FlowStat.comp x y = true ↔ x.diff > y.diff ∨ (x.diff = y.diff ∧ x.via > y.via) := by
  unfold FlowStat.comp
  by_cases h : x.diff = y.diff
  · simp [h]
  · simp only [ne_eq, h, not_false_eq_true, if_true, decide_eq_true_eq, false_and, or_false]

/-- `FlowStat::comp` is transitive. -/
theorem FlowStat.comp_trans {x y z : FlowStat} (hxy : FlowStat.comp x y = true)
    (hyz : FlowStat.comp y z = true) : FlowStat.comp x z = true := by
  rw [FlowStat.comp_iff] at *
  omega

/-- Counterexample to C3 as stated: with `planned = 2 ^ 31` the remaining credit
`planned − sent` of `x` exceeds that of `y`, yet `comp x y` is false, because
`(int)x.planned` is negative. -/
theorem FlowStat.comp_specOrder_counterexample :
    ¬ (FlowStat.comp ⟨2147483648, 0, 0⟩ ⟨0, 0, 0⟩ = true ↔
        FlowStat.specOrder ⟨2147483648, 0, 0⟩ ⟨0, 0, 0⟩) := by
  have hc : FlowStat.comp ⟨2147483648, 0, 0⟩ ⟨0, 0, 0⟩ = false := by decide
  have hs : FlowStat.specOrder ⟨2147483648, 0, 0⟩ ⟨0, 0, 0⟩ := by
    left
    simp [FlowStat.remainingCredit]
  rw [hc]
  simp [hs]

/-- C3 (amended): for flow stats whose `planned` and `sent` are below `2 ^ 31`,
`comp x y` is true exactly when the remaining credit `planned − sent` of `x` is
greater than that of `y`, or the two are equal and `x.via > y.via`. -/
theorem FlowStat.comp_iff_specOrder (x y : FlowStat)
    (hxp : x.planned < 2 ^ 31) (hxs : x.sent < 2 ^ 31)
    (hyp : y.planned < 2 ^ 31) (hys : y.sent < 2 ^ 31) :
    FlowStat.comp x y = true ↔ FlowStat.specOrder x y := by
  rw [FlowStat.comp_iff, FlowStat.diff_eq_remainingCredit x hxp hxs,
    FlowStat.diff_eq_remainingCredit y hyp hys]
  rfl

/-- Witness of C3 (amended): `{planned=10, sent=4, via=2}` goes before
`{planned=9, sent=3, via=1}`: equal remaining credit 6, larger `via`. -/
theorem FlowStat.comp_iff_specOrder_witness :
    FlowStat.comp ⟨10, 4, 2⟩ ⟨9, 3, 1⟩ = true ↔ FlowStat.specOrder ⟨10, 4, 2⟩ ⟨9, 3, 1⟩ :=
  FlowStat.comp_iff_specOrder ⟨10, 4, 2⟩ ⟨9, 3, 1⟩
    (by decide) (by decide) (by decide) (by decide)

end FlowStatTheorems

section FlowStatSetTheorems

/-- An element of the set after an insertion is the inserted one or was there. -/
theorem FlowStatSet.mem_insert {s : FlowStatSet} {x z : FlowStat}
    (h : z ∈ FlowStatSet.insert s x) : z = x ∨ z ∈ s := by
  induction s with
  | nil =>
    simp only [FlowStatSet.insert, List.mem_singleton] at h
    exact Or.inl h
  | cons y ys ih =>
    simp only [FlowStatSet.insert] at h
    split at h
    · rcases List.mem_cons.mp h with h | h
      · exact Or.inl h
      · exact Or.inr h
    · split at h
      · rcases List.mem_cons.mp h with h | h
        · exact Or.inr (h ▸ List.mem_cons_self _ _)
        · rcases ih h with h | h
          · exact Or.inl h
          · exact Or.inr (List.mem_cons_of_mem _ h)
      · exact Or.inr h

/-- An insertion keeps the set strictly ordered by `FlowStat::comp`. -/
theorem FlowStatSet.insert_sorted {s : FlowStatSet} (x : FlowStat)
    (hs : s.Pairwise (fun a b => FlowStat.comp a b = true)) :
    (FlowStatSet.insert s x).Pairwise (fun a b => FlowStat.comp a b = true) := by
  induction s with
  | nil => simp [FlowStatSet.insert]
  | cons y ys ih =>
    rw [List.pairwise_cons] at hs
    simp only [FlowStatSet.insert]
    split
    · next hxy =>
      refine List.pairwise_cons.mpr ⟨?_, List.pairwise_cons.mpr hs⟩
      intro z hz
      rcases List.mem_cons.mp hz with hz | hz
      · exact hz ▸ hxy
      · exact FlowStat.comp_trans hxy (hs.1 z hz)
    · split
      · next hyx =>
        refine List.pairwise_cons.mpr ⟨?_, ih hs.2⟩
        intro z hz
        rcases FlowStatSet.mem_insert hz with hz | hz
        · exact hz ▸ hyx
        · exact hs.1 z hz
      · exact List.pairwise_cons.mpr hs

/-- A set built by insertions is strictly ordered by `FlowStat::comp`. -/
theorem FlowStatSet.foldl_insert_sorted (xs : List FlowStat) (s : FlowStatSet)
    (hs : s.Pairwise (fun a b => FlowStat.comp a b = true)) :
    (xs.foldl FlowStatSet.insert s).Pairwise (fun a b => FlowStat.comp a b = true) := by
  induction xs generalizing s with
  | nil => exact hs
  | cons x xs ih => exact ih _ (FlowStatSet.insert_sorted x hs)

/-- Counterexample to C4 as stated: inserting `{planned=5, sent=0, via=1}` and
`{planned=3, sent=0, via=1}` into the empty set leaves both in the set, two
entries with the same `via`. -/
theorem FlowStatSet.shared_via_counterexample :
    ¬ (FlowStatSet.ofInserts [⟨5, 0, 1⟩, ⟨3, 0, 1⟩]).Pairwise (fun a b => a.via ≠ b.via) := by
  have h : FlowStatSet.ofInserts [⟨5, 0, 1⟩, ⟨3, 0, 1⟩] = [⟨5, 0, 1⟩, ⟨3, 0, 1⟩] := by decide
  rw [h]
  simp

/-- C4 (amended): in every set obtained by inserting flow stats into the empty
set, no two entries share both `via` and the signed remaining credit
`(int)planned - (int)sent`; the entries are strictly ordered by `comp`. -/
theorem FlowStatSet.ofInserts_no_equivalent (xs : List FlowStat) :
    (FlowStatSet.ofInserts xs).Pairwise
      (fun a b => FlowStat.comp a b = true ∧ ¬ (a.via = b.via ∧ a.diff = b.diff)) := by
  have h := FlowStatSet.foldl_insert_sorted xs [] List.Pairwise.nil
  refine List.Pairwise.imp ?_ h
  intro a b hab
  refine ⟨hab, ?_⟩
  rw [FlowStat.comp_iff] at hab
  omega

end FlowStatSetTheorems

section CargoPacketTheorems

/-- C5: `a.SameSource(b)` is true exactly when `a` and `b` agree on
`source_xy`, `days_in_transit`, `next`, `source_type` and `source_id`; changing
`count`, `feeder_share`, `source` or `loaded_at_xy` of either packet does not
change the answer. -/
theorem CargoPacket.SameSource_iff (a b : CargoPacket) :
    (a.SameSource b = true ↔
      a.source_xy = b.source_xy ∧ a.days_in_transit = b.days_in_transit ∧
        a.next = b.next ∧ a.source_type = b.source_type ∧ a.source_id = b.source_id) ∧
    (∀ (fs fs' : Int) (c c' s s' l l' : Nat),
      CargoPacket.SameSource
          { a with feeder_share := fs, count := c, source := s, loaded_at_xy := l }
          { b with feeder_share := fs', count := c', source := s', loaded_at_xy := l' } =
        a.SameSource b) := by
  constructor
  · simp only [CargoPacket.SameSource, Bool.and_eq_true, beq_iff_eq]
    tauto
  · intros
    rfl

/-- The value of `Split` when its precondition holds. -/
theorem CargoPacket.Split_eq (P : CargoPacket) (new_size : Nat) (h0 : 0 < new_size)
    (h1 : new_size < P.count) :
    P.Split new_size =
      some ({ P with count := P.count - new_size
                     feeder_share := P.feeder_share -
                       P.feeder_share * (new_size : Int) / (P.count : Int) },
            { P with count := new_size
                     feeder_share := P.feeder_share * (new_size : Int) / (P.count : Int) }) := by
  unfold CargoPacket.Split
  rw [if_pos ⟨h0, h1⟩]

/-- C6: for `0 < new_size < P.count`, `P.Split(new_size)` returns a packet with
`count = new_size`, `feeder_share = ⌊P.feeder_share * new_size / P.count⌋` and
the `days_in_transit`, `next` and origin fields of `P`, and leaves `P` with
`count` reduced by `new_size` and `feeder_share` reduced by the feeder share of
the new packet, its other fields as they were. -/
theorem CargoPacket.Split_spec (P : CargoPacket) (new_size : Nat) (h0 : 0 < new_size)
    (h1 : new_size < P.count) :
    ∃ P' Q, P.Split new_size = some (P', Q) ∧
      Q.count = new_size ∧
      Q.feeder_share = ⌊((P.feeder_share * (new_size : Int) : Int) : ℚ) / ((P.count : Nat) : ℚ)⌋ ∧
      Q.days_in_transit = P.days_in_transit ∧ Q.next = P.next ∧
      Q.source = P.source ∧ Q.source_type = P.source_type ∧ Q.source_id = P.source_id ∧
      Q.source_xy = P.source_xy ∧
      P'.count = P.count - new_size ∧
      P'.feeder_share = P.feeder_share - Q.feeder_share ∧
      P'.days_in_transit = P.days_in_transit ∧ P'.next = P.next ∧
      P'.source = P.source ∧ P'.source_type = P.source_type ∧ P'.source_id = P.source_id ∧
      P'.source_xy = P.source_xy ∧ P'.loaded_at_xy = P.loaded_at_xy := by
  refine ⟨_, _, CargoPacket.Split_eq P new_size h0 h1, rfl, ?_, rfl, rfl, rfl, rfl, rfl, rfl,
    rfl, rfl, rfl, rfl, rfl, rfl, rfl, rfl, rfl⟩
  exact (Rat.floor_intCast_div_natCast _ _).symm

/-- Witness of C6: the spec scenario S1, `{count=100, feeder=30}.Split(25)`
gives the new packet `{25, 7}` and leaves `{75, 23}`. -/
theorem CargoPacket.Split_spec_witness :
    (∃ P' Q, CargoPacket.Split ⟨30, 100, 2, 7, 3, SourceType.ST_TOWN, 4, 5, 6⟩ 25 = some (P', Q) ∧
      Q.count = 25 ∧ Q.feeder_share = 7 ∧ P'.count = 75 ∧ P'.feeder_share = 23) := by
  obtain ⟨P', Q, h, hc, hf, _, _, _, _, _, _, hc', hf', _⟩ :=
    CargoPacket.Split_spec ⟨30, 100, 2, 7, 3, SourceType.ST_TOWN, 4, 5, 6⟩ 25
      (by decide) (by decide)
  refine ⟨P', Q, h, hc, ?_, hc', ?_⟩
  · rw [hf, Rat.floor_intCast_div_natCast]
    decide
  · rw [hf', hf, Rat.floor_intCast_div_natCast]
    decide

/-- C7: for `0 < k < P.count`, `Q = P.Split(k)` followed by `P.Merge(Q)`
succeeds and restores the `count` and the `feeder_share` of `P` (and with them
the whole packet). -/
theorem CargoPacket.Split_Merge_roundtrip (P : CargoPacket) (k : Nat) (h0 : 0 < k)
    (h1 : k < P.count) :
    ∃ P' Q P'', P.Split k = some (P', Q) ∧ P'.Merge Q = some P'' ∧
      P''.count = P.count ∧ P''.feeder_share = P.feeder_share ∧ P'' = P := by
  have hm : ∀ (c : Nat) (f : Int),
      CargoPacket.Merge { P with count := P.count - k, feeder_share := P.feeder_share - f }
          { P with count := k, feeder_share := f } =
        some { P with count := P.count - k + k, feeder_share := P.feeder_share - f + f } := by
    intro _ f
    unfold CargoPacket.Merge
    rw [if_pos]
    simp [CargoPacket.SameSource]
  have hc : P.count - k + k = P.count := Nat.sub_add_cancel (Nat.le_of_lt h1)
  refine ⟨_, _, _, CargoPacket.Split_eq P k h0 h1, hm 0 _, hc, by simp, ?_⟩
  cases P
  simp only [CargoPacket.mk.injEq, and_true, true_and]
  constructor
  · simp
  · exact Nat.sub_add_cancel (Nat.le_of_lt h1)

/-- Witness of C7: splitting 25 off `{count=100, feeder=30}` and merging back. -/
theorem CargoPacket.Split_Merge_roundtrip_witness :
    ∃ P' Q P'', CargoPacket.Split ⟨30, 100, 2, 7, 3, SourceType.ST_TOWN, 4, 5, 6⟩ 25 = some (P', Q) ∧
      P'.Merge Q = some P'' ∧
      P''.count = 100 ∧ P''.feeder_share = 30 ∧
      P'' = ⟨30, 100, 2, 7, 3, SourceType.ST_TOWN, 4, 5, 6⟩ :=
  CargoPacket.Split_Merge_roundtrip ⟨30, 100, 2, 7, 3, SourceType.ST_TOWN, 4, 5, 6⟩ 25
    (by decide) (by decide)

end CargoPacketTheorems

section CacheLemmas

variable {v : Variant}

/-- No packets, no entities. -/
@[simp]
theorem sumCount_nil : sumCount [] = 0 := rfl

/-- No packets, no feeder share. -/
@[simp]
theorem sumFeederShare_nil : sumFeederShare [] = 0 := rfl

/-- No packets, no days. -/
@[simp]
theorem sumDays_nil : sumDays [] = 0 := rfl

/-- The sum of the counts, one packet at a time. -/
@[simp]
theorem sumCount_cons (cp : CargoPacket) (ps : List CargoPacket) :
    sumCount (cp :: ps) = cp.count + sumCount ps := by
  simp [sumCount]

/-- The sum of the feeder shares, one packet at a time. -/
@[simp]
theorem sumFeederShare_cons (cp : CargoPacket) (ps : List CargoPacket) :
    sumFeederShare (cp :: ps) = cp.feeder_share + sumFeederShare ps := by
  simp [sumFeederShare]

/-- The sum of `count * days_in_transit`, one packet at a time. -/
@[simp]
theorem sumDays_cons (cp : CargoPacket) (ps : List CargoPacket) :
    sumDays (cp :: ps) = cp.count * cp.days_in_transit + sumDays ps := by
  simp [sumDays]

/-- The sum of the counts over two runs of packets. -/
@[simp]
theorem sumCount_append (ps qs : List CargoPacket) :
    sumCount (ps ++ qs) = sumCount ps + sumCount qs := by
  simp [sumCount]

/-- The sum of the feeder shares over two runs of packets. -/
@[simp]
theorem sumFeederShare_append (ps qs : List CargoPacket) :
    sumFeederShare (ps ++ qs) = sumFeederShare ps + sumFeederShare qs := by
  simp [sumFeederShare]

/-- The sum of `count * days_in_transit` over two runs of packets. -/
@[simp]
theorem sumDays_append (ps qs : List CargoPacket) :
    sumDays (ps ++ qs) = sumDays ps + sumDays qs := by
  simp [sumDays]

/-- After a write through the pointer of an element, the element designates the
written packet. -/
@[simp]
theorem Deref_assign (e : Entry v) (cp : CargoPacket) : Deref (e.assign cp) = cp := by
  cases v <;> rfl

/-- The elements of a `CargoPacketList` are the packets themselves. -/
theorem map_Deref_vehicle (ps : List CargoPacket) :
    List.map (@Deref Variant.vehicle) ps = ps := by
  induction ps with
  | nil => rfl
  | cons p ps ih => rw [List.map_cons, ih]; rfl

/-- Consistency is the loop invariant with no packet passed. -/
theorem CargoList.consistent_iff_cachedWith (l : CargoList v) :
    l.Consistent ↔ l.CachedWith l.derefAll 0 0 0 := by
  constructor
  · intro h
    exact ⟨by simpa using h.count_eq, by simpa using h.feeder_share_eq,
      by simpa using h.days_in_transit_eq⟩
  · intro h
    exact ⟨by simpa using h.1, by simpa using h.2.1, by simpa using h.2.2⟩

/-- `RemoveFromCache` of the packet at the front accounts for its removal. -/
theorem CargoList.CachedWith.remove {l : CargoList v} {cp : CargoPacket} {ps : List CargoPacket}
    {a : Nat} {b : Int} {c : Nat} (h : l.CachedWith (cp :: ps) a b c) :
    (l.RemoveFromCache cp).CachedWith ps a b c := by
  obtain ⟨h1, h2, h3⟩ := h
  simp only [sumCount_cons, sumFeederShare_cons, sumDays_cons] at h1 h2 h3
  refine ⟨?_, ?_, ?_⟩
  · show l.count - cp.count = _
    omega
  · show l.feeder_share - cp.feeder_share = _
    omega
  · show l.days_in_transit - cp.count * cp.days_in_transit = _
    omega

/-- Passing over the packet at the front moves its share into the offsets. -/
theorem CargoList.CachedWith.skip {l : CargoList v} {cp : CargoPacket} {ps : List CargoPacket}
    {a : Nat} {b : Int} {c : Nat} (h : l.CachedWith (cp :: ps) a b c) :
    l.CachedWith ps (a + cp.count) (b + cp.feeder_share)
      (c + cp.count * cp.days_in_transit) := by
  obtain ⟨h1, h2, h3⟩ := h
  simp only [sumCount_cons, sumFeederShare_cons, sumDays_cons] at h1 h2 h3
  exact ⟨by omega, by omega, by omega⟩

/-- A packet that stays goes back from the offsets to the front of the packets. -/
theorem CargoList.CachedWith.cons {r : CargoList v} {cp : CargoPacket} {qs : List CargoPacket}
    {a : Nat} {b : Int} {c : Nat} (es : List (Entry v))
    (h : r.CachedWith qs (a + cp.count) (b + cp.feeder_share)
      (c + cp.count * cp.days_in_transit)) :
    CargoList.CachedWith { r with packets := es } (cp :: qs) a b c := by
  obtain ⟨h1, h2, h3⟩ := h
  refine ⟨?_, ?_, ?_⟩
  · show r.count = _
    simp only [sumCount_cons]; omega
  · show r.feeder_share = _
    simp only [sumFeederShare_cons]; omega
  · show r.days_in_transit = _
    simp only [sumDays_cons]; omega

/-- `RemoveFromCache` of the part split off the packet at the front accounts for
the split: the rest stays at the front. -/
theorem CargoList.CachedWith.split_remove {l : CargoList v} {cp rest part : CargoPacket}
    {k : Nat} {ps : List CargoPacket} {a : Nat} {b : Int} {c : Nat}
    (hs : cp.Split k = some (rest, part)) (h : l.CachedWith (cp :: ps) a b c) :
    (l.RemoveFromCache part).CachedWith (rest :: ps) a b c := by
  unfold CargoPacket.Split at hs
  split at hs
  · next hk =>
    simp only [Option.some.injEq, Prod.mk.injEq] at hs
    obtain ⟨hrest, hpart⟩ := hs
    obtain ⟨h1, h2, h3⟩ := h
    simp only [sumCount_cons, sumFeederShare_cons, sumDays_cons] at h1 h2 h3
    have hd : (cp.count - k) * cp.days_in_transit + k * cp.days_in_transit =
        cp.count * cp.days_in_transit := by
      rw [← Nat.add_mul, Nat.sub_add_cancel (Nat.le_of_lt hk.2)]
    subst hrest hpart
    refine ⟨?_, ?_, ?_⟩
    · show l.count - k = _
      simp only [sumCount_cons]; omega
    · show l.feeder_share - _ = _
      simp only [sumFeederShare_cons]; omega
    · show l.days_in_transit - k * cp.days_in_transit = _
      simp only [sumDays_cons]; omega
  · exact absurd hs (by simp)

/-- The loop of `Truncate` keeps the caches in step with the packets that stay. -/
theorem CargoList.truncateLoop_cachedWith (es : List (Entry v)) :
    ∀ (l : CargoList v) (n a : Nat) (b : Int) (c : Nat),
      l.CachedWith (es.map Deref) a b c →
      (CargoList.truncateLoop l es n).CachedWith
        ((CargoList.truncateLoop l es n).packets.map Deref) a b c := by
  induction es with
  | nil => intro l n a b c h; exact h
  | cons e es ih =>
    intro l n a b c h
    rw [List.map_cons] at h
    unfold CargoList.truncateLoop
    split
    · exact ih _ _ _ _ _ h.remove
    · split
      · next hn hlt =>
        rw [CargoPacket.Split_eq _ _ (by omega) (by omega)]
        have hs := CargoPacket.Split_eq (Deref e) ((Deref e).count - n) (by omega) (by omega)
        have h' := (CargoList.CachedWith.split_remove hs h).skip
        have h'' := ih _ 0 _ _ _ h'
        simp only [List.map_cons, Deref_assign]
        exact CargoList.CachedWith.cons _ h''
      · have h'' := ih l (n - (Deref e).count) _ _ _ h.skip
        simp only [List.map_cons]
        exact CargoList.CachedWith.cons _ h''

/-- `Truncate` keeps a list consistent. -/
theorem CargoList.Truncate_consistent (l : CargoList v) (n : Nat) (h : l.Consistent) :
    (l.Truncate n).Consistent := by
  rw [CargoList.consistent_iff_cachedWith] at *
  exact CargoList.truncateLoop_cachedWith l.packets l n 0 0 0 h


/-- The loop of `AgeCargo` keeps the caches in step with the aged packets. -/
theorem CargoList.ageLoop_cachedWith (es : List (Entry v)) :
    ∀ (l : CargoList v) (a : Nat) (b : Int) (c : Nat),
      l.CachedWith (es.map Deref) a b c →
      (CargoList.ageLoop l es).CachedWith ((CargoList.ageLoop l es).packets.map Deref) a b c := by
  induction es with
  | nil => intro l a b c h; exact h
  | cons e es ih =>
    intro l a b c h
    rw [List.map_cons] at h
    unfold CargoList.ageLoop
    split
    · simp only [List.map_cons, Deref_assign]
      refine CargoList.CachedWith.cons _ (ih _ _ _ _ ?_)
      obtain ⟨h1, h2, h3⟩ := h
      simp only [sumCount_cons, sumFeederShare_cons, sumDays_cons] at h1 h2 h3
      refine ⟨?_, ?_, ?_⟩
      · show l.count = sumCount _ + (a + (Deref e).count)
        omega
      · show l.feeder_share = sumFeederShare _ + (b + (Deref e).feeder_share)
        omega
      · show l.days_in_transit + (Deref e).count =
          sumDays _ + (c + (Deref e).count * ((Deref e).days_in_transit + 1))
        rw [Nat.mul_succ]
        omega
    · simp only [List.map_cons]
      exact CargoList.CachedWith.cons _ (ih _ _ _ _ h.skip)

/-- `AgeCargo` keeps a list consistent. -/
theorem CargoList.AgeCargo_consistent (l : CargoList v) (h : l.Consistent) :
    l.AgeCargo.Consistent := by
  rw [CargoList.consistent_iff_cachedWith] at *
  exact CargoList.ageLoop_cachedWith l.packets l 0 0 0 h

/-- An insertion into the multimap adds the new element and keeps the others. -/
theorem multimapInsert_perm (m : List (Nat × CargoPacket)) (key : Nat) (cp : CargoPacket) :
    (multimapInsert m key cp).Perm ((key, cp) :: m) := by
  induction m with
  | nil => exact List.Perm.refl _
  | cons e es ih =>
    unfold multimapInsert
    split
    · exact List.Perm.refl _
    · exact (List.Perm.cons e ih).trans (List.Perm.swap _ _ _)

/-- `Insert` of either variant adds the packet and keeps the others. -/
theorem Insert_perm (es : List (Entry v)) (cp : CargoPacket) :
    ((Insert es cp).map Deref).Perm (cp :: es.map Deref) := by
  cases v with
  | vehicle =>
    show (List.map Deref (es ++ [cp])).Perm _
    rw [List.map_append]
    exact List.perm_append_comm
  | station =>
    exact List.Perm.map (@Deref Variant.station) (multimapInsert_perm es cp.next cp)

/-- The sum of the counts does not depend on the order of the packets. -/
theorem sumCount_perm {ps qs : List CargoPacket} (h : ps.Perm qs) : sumCount ps = sumCount qs :=
  (h.map _).sum_eq

/-- The sum of the feeder shares does not depend on the order of the packets. -/
theorem sumFeederShare_perm {ps qs : List CargoPacket} (h : ps.Perm qs) :
    sumFeederShare ps = sumFeederShare qs :=
  (h.map _).sum_eq

/-- The sum of `count * days_in_transit` does not depend on the order of the
packets. -/
theorem sumDays_perm {ps qs : List CargoPacket} (h : ps.Perm qs) : sumDays ps = sumDays qs :=
  (h.map _).sum_eq

/-- `AddToCache` followed by `Insert` keeps a list consistent. -/
theorem CargoList.insert_consistent (l : CargoList v) (cp : CargoPacket) (h : l.Consistent) :
    CargoList.Consistent { l.AddToCache cp with packets := Insert (l.AddToCache cp).packets cp } := by
  have hp := Insert_perm l.packets cp
  refine ⟨?_, ?_, ?_⟩
  · show l.count + cp.count = sumCount ((Insert l.packets cp).map Deref)
    rw [sumCount_perm hp, sumCount_cons, h.count_eq]
    exact Nat.add_comm _ _
  · show l.feeder_share + cp.feeder_share = sumFeederShare ((Insert l.packets cp).map Deref)
    rw [sumFeederShare_perm hp, sumFeederShare_cons, h.feeder_share_eq]
    exact Int.add_comm _ _
  · show l.days_in_transit + cp.count * cp.days_in_transit =
      sumDays ((Insert l.packets cp).map Deref)
    rw [sumDays_perm hp, sumDays_cons, h.days_in_transit_eq]
    exact Nat.add_comm _ _

/-- `Append` keeps a list consistent, whether the packet is merged or inserted. -/
theorem CargoList.Append_consistent (l : CargoList v) (cp : CargoPacket) (merge : Bool)
    (h : l.Consistent) : (l.Append cp merge).Consistent := by
  unfold CargoList.Append
  simp only
  split
  · next e he =>
    split
    · next merged hm =>
      have hl : l.packets = l.packets.dropLast ++ [e] :=
        (List.dropLast_append_getLast? e he).symm
      unfold CargoPacket.Merge at hm
      split at hm
      · next hsame =>
        simp only [Option.some.injEq] at hm
        have hdays : (Deref e).days_in_transit = cp.days_in_transit := by
          simp only [CargoPacket.SameSource, Bool.and_eq_true, beq_iff_eq] at hsame
          exact hsame.1.1.1.2
        have hc := h.count_eq
        have hf := h.feeder_share_eq
        have hd := h.days_in_transit_eq
        unfold CargoList.derefAll at hc hf hd
        rw [hl, List.map_append] at hc hf hd
        simp only [sumCount_append, sumFeederShare_append, sumDays_append, List.map_cons,
          List.map_nil, sumCount_cons, sumFeederShare_cons, sumDays_cons, sumCount_nil,
          sumFeederShare_nil, sumDays_nil] at hc hf hd
        subst hm
        refine ⟨?_, ?_, ?_⟩
        · show l.count + cp.count = sumCount (List.map Deref (l.packets.dropLast ++ [_]))
          simp only [List.map_append, sumCount_append, List.map_cons, List.map_nil,
            sumCount_cons, sumCount_nil, Deref_assign]
          omega
        · show l.feeder_share + cp.feeder_share =
            sumFeederShare (List.map Deref (l.packets.dropLast ++ [_]))
          simp only [List.map_append, sumFeederShare_append, List.map_cons, List.map_nil,
            sumFeederShare_cons, sumFeederShare_nil, Deref_assign]
          omega
        · show l.days_in_transit + cp.count * cp.days_in_transit =
            sumDays (List.map Deref (l.packets.dropLast ++ [_]))
          simp only [List.map_append, sumDays_append, List.map_cons, List.map_nil,
            sumDays_cons, sumDays_nil, Deref_assign]
          rw [Nat.add_mul, ← hdays]
          omega
      · exact absurd hm (by simp)
    · exact CargoList.insert_consistent l cp h
  · exact CargoList.insert_consistent l cp h


/-- The move loop keeps the caches of the source in step with the packets that
stay. -/
theorem CargoList.movePacketsLoop_source {a b : Variant} (load_place : Option Nat)
    (es : List (Entry a)) :
    ∀ (src : CargoList a) (dest : CargoList b) (cap x : Nat) (y : Int) (z : Nat),
      src.CachedWith (es.map Deref) x y z →
      (CargoList.movePacketsLoop load_place src dest es cap).source.CachedWith
        ((CargoList.movePacketsLoop load_place src dest es cap).source.packets.map Deref)
        x y z := by
  induction es with
  | nil => intro src dest cap x y z h; exact h
  | cons e es ih =>
    intro src dest cap x y z h
    unfold CargoList.movePacketsLoop
    split
    · exact h
    · split
      · rw [List.map_cons] at h
        exact ih _ _ _ _ _ _ h.remove
      · next hcap hgt =>
        rw [List.map_cons] at h
        have hs := CargoPacket.Split_eq (Deref e) cap (by omega) (by omega)
        rw [hs]
        have h' := CargoList.CachedWith.split_remove hs h
        simp only [List.map_cons, Deref_assign]
        exact h'

/-- The move loop keeps the destination consistent. -/
theorem CargoList.movePacketsLoop_dest {a b : Variant} (load_place : Option Nat)
    (es : List (Entry a)) :
    ∀ (src : CargoList a) (dest : CargoList b) (cap : Nat),
      dest.Consistent →
      (CargoList.movePacketsLoop load_place src dest es cap).dest.Consistent := by
  induction es with
  | nil => intro src dest cap h; exact h
  | cons e es ih =>
    intro src dest cap h
    unfold CargoList.movePacketsLoop
    split
    · exact h
    · split
      · exact ih _ _ _ (CargoList.Append_consistent _ _ _ h)
      · next hcap hgt =>
        rw [CargoPacket.Split_eq (Deref e) cap (by omega) (by omega)]
        exact CargoList.Append_consistent _ _ _ h

/-- `MovePackets` over a range keeps the source consistent. -/
theorem CargoList.MovePackets_source {a b : Variant} (src : CargoList a) (dest : CargoList b)
    (cap : Nat) (range : Nat × Nat) (load_place : Option Nat) (h : src.Consistent) :
    (CargoList.MovePackets src dest cap range load_place).source.Consistent := by
  have hsplit : src.packets = src.packets.take range.1 ++
      ((src.packets.drop range.1).take (range.2 - range.1) ++
        (src.packets.drop range.1).drop (range.2 - range.1)) := by
    rw [List.take_append_drop, List.take_append_drop]
  have hc := h.count_eq
  have hf := h.feeder_share_eq
  have hd := h.days_in_transit_eq
  unfold CargoList.derefAll at hc hf hd
  rw [hsplit] at hc hf hd
  simp only [List.map_append, sumCount_append, sumFeederShare_append, sumDays_append]
    at hc hf hd
  have hmid : src.CachedWith
      (((src.packets.drop range.1).take (range.2 - range.1)).map Deref)
      (sumCount ((src.packets.take range.1).map Deref) +
        sumCount (((src.packets.drop range.1).drop (range.2 - range.1)).map Deref))
      (sumFeederShare ((src.packets.take range.1).map Deref) +
        sumFeederShare (((src.packets.drop range.1).drop (range.2 - range.1)).map Deref))
      (sumDays ((src.packets.take range.1).map Deref) +
        sumDays (((src.packets.drop range.1).drop (range.2 - range.1)).map Deref)) :=
    ⟨by omega, by omega, by omega⟩
  obtain ⟨r1, r2, r3⟩ := CargoList.movePacketsLoop_source load_place _ src dest cap _ _ _ hmid
  unfold CargoList.MovePackets
  refine ⟨?_, ?_, ?_⟩
  · show (CargoList.movePacketsLoop load_place src dest _ cap).source.count = sumCount (List.map Deref _)
    simp only [List.map_append, sumCount_append]
    omega
  · show (CargoList.movePacketsLoop load_place src dest _ cap).source.feeder_share =
      sumFeederShare (List.map Deref _)
    simp only [List.map_append, sumFeederShare_append]
    omega
  · show (CargoList.movePacketsLoop load_place src dest _ cap).source.days_in_transit =
      sumDays (List.map Deref _)
    simp only [List.map_append, sumDays_append]
    omega

/-- `MovePackets` over a range keeps the destination consistent. -/
theorem CargoList.MovePackets_dest {a b : Variant} (src : CargoList a) (dest : CargoList b)
    (cap : Nat) (range : Nat × Nat) (load_place : Option Nat) (h : dest.Consistent) :
    (CargoList.MovePackets src dest cap range load_place).dest.Consistent :=
  CargoList.movePacketsLoop_dest load_place _ src dest cap h

/-- `StationCargoList::MoveToVehicle` keeps both lists consistent. -/
theorem StationCargoList.MoveToVehicle_consistent (src : StationCargoList)
    (dest : VehicleCargoList) (cap next_station : Nat) (load_place : Option Nat)
    (any_permitted : Bool) (hs : src.Consistent) (hd : dest.Consistent) :
    (src.MoveToVehicle dest cap next_station load_place any_permitted).source.Consistent ∧
      (src.MoveToVehicle dest cap next_station load_place any_permitted).dest.Consistent := by
  have h1 := CargoList.MovePackets_source src dest cap (src.FindByNext next_station) load_place hs
  have h2 := CargoList.MovePackets_dest src dest cap (src.FindByNext next_station) load_place hd
  unfold StationCargoList.MoveToVehicle
  simp only
  split
  · exact ⟨CargoList.MovePackets_source _ _ _ _ _ h1, CargoList.MovePackets_dest _ _ _ _ _ h2⟩
  · exact ⟨h1, h2⟩

/-- The loop of `MoveToStation` keeps the caches of the vehicle list in step with
the packets that stay. -/
theorem moveToStationLoop_source {σ : Type} (env : MoveEnv σ) (ul : UnloadDescription)
    (es : List CargoPacket) :
    ∀ (w : σ) (src : VehicleCargoList) (dest : StationCargoList) (cap x : Nat) (y : Int)
      (z : Nat), src.CachedWith es x y z →
      (moveToStationLoop env ul w src dest es cap).2.source.CachedWith
        (moveToStationLoop env ul w src dest es cap).2.source.packets x y z := by
  induction es with
  | nil => intro w src dest cap x y z h; exact h
  | cons cp es ih =>
    intro w src dest cap x y z h
    unfold moveToStationLoop
    split
    · exact h
    · next hcap =>
      split
      · exact CargoList.CachedWith.cons _ (ih _ _ _ _ _ _ _ h.skip)
      · split
        · exact ih _ _ _ _ _ _ _ h.remove
        · have hs := CargoPacket.Split_eq cp cap (by omega) (by omega)
          rw [hs]
          exact CargoList.CachedWith.split_remove hs h
      · split
        · exact ih _ _ _ _ _ _ _ h.remove
        · have hs := CargoPacket.Split_eq cp cap (by omega) (by omega)
          rw [hs]
          exact CargoList.CachedWith.split_remove hs h

/-- The loop of `MoveToStation` keeps the station list consistent. -/
theorem moveToStationLoop_dest {σ : Type} (env : MoveEnv σ) (ul : UnloadDescription)
    (es : List CargoPacket) :
    ∀ (w : σ) (src : VehicleCargoList) (dest : StationCargoList) (cap : Nat),
      dest.Consistent → (moveToStationLoop env ul w src dest es cap).2.dest.Consistent := by
  induction es with
  | nil => intro w src dest cap h; exact h
  | cons cp es ih =>
    intro w src dest cap h
    unfold moveToStationLoop
    split
    · exact h
    · next hcap =>
      split
      · exact ih _ _ _ _ h
      · split
        · exact ih _ _ _ _ h
        · rw [CargoPacket.Split_eq cp cap (by omega) (by omega)]
          exact h
      · split
        · exact ih _ _ _ _ (CargoList.Append_consistent _ _ _ h)
        · rw [CargoPacket.Split_eq cp cap (by omega) (by omega)]
          exact CargoList.Append_consistent _ _ _ h

/-- `MoveToStation` keeps both lists consistent. -/
theorem VehicleCargoList.MoveToStation_consistent {σ : Type} (env : MoveEnv σ) (w : σ)
    (src : VehicleCargoList) (dest : StationCargoList) (max_unload : Nat)
    (ul : UnloadDescription) (hs : src.Consistent) (hd : dest.Consistent) :
    (src.MoveToStation env w dest max_unload ul).2.source.Consistent ∧
      (src.MoveToStation env w dest max_unload ul).2.dest.Consistent := by
  constructor
  · rw [CargoList.consistent_iff_cachedWith] at hs ⊢
    unfold CargoList.derefAll at hs ⊢
    rw [map_Deref_vehicle] at hs ⊢
    exact moveToStationLoop_source env ul src.packets w src dest max_unload 0 0 0 hs
  · exact moveToStationLoop_dest env ul src.packets w src dest max_unload hd

/-- A newly constructed list is consistent. -/
theorem CargoList.construct_consistent (v : Variant) : (CargoList.construct v).Consistent :=
  ⟨rfl, rfl, rfl⟩

/-- Every reachable list is consistent. -/
theorem Reachable.consistent {v : Variant} {l : CargoList v} (h : Reachable l) :
    l.Consistent := by
  induction h with
  | construct v => exact CargoList.construct_consistent v
  | append l cp merge _ ih => exact CargoList.Append_consistent l cp merge ih
  | truncate l n _ ih => exact CargoList.Truncate_consistent l n ih
  | ageCargo l _ ih => exact CargoList.AgeCargo_consistent l ih
  | moveToStation_source env w src dest m ul _ _ ihs ihd =>
    exact (VehicleCargoList.MoveToStation_consistent env w src dest m ul ihs ihd).1
  | moveToStation_dest env w src dest m ul _ _ ihs ihd =>
    exact (VehicleCargoList.MoveToStation_consistent env w src dest m ul ihs ihd).2
  | vehicleMoveToVehicle_source src dest cap lp _ _ ihs _ =>
    exact CargoList.MovePackets_source src dest cap _ lp ihs
  | vehicleMoveToVehicle_dest src dest cap lp _ _ _ ihd =>
    exact CargoList.MovePackets_dest src dest cap _ lp ihd
  | stationMoveToVehicle_source src dest cap ns lp ap _ _ ihs ihd =>
    exact (StationCargoList.MoveToVehicle_consistent src dest cap ns lp ap ihs ihd).1
  | stationMoveToVehicle_dest src dest cap ns lp ap _ _ ihs ihd =>
    exact (StationCargoList.MoveToVehicle_consistent src dest cap ns lp ap ihs ihd).2


/-- The cached count after the loop of `Truncate`: what was there less the
entities beyond the first `n`. -/
theorem CargoList.truncateLoop_count (es : List (Entry v)) :
    ∀ (l : CargoList v) (n : Nat),
      (CargoList.truncateLoop l es n).count = l.count - (sumCount (es.map Deref) - n) := by
  induction es with
  | nil => intro l n; show l.count = _; simp
  | cons e es ih =>
    intro l n
    unfold CargoList.truncateLoop
    simp only [List.map_cons, sumCount_cons]
    split
    · next h0 =>
      rw [ih]
      show l.count - (Deref e).count - _ = _
      omega
    · split
      · next hn hlt =>
        rw [CargoPacket.Split_eq _ _ (by omega) (by omega)]
        show (CargoList.truncateLoop _ es 0).count = _
        rw [ih]
        show l.count - ((Deref e).count - n) - _ = _
        omega
      · show (CargoList.truncateLoop l es _).count = _
        rw [ih]
        omega

/-- The entities that stay after the loop of `Truncate` are the first `n`. -/
theorem CargoList.truncateLoop_entities (es : List (Entry v)) :
    ∀ (l : CargoList v) (n : Nat),
      ((CargoList.truncateLoop l es n).packets.map Deref).flatMap CargoPacket.entities =
        ((es.map Deref).flatMap CargoPacket.entities).take n := by
  induction es with
  | nil => intro l n; simp [CargoList.truncateLoop]
  | cons e es ih =>
    intro l n
    unfold CargoList.truncateLoop
    split
    · next h0 =>
      rw [ih, h0, List.take_zero, List.take_zero]
    · split
      · next hn hlt =>
        rw [CargoPacket.Split_eq _ _ (by omega) (by omega)]
        simp only [List.map_cons, List.flatMap_cons, Deref_assign, ih, List.take_zero,
          List.append_nil]
        rw [List.take_append_of_le_length (by simp [CargoPacket.entities]; omega)]
        simp only [CargoPacket.entities, List.take_replicate]
        have h1 : (Deref e).count - ((Deref e).count - n) = n := by omega
        have h2 : min n (Deref e).count = n := by omega
        rw [h1, h2]
        rfl
      · next hn hge =>
        simp only [List.map_cons, List.flatMap_cons, ih]
        have hlen : (Deref e).entities.length = (Deref e).count := by
          simp [CargoPacket.entities]
        have hn' : n = (Deref e).entities.length + (n - (Deref e).count) := by omega
        conv_rhs => rw [hn', List.take_append]

/-- With nothing allowed to stay, the loop of `Truncate` removes every packet. -/
theorem CargoList.truncateLoop_zero (es : List (Entry v)) :
    ∀ (l : CargoList v), (CargoList.truncateLoop l es 0).packets = [] := by
  induction es with
  | nil => intro l; rfl
  | cons e es ih =>
    intro l
    unfold CargoList.truncateLoop
    rw [if_pos rfl]
    exact ih _

/-- The packets that stay after the loop of `Truncate` are, up to size and
feeder share, an initial run of the packets. -/
theorem CargoList.truncateLoop_prefix (es : List (Entry v)) :
    ∀ (l : CargoList v) (n : Nat),
      ((CargoList.truncateLoop l es n).packets.map fun e => (Deref e).unit) <+:
        (es.map fun e => (Deref e).unit) := by
  induction es with
  | nil => intro l n; simp [CargoList.truncateLoop]
  | cons e es ih =>
    intro l n
    unfold CargoList.truncateLoop
    split
    · next h0 =>
      rw [CargoList.truncateLoop_zero]
      exact List.nil_prefix
    · split
      · next hn hlt =>
        rw [CargoPacket.Split_eq _ _ (by omega) (by omega)]
        simp only [List.map_cons, Deref_assign]
        exact (List.prefix_cons_inj _).mpr (ih _ _)
      · simp only [List.map_cons]
        exact (List.prefix_cons_inj _).mpr (ih _ _)

end CacheLemmas

section CargoListTheorems

variable {v : Variant}

/-- C9: for a list with `Count() > 0` whose cached `count` and `days_in_transit`
agree with its packets, `DaysInTransit()` returns the sum of
`count * days_in_transit` over the packets divided by the sum of the counts,
rounded down. -/
theorem CargoList.DaysInTransit_weighted_mean (l : CargoList v) (hpos : 0 < l.Count)
    (hcount : l.count = sumCount l.derefAll)
    (hdays : l.days_in_transit = sumDays l.derefAll) :
    l.DaysInTransit = some (sumDays l.derefAll / sumCount l.derefAll) ∧
      ((sumDays l.derefAll / sumCount l.derefAll : Nat) : Int) =
        ⌊((sumDays l.derefAll : Nat) : ℚ) / ((sumCount l.derefAll : Nat) : ℚ)⌋ := by
  constructor
  · unfold CargoList.DaysInTransit
    have hne : l.count ≠ 0 := Nat.pos_iff_ne_zero.mp hpos
    rw [if_neg hne, hdays, hcount]
  · rw [Rat.floor_natCast_div_natCast]
    rfl

/-- Witness of C9: the list of scenario S2 holds one packet of 17 entities two
days in transit, and `DaysInTransit()` is 34 / 17 = 2. -/
theorem CargoList.DaysInTransit_weighted_mean_witness :
    (scenarioS2.DaysInTransit = some (sumDays scenarioS2.derefAll / sumCount scenarioS2.derefAll) ∧
      ((sumDays scenarioS2.derefAll / sumCount scenarioS2.derefAll : Nat) : Int) =
        ⌊((sumDays scenarioS2.derefAll : Nat) : ℚ) / ((sumCount scenarioS2.derefAll : Nat) : ℚ)⌋) ∧
      scenarioS2.DaysInTransit = some 2 :=
  ⟨CargoList.DaysInTransit_weighted_mean scenarioS2 (by decide) (by decide) (by decide),
    by decide⟩

/-- The number of entities of a list of packets is the sum of their counts. -/
theorem length_flatMap_entities (ps : List CargoPacket) :
    (ps.flatMap CargoPacket.entities).length = sumCount ps := by
  induction ps with
  | nil => rfl
  | cons p ps ih =>
    rw [List.flatMap_cons, List.length_append, ih, sumCount_cons]
    simp [CargoPacket.entities]

/-- C8: every cargo list, of either variant, reachable from newly constructed
lists through `Append`, `Truncate`, `AgeCargo` and the move operations has its
cached `count` equal to the sum of the packet counts, its cached `feeder_share`
equal to the sum of the packet feeder shares and its cached `days_in_transit`
equal to the sum of `count * days_in_transit`; a newly constructed list has no
packets and all three caches 0. -/
theorem CargoList.reachable_caches {v : Variant} (l : CargoList v) (h : Reachable l) :
    (l.Count = sumCount l.derefAll ∧ l.FeederShare = sumFeederShare l.derefAll ∧
      l.days_in_transit = sumDays l.derefAll) ∧
    ((CargoList.construct v).packets = [] ∧ (CargoList.construct v).Count = 0 ∧
      (CargoList.construct v).FeederShare = 0 ∧ (CargoList.construct v).days_in_transit = 0) := by
  have hc := Reachable.consistent h
  exact ⟨⟨hc.count_eq, hc.feeder_share_eq, hc.days_in_transit_eq⟩, rfl, rfl, rfl, rfl⟩

/-- Witness of C8: the station list left after a vehicle unloaded into it, aged
and truncated to 40 entities is reachable; its caches are 40, 40 and 5225. -/
theorem CargoList.reachable_caches_witness :
    Reachable scenarioUnloaded ∧
    ((scenarioUnloaded.Count = sumCount scenarioUnloaded.derefAll ∧
      scenarioUnloaded.FeederShare = sumFeederShare scenarioUnloaded.derefAll ∧
      scenarioUnloaded.days_in_transit = sumDays scenarioUnloaded.derefAll) ∧
    ((CargoList.construct Variant.station).packets = [] ∧
      (CargoList.construct Variant.station).Count = 0 ∧
      (CargoList.construct Variant.station).FeederShare = 0 ∧
      (CargoList.construct Variant.station).days_in_transit = 0)) ∧
    scenarioUnloaded.Count = 40 := by
  have hveh : Reachable scenarioS3 :=
    Reachable.append _ _ _ (Reachable.append _ _ _ (Reachable.append _ _ _
      (Reachable.construct _)))
  have hsta : Reachable scenarioStation :=
    Reachable.append _ _ _ (Reachable.append _ _ _ (Reachable.append _ _ _
      (Reachable.construct _)))
  have hr : Reachable scenarioUnloaded :=
    Reachable.truncate _ _ (Reachable.ageCargo _
      (Reachable.moveToStation_dest scenarioEnv 0 scenarioS3 scenarioStation 25 ⟨7, 8, 0⟩
        hveh hsta))
  exact ⟨hr, CargoList.reachable_caches scenarioUnloaded hr, by decide⟩

/-- C10: for a list whose `Count()` is the number of its entities, after
`Truncate(n)` the list holds exactly the first `min (old Count()) n` of the
old entities in their order, its packets are an initial run of the old packets
(each with the attributes it had, the last one possibly cut), and `Count()` is
`min (old Count()) n`. -/
theorem CargoList.Truncate_first_entities {v : Variant} (l : CargoList v) (n : Nat)
    (hcount : l.Count = sumCount l.derefAll) :
    l.entities.length = l.Count ∧
    (l.Truncate n).entities = l.entities.take (min l.Count n) ∧
    ((l.Truncate n).derefAll.map CargoPacket.unit) <+: (l.derefAll.map CargoPacket.unit) ∧
    (l.Truncate n).Count = min l.Count n := by
  have hlen : l.entities.length = l.Count := by
    rw [hcount]
    exact length_flatMap_entities _
  refine ⟨hlen, ?_, ?_, ?_⟩
  · have h := CargoList.truncateLoop_entities l.packets l n
    show ((l.truncateLoop l.packets n).packets.map Deref).flatMap CargoPacket.entities = _
    rw [h]
    show l.entities.take n = l.entities.take (min l.Count n)
    rcases Nat.le_total n l.Count with hn | hn
    · rw [Nat.min_eq_right hn]
    · rw [Nat.min_eq_left hn, List.take_of_length_le (by omega),
        List.take_of_length_le (by omega)]
  · have h := CargoList.truncateLoop_prefix l.packets l n
    simpa [CargoList.derefAll, CargoList.Truncate, List.map_map, Function.comp_def] using h
  · have h := CargoList.truncateLoop_count l.packets l n
    show (l.truncateLoop l.packets n).count = _
    rw [h]
    have hc : l.count = sumCount (l.packets.map Deref) := hcount
    show l.count - _ = min l.count n
    omega

/-- Witness of C10: the spec scenario S3, packets of 10, 20 and 30 entities
truncated to 15 leave packets of 10 and 5 entities and a cached count of 15. -/
theorem CargoList.Truncate_first_entities_witness :
    (scenarioS3.entities.length = scenarioS3.Count ∧
      (scenarioS3.Truncate 15).entities = scenarioS3.entities.take (min scenarioS3.Count 15) ∧
      ((scenarioS3.Truncate 15).derefAll.map CargoPacket.unit) <+:
        (scenarioS3.derefAll.map CargoPacket.unit) ∧
      (scenarioS3.Truncate 15).Count = min scenarioS3.Count 15) ∧
    scenarioS3.derefAll.map (fun cp => cp.count) = [10, 20, 30] ∧
    (scenarioS3.Truncate 15).derefAll.map (fun cp => cp.count) = [10, 5] ∧
    (scenarioS3.Truncate 15).Count = 15 :=
  ⟨CargoList.Truncate_first_entities scenarioS3 15 (by decide), by decide, by decide, by decide⟩

end CargoListTheorems

section FlowStatSumTheorems

/-- The value of the range of a `uint`. -/
theorem UINT_RANGE_eq : UINT_RANGE = 4294967296 := by
  decide

/-- A passed `+=` takes `via` from the right operand and adds `planned` and
`sent` as `uint`. -/
theorem FlowStat.addAssign_eq_some {a b r : FlowStat} (h : a.addAssign b = some r) :
    r.via = b.via ∧ r.planned = (a.planned + b.planned) % UINT_RANGE ∧
      r.sent = (a.sent + b.sent) % UINT_RANGE := by
  unfold FlowStat.addAssign at h
  split at h
  · simp only [Option.some.injEq] at h
    subst h
    exact ⟨rfl, rfl, rfl⟩
  · exact absurd h (by simp)

/-- Accumulation with `+=` that passes every assertion sums `planned` and
`sent` over all summands, modulo `2 ^ 32`. -/
theorem FlowStat.addAll_sums (bs : List FlowStat) :
    ∀ (a r : FlowStat), FlowStat.addAll a bs = some r →
      r.planned % UINT_RANGE = (a.planned + (bs.map fun b => b.planned).sum) % UINT_RANGE ∧
        r.sent % UINT_RANGE = (a.sent + (bs.map fun b => b.sent).sum) % UINT_RANGE := by
  induction bs with
  | nil =>
    intro a r h
    simp only [FlowStat.addAll, Option.some.injEq] at h
    subst h
    simp
  | cons b bs ih =>
    intro a r h
    unfold FlowStat.addAll at h
    split at h
    · next r1 h1 =>
      obtain ⟨_, hp, hs⟩ := FlowStat.addAssign_eq_some h1
      obtain ⟨ihp, ihs⟩ := ih r1 r h
      rw [ihp, ihs, hp, hs]
      simp only [List.map_cons, List.sum_cons, UINT_RANGE_eq]
      constructor <;> omega
    · exact absurd h (by simp)

/-- C15: `a += b` passes its assertion exactly when `a.via` is
`INVALID_STATION`, `b.via` is `INVALID_STATION` or `a.via = b.via`; when it
passes, `planned` and `sent` of the result are the sums of those of `a` and `b`
modulo `2 ^ 32`; and an accumulation with `+=` that passes every assertion has
the sums of `planned` and `sent` over all summands, modulo `2 ^ 32`. -/
theorem FlowStat.addAssign_spec (a b : FlowStat) :
    ((a.addAssign b).isSome = true ↔
      (a.via = INVALID_STATION ∨ b.via = INVALID_STATION ∨ a.via = b.via)) ∧
    (∀ r, a.addAssign b = some r →
      r.planned = (a.planned + b.planned) % 2 ^ 32 ∧ r.sent = (a.sent + b.sent) % 2 ^ 32) ∧
    (∀ bs r, FlowStat.addAll a bs = some r →
      r.planned % 2 ^ 32 = (a.planned + (bs.map fun x => x.planned).sum) % 2 ^ 32 ∧
        r.sent % 2 ^ 32 = (a.sent + (bs.map fun x => x.sent).sum) % 2 ^ 32) := by
  refine ⟨?_, ?_, ?_⟩
  · unfold FlowStat.addAssign
    split
    · next h => simp [h]
    · next h => simp [h]
  · intro r h
    exact (FlowStat.addAssign_eq_some h).2
  · intro bs r h
    exact FlowStat.addAll_sums bs a r h

/-- Witness of C15: a cleared flow stat takes up `{planned=4294967295, sent=1,
via=3}` and `{planned=2, sent=1, via=3}`: the assertions pass and the sums wrap
around to `planned = 1`, `sent = 2`; `{via=3} += {via=4}` fails. -/
theorem FlowStat.addAssign_spec_witness :
    FlowStat.addAll FlowStat.construct [⟨4294967295, 1, 3⟩, ⟨2, 1, 3⟩] = some ⟨1, 2, 3⟩ ∧
    ((1 : Nat) % 2 ^ 32 = (0 + (4294967295 + (2 + 0))) % 2 ^ 32 ∧
      (2 : Nat) % 2 ^ 32 = (0 + (1 + (1 + 0))) % 2 ^ 32) ∧
    FlowStat.addAssign ⟨0, 0, 3⟩ ⟨0, 0, 4⟩ = none :=
  have h : FlowStat.addAll FlowStat.construct [⟨4294967295, 1, 3⟩, ⟨2, 1, 3⟩] =
      some ⟨1, 2, 3⟩ := by decide
  ⟨h, (FlowStat.addAssign_spec FlowStat.construct ⟨0, 0, 0⟩).2.2 _ _ h, by decide⟩

end FlowStatSumTheorems

section MorePacketTheorems

/-- C16, evaluated: two packets equal in `days_in_transit` and `source_xy` and
different in `next` do not have the same source for `SameSource`, although its
comment promises "true if and only if days_in_transit and source_xy are
equal". -/
theorem CargoPacket.SameSource_doc_failing_input :
    (scenarioPacket 10 0 2 7).days_in_transit = (scenarioPacket 10 0 2 8).days_in_transit ∧
    (scenarioPacket 10 0 2 7).source_xy = (scenarioPacket 10 0 2 8).source_xy ∧
    (scenarioPacket 10 0 2 7).SameSource (scenarioPacket 10 0 2 8) = false := by
  decide

/-- C13: `VehicleCargoList::Insert` puts the packet at the end of the sequence
and leaves the packets before it and their order as they were; a list filled
by `Insert` from the empty list holds the packets in the order of their
arrival. -/
theorem VehicleCargoList.Insert_at_end (l : VehicleCargoList) (cp : CargoPacket)
    (cps : List CargoPacket) :
    (l.Insert cp).packets = l.packets ++ [cp] ∧
    (l.Insert cp).derefAll = l.derefAll ++ [cp] ∧
    (cps.foldl VehicleCargoList.Insert l).packets = l.packets ++ cps ∧
    (cps.foldl VehicleCargoList.Insert (CargoList.construct Variant.vehicle)).packets = cps := by
  have hfold : ∀ (cps : List CargoPacket) (l : VehicleCargoList),
      (cps.foldl VehicleCargoList.Insert l).packets = l.packets ++ cps := by
    intro cps
    induction cps with
    | nil => intro l; simp
    | cons c cs ih =>
      intro l
      rw [List.foldl_cons, ih]
      show (l.packets ++ [c]) ++ cs = l.packets ++ c :: cs
      simp
  refine ⟨rfl, ?_, hfold cps l, ?_⟩
  · show List.map Deref (l.packets ++ [cp]) = List.map Deref l.packets ++ [cp]
    rw [List.map_append]
    rfl
  · rw [hfold]
    rfl

/-- C17: `Source()` is `INVALID_STATION` for an empty list and the `source` of
the first packet otherwise. -/
theorem CargoList.Source_spec {v : Variant} (l : CargoList v) :
    (l.Empty = true → l.Source = some INVALID_STATION) ∧
    (∀ e es, l.packets = e :: es → l.Source = some (Deref e).source) ∧
    (l.Empty = true ↔ l.packets = []) := by
  refine ⟨?_, ?_, ?_⟩
  · intro h
    unfold CargoList.Source
    rw [if_pos h]
  · intro e es h
    unfold CargoList.Source CargoList.Empty
    rw [h]
    rfl
  · unfold CargoList.Empty
    exact List.isEmpty_iff

/-- Witness of C17: the newly constructed station list has source
`INVALID_STATION`, the list of scenario S2 has the source station 1 of its
first packet. -/
theorem CargoList.Source_spec_witness :
    (CargoList.construct Variant.station).Source = some INVALID_STATION ∧
    scenarioS2.Source = some 1 :=
  ⟨(CargoList.Source_spec (CargoList.construct Variant.station)).1 rfl,
    (CargoList.Source_spec scenarioS2).2.1 (scenarioPacket 17 7 2 7) [] (by decide)⟩

end MorePacketTheorems

section LinkGraphTheorems

/-- C18: in a component whose edge matrix has `GetSize()` rows of `GetSize()`
cells, for a node id below the size `GetFirstEdge(from)` is the `next_edge` of
the diagonal cell `edges[from][from]`; a freshly constructed `Edge` has
`next_edge = Node::INVALID = UINT_MAX = 4294967295` and `distance`, `capacity`,
`demand`, `unsatisfied_demand` and `flow` all 0. -/
theorem LinkGraphComponent.GetFirstEdge_diagonal (c : LinkGraphComponent) (from_node : Nat)
    (hsq : c.Square) (hlt : from_node < c.GetSize) :
    (∃ row cell, c.edges[from_node]? = some row ∧ row[from_node]? = some cell ∧
      c.GetEdge from_node from_node = some cell ∧
      c.GetFirstEdge from_node = some cell.next_edge) ∧
    (Edge.construct.next_edge = Node.INVALID ∧ Node.INVALID = UINT_MAX ∧
      UINT_MAX = 4294967295 ∧
      Edge.construct.distance = 0 ∧ Edge.construct.capacity = 0 ∧
      Edge.construct.demand = 0 ∧ Edge.construct.unsatisfied_demand = 0 ∧
      Edge.construct.flow = 0) := by
  obtain ⟨hlen, hrows⟩ := hsq
  have h1 : from_node < c.edges.length := by rw [hlen]; exact hlt
  have hrow : c.edges[from_node]? = some (c.edges[from_node]) := List.getElem?_eq_getElem h1
  have hmem : c.edges[from_node] ∈ c.edges := List.getElem_mem h1
  have h2 : from_node < (c.edges[from_node]).length := by rw [hrows _ hmem]; exact hlt
  have hcell : (c.edges[from_node])[from_node]? = some ((c.edges[from_node])[from_node]) :=
    List.getElem?_eq_getElem h2
  refine ⟨⟨_, _, hrow, hcell, ?_, ?_⟩, rfl, rfl, by decide, rfl, rfl, rfl, rfl, rfl⟩
  · unfold LinkGraphComponent.GetEdge
    rw [hrow]
    exact hcell
  · unfold LinkGraphComponent.GetFirstEdge
    rw [hrow]
    simp only [hcell]

/-- Witness of C18: in the component of the scenario, of size 2, the first edge
of node 1 is the `next_edge` 0 of the cell `edges[1][1]`, and the first edge of
node 0 is `Node::INVALID`. -/
theorem LinkGraphComponent.GetFirstEdge_diagonal_witness :
    ((∃ row cell, scenarioComponent.edges[1]? = some row ∧ row[1]? = some cell ∧
        scenarioComponent.GetEdge 1 1 = some cell ∧
        scenarioComponent.GetFirstEdge 1 = some cell.next_edge) ∧
      (Edge.construct.next_edge = Node.INVALID ∧ Node.INVALID = UINT_MAX ∧
        UINT_MAX = 4294967295 ∧
        Edge.construct.distance = 0 ∧ Edge.construct.capacity = 0 ∧
        Edge.construct.demand = 0 ∧ Edge.construct.unsatisfied_demand = 0 ∧
        Edge.construct.flow = 0)) ∧
    scenarioComponent.GetFirstEdge 1 = some 0 ∧
    scenarioComponent.GetFirstEdge 0 = some Node.INVALID := by
  have hsq : scenarioComponent.Square := by
    refine ⟨rfl, ?_⟩
    intro row hrow
    simp only [scenarioComponent, List.mem_cons, List.mem_singleton, List.not_mem_nil,
      or_false] at hrow
    rcases hrow with h | h <;> subst h <;> rfl
  exact ⟨LinkGraphComponent.GetFirstEdge_diagonal scenarioComponent 1 hsq (by decide),
    by decide, by decide⟩

/-- C19: the schedule constants of the link graph are
`COMPONENTS_JOIN_TICK = 21` and `COMPONENTS_SPAWN_TICK = 58`. -/
theorem LinkGraph.schedule_ticks :
    LinkGraph.COMPONENTS_JOIN_TICK = 21 ∧ LinkGraph.COMPONENTS_SPAWN_TICK = 58 :=
  ⟨rfl, rfl⟩

/-- C20: a newly constructed `DemandCalculator` has `max_distance` equal to the
`uint` sum `MapSizeX() + MapSizeY() + 1`, which is the plain sum whenever that
fits in 32 bits; its other members are not initialised. -/
theorem DemandCalculator.construct_max_distance (MapSizeX MapSizeY : Nat) :
    (DemandCalculator.construct MapSizeX MapSizeY).max_distance =
      (MapSizeX + MapSizeY + 1) % 2 ^ 32 ∧
    (MapSizeX + MapSizeY + 1 < 2 ^ 32 →
      (DemandCalculator.construct MapSizeX MapSizeY).max_distance =
        MapSizeX + MapSizeY + 1) := by
  refine ⟨rfl, ?_⟩
  intro h
  exact Nat.mod_eq_of_lt h

/-- Witness of C20: on a map of 256 by 512 tiles the distance cap is 769. -/
theorem DemandCalculator.construct_max_distance_witness :
    (DemandCalculator.construct 256 512).max_distance = 769 :=
  (DemandCalculator.construct_max_distance 256 512).2 (by decide)

end LinkGraphTheorems


section StationListTheorems

/-- An element of the multimap after an insertion is the new one or was there. -/
theorem mem_multimapInsert {m : List (Nat × CargoPacket)} {key : Nat} {cp : CargoPacket}
    {e : Nat × CargoPacket} (h : e ∈ multimapInsert m key cp) : e = (key, cp) ∨ e ∈ m := by
  have := (multimapInsert_perm m key cp).mem_iff.mp h
  simpa using this

/-- An insertion keeps the multimap in ascending key order. -/
theorem multimapInsert_sorted {m : List (Nat × CargoPacket)} (key : Nat) (cp : CargoPacket)
    (hs : m.Pairwise fun a b => a.1 ≤ b.1) :
    (multimapInsert m key cp).Pairwise fun a b => a.1 ≤ b.1 := by
  induction m with
  | nil => simp [multimapInsert]
  | cons e es ih =>
    rw [List.pairwise_cons] at hs
    unfold multimapInsert
    split
    · next hlt =>
      refine List.pairwise_cons.mpr ⟨?_, List.pairwise_cons.mpr hs⟩
      intro z hz
      rcases List.mem_cons.mp hz with hz | hz
      · subst hz; exact Nat.le_of_lt hlt
      · exact Nat.le_trans (Nat.le_of_lt hlt) (hs.1 z hz)
    · next hge =>
      refine List.pairwise_cons.mpr ⟨?_, ih hs.2⟩
      intro z hz
      rcases mem_multimapInsert hz with hz | hz
      · subst hz; exact Nat.le_of_not_lt hge
      · exact hs.1 z hz

/-- No element has the key `k` when all keys are greater. -/
theorem filter_key_eq_nil {m : List (Nat × CargoPacket)} {k : Nat}
    (h : ∀ e ∈ m, k < e.1) : m.filter (fun e => e.1 == k) = [] := by
  rw [List.filter_eq_nil_iff]
  intro e he
  have := h e he
  simp only [beq_iff_eq]
  omega

/-- In a multimap in key order an insertion appends the new element to the run
of the elements of its key and leaves the runs of the other keys. -/
theorem filter_multimapInsert {m : List (Nat × CargoPacket)} (key k : Nat) (cp : CargoPacket)
    (hs : m.Pairwise fun a b => a.1 ≤ b.1) :
    (multimapInsert m key cp).filter (fun e => e.1 == k) =
      m.filter (fun e => e.1 == k) ++ (if key = k then [(key, cp)] else []) := by
  induction m with
  | nil =>
    by_cases h : key = k <;> simp [multimapInsert, h]
  | cons e es ih =>
    rw [List.pairwise_cons] at hs
    unfold multimapInsert
    split
    · next hlt =>
      by_cases h : key = k
      · have hnil : (e :: es).filter (fun e => e.1 == k) = [] := by
          apply filter_key_eq_nil
          intro z hz
          rcases List.mem_cons.mp hz with hz | hz
          · subst hz; omega
          · have := hs.1 z hz; omega
        rw [List.filter_cons, hnil]
        simp [h]
      · rw [List.filter_cons]
        simp [h]
    · next hge =>
      rw [List.filter_cons, ih hs.2, List.filter_cons]
      split <;> simp

/-- In a multimap in key order, `equal_range` designates the elements with the
key. -/
theorem rangeOf_equal_range {m : List (Nat × CargoPacket)} (k : Nat)
    (hs : m.Pairwise fun a b => a.1 ≤ b.1) :
    rangeOf m ((m.takeWhile fun e => decide (e.1 < k)).length,
      (m.takeWhile fun e => decide (e.1 ≤ k)).length) = m.filter (fun e => e.1 == k) := by
  induction m with
  | nil => rfl
  | cons e es ih =>
    rw [List.pairwise_cons] at hs
    have ih' := ih hs.2
    unfold rangeOf at ih' ⊢
    rcases Nat.lt_trichotomy e.1 k with hlt | heq | hgt
    · have h1 : decide (e.1 < k) = true := by simpa using hlt
      have h2 : decide (e.1 ≤ k) = true := by simpa using Nat.le_of_lt hlt
      have h3 : (e.1 == k) = false := by simpa using Nat.ne_of_lt hlt
      simp only [List.takeWhile_cons, h1, h2, if_true, List.length_cons, List.drop_succ_cons,
        List.filter_cons, h3, Bool.false_eq_true, if_false]
      rw [← ih']
      congr 1
      omega
    · have h1 : decide (e.1 < k) = false := by simp [heq]
      have h2 : decide (e.1 ≤ k) = true := by simp [heq]
      have h3 : (e.1 == k) = true := by simpa using heq
      have hes1 : (es.takeWhile fun e => decide (e.1 < k)) = [] := by
        cases es with
        | nil => rfl
        | cons z zs =>
          have := hs.1 z (List.mem_cons_self _ _)
          have hz : decide (z.1 < k) = false := by simp; omega
          simp [List.takeWhile_cons, hz]
      rw [hes1] at ih'
      simp only [List.takeWhile_cons, h1, h2, if_true, List.length_cons, List.length_nil,
        List.drop_zero, Nat.sub_zero, List.filter_cons, h3, Bool.false_eq_true, if_false,
        List.take_succ_cons] at ih' ⊢
      rw [ih']
    · have h1 : decide (e.1 < k) = false := by simp; omega
      have h2 : decide (e.1 ≤ k) = false := by simp; omega
      have hnil : (e :: es).filter (fun e => e.1 == k) = [] := by
        apply filter_key_eq_nil
        intro z hz
        rcases List.mem_cons.mp hz with hz | hz
        · subst hz; exact hgt
        · have := hs.1 z hz; omega
      rw [hnil]
      simp [List.takeWhile_cons, h1, h2]

/-- A station list filled by `Insert` stays in key order, every element under
the next hop of its packet, and the run of each key grows by the inserted
packets with that next hop, in their order. -/
theorem StationCargoList.foldl_Insert_inv (cps : List CargoPacket) :
    ∀ (l : StationCargoList),
      (l.packets.Pairwise fun a b => a.1 ≤ b.1) → (∀ e ∈ l.packets, e.1 = e.2.next) →
      ((cps.foldl StationCargoList.Insert l).packets.Pairwise fun a b => a.1 ≤ b.1) ∧
      (∀ e ∈ (cps.foldl StationCargoList.Insert l).packets, e.1 = e.2.next) ∧
      ∀ k, (cps.foldl StationCargoList.Insert l).packets.filter (fun e => e.1 == k) =
        l.packets.filter (fun e => e.1 == k) ++
          (cps.filter fun cp => cp.next == k).map fun cp => (cp.next, cp) := by
  induction cps with
  | nil => intro l hs hk; exact ⟨hs, hk, by simp⟩
  | cons c cs ih =>
    intro l hs hk
    have hs' : (StationCargoList.Insert l c).packets.Pairwise fun a b => a.1 ≤ b.1 :=
      multimapInsert_sorted c.next c hs
    have hk' : ∀ e ∈ (StationCargoList.Insert l c).packets, e.1 = e.2.next := by
      intro e he
      rcases mem_multimapInsert he with he | he
      · subst he; rfl
      · exact hk e he
    obtain ⟨h1, h2, h3⟩ := ih (StationCargoList.Insert l c) hs' hk'
    refine ⟨h1, h2, ?_⟩
    intro k
    rw [List.foldl_cons, h3 k]
    have hf : (StationCargoList.Insert l c).packets.filter (fun e => e.1 == k) =
        l.packets.filter (fun e => e.1 == k) ++ (if c.next = k then [(c.next, c)] else []) :=
      filter_multimapInsert c.next k c hs
    rw [hf, List.filter_cons]
    by_cases h : c.next = k <;> simp [h]

/-- C12: in a `StationCargoList` filled from the empty list by `Insert`,
`FindByNext(to)` designates exactly the inserted packets whose `next` is `to`,
in the order of their insertion, and every element is stored under the next hop
of its packet. -/
theorem StationCargoList.FindByNext_inserted (cps : List CargoPacket) (to_station : Nat) :
    (rangeOf (cps.foldl StationCargoList.Insert (CargoList.construct Variant.station)).packets
        ((cps.foldl StationCargoList.Insert
          (CargoList.construct Variant.station)).FindByNext to_station)).map Deref =
      cps.filter (fun cp => cp.next == to_station) ∧
    (∀ e ∈ (cps.foldl StationCargoList.Insert (CargoList.construct Variant.station)).packets,
      e.1 = (Deref e).next) ∧
    ((cps.foldl StationCargoList.Insert
      (CargoList.construct Variant.station)).derefAll).Perm cps := by
  obtain ⟨h1, h2, h3⟩ := StationCargoList.foldl_Insert_inv cps
    (CargoList.construct Variant.station) List.Pairwise.nil (by intro e he; cases he)
  refine ⟨?_, h2, ?_⟩
  · have hr := rangeOf_equal_range to_station h1
    unfold StationCargoList.FindByNext
    rw [hr, h3 to_station]
    show List.map Deref ([] ++ _) = _
    rw [List.nil_append, List.map_map]
    exact List.map_id _
  · have hperm : ∀ (cs : List CargoPacket) (l : StationCargoList),
        ((cs.foldl StationCargoList.Insert l).derefAll).Perm (l.derefAll ++ cs) := by
      intro cs
      induction cs with
      | nil => intro l; simp
      | cons c cs ih =>
        intro l
        rw [List.foldl_cons]
        refine (ih _).trans ?_
        have hp : (StationCargoList.Insert l c).derefAll.Perm (c :: l.derefAll) :=
          Insert_perm l.packets c
        refine (List.Perm.append_right cs hp).trans ?_
        show (c :: (l.derefAll ++ cs)).Perm (l.derefAll ++ c :: cs)
        exact List.perm_middle.symm
    exact hperm cps _

end StationListTheorems

section GoodsEntryTheorems

end GoodsEntryTheorems

section MultiMapTheorems

/-- C14, evaluated: the map built by the single insertion of the value 7 under
the key 5 is `{5 ↦ [7]}`; the loop from `begin()` reads the value 7, and the
`operator++` that follows has no defined result, as its assertion evaluates
`map_iter->second` at `end()`: the loop does not reach `end()`, whatever the
fuel. -/
theorem MultiMap.traverse_singleton_faults :
    MultiMap.ofInserts [(5, 7)] = some [(5, [7])] ∧
    MultiMapIterator.deref [(5, [7])] (MultiMap.begin [(5, [7])]) = some 7 ∧
    MultiMapIterator.inc [(5, [7])] (MultiMap.begin [(5, [7])]) = none ∧
    (∀ fuel, MultiMap.traverse [(5, [7])] (fuel + 1) (MultiMap.begin [(5, [7])]) =
      ([7], Outcome.faulted)) := by
  refine ⟨by decide, by decide, by decide, ?_⟩
  intro fuel
  rfl

/-- The pair right after a run of pairs. -/
theorem getElem?_append_length {α : Type} (pre : List α) (e : α) (rest : List α) :
    (pre ++ e :: rest)[pre.length]? = some e := by
  induction pre with
  | nil => simp
  | cons p ps ih => simpa using ih

/-- The pair after the pair right after a run of pairs. -/
theorem getElem?_append_length_succ {α : Type} (pre : List α) (e : α) (rest : List α) :
    (pre ++ e :: rest)[pre.length + 1]? = rest.head? := by
  induction pre with
  | nil => cases rest <;> simp
  | cons p ps ih => simpa using ih

/-- The size of a map, one pair at a time. -/
theorem MultiMap.size_cons {V : Type} (e : Nat × List V) (m : MultiMap V) :
    MultiMap.size (e :: m) = e.2.length + MultiMap.size m := by
  have h : ∀ (m : MultiMap V) (a : Nat),
      List.foldl (fun ret e => ret + e.2.length) a m =
        a + List.foldl (fun ret e => ret + e.2.length) 0 m := by
    intro m
    induction m with
    | nil => intro a; rfl
    | cons x xs ih =>
      intro a
      rw [List.foldl_cons, List.foldl_cons, ih, ih (0 + x.2.length)]
      omega
  show List.foldl (fun ret e => ret + e.2.length) (0 + e.2.length) m = _
  rw [h]
  show 0 + e.2.length + MultiMap.size m = _
  omega

/-- The outcome of the loop over a map of one pair depends on the length of its
list. -/
theorem MultiMap.outcomeOf_singleton {V : Type} (e : Nat × List V) :
    MultiMap.outcomeOf [e] =
      if e.2.length = 1 then Outcome.faulted else Outcome.finished := by
  simp [MultiMap.outcomeOf, MultiMap.lastIsSingleton]

/-- The outcome of the loop over a map with a pair before other pairs is the
outcome for the other pairs. -/
theorem MultiMap.outcomeOf_cons_cons {V : Type} (e e2 : Nat × List V) (rest : MultiMap V) :
    MultiMap.outcomeOf (e :: e2 :: rest) = MultiMap.outcomeOf (e2 :: rest) := by
  simp [MultiMap.outcomeOf, MultiMap.lastIsSingleton, List.getLast?_cons_cons]

/-- The outcome of the loop over the empty map. -/
theorem MultiMap.outcomeOf_nil {V : Type} :
    MultiMap.outcomeOf ([] : MultiMap V) = Outcome.finished := by
  rfl

/-- One turn of the loop. -/
theorem MultiMap.traverse_succ {V : Type} (m : MultiMap V) (fuel : Nat)
    (it : MultiMapIterator) :
    MultiMap.traverse m (fuel + 1) it =
      if it.neMapIter m.mapEnd then
        match it.deref m with
        | none => ([], Outcome.faulted)
        | some val =>
          match it.inc m with
          | none => ([val], Outcome.faulted)
          | some next => (val :: (MultiMap.traverse m fuel next).1,
              (MultiMap.traverse m fuel next).2)
      else ([], Outcome.finished) := by
  rfl

/-- The loop from a position inside the list of a pair reads the rest of that
list and goes on with the pairs after it. -/
theorem MultiMap.traverse_inside {V : Type} (pre : MultiMap V) (e : Nat × List V)
    (rest : MultiMap V) (tailv : List V) (tailo : Outcome)
    (hrest : ∀ (li fuel : Nat), MultiMap.size rest + 1 ≤ fuel →
      MultiMap.traverse (pre ++ e :: rest) fuel
        { list_iter := li, map_iter := pre.length + 1, list_valid := false } = (tailv, tailo)) :
    ∀ (d j fuel : Nat), j + (d + 1) = e.2.length →
      d + 1 + MultiMap.size rest + 1 ≤ fuel →
      MultiMap.traverse (pre ++ e :: rest) fuel
        { list_iter := j, map_iter := pre.length, list_valid := true } =
          (e.2.drop j ++ tailv, tailo) := by
  intro d
  induction d with
  | zero =>
    intro j fuel hj hfuel
    obtain ⟨f, rfl⟩ : ∃ f, fuel = f + 1 := ⟨fuel - 1, by omega⟩
    have hjl : j < e.2.length := by omega
    have hne : e.2.isEmpty = false := by
      cases h : e.2 with
      | nil => rw [h] at hjl; simp at hjl
      | cons _ _ => rfl
    rw [MultiMap.traverse_succ]
    simp only [MultiMapIterator.neMapIter, Bool.true_or, if_true, MultiMapIterator.deref,
      MultiMapIterator.inc, getElem?_append_length, hne, Bool.false_eq_true, if_false,
      List.getElem?_eq_getElem hjl, hjl, show j + 1 = e.2.length by omega]
    rw [hrest _ f (by omega)]
    have hd : e.2.drop j = [e.2[j]] := by
      rw [List.drop_eq_getElem_cons hjl, List.drop_of_length_le (by omega)]
    rw [hd]
    rfl
  | succ d ih =>
    intro j fuel hj hfuel
    obtain ⟨f, rfl⟩ : ∃ f, fuel = f + 1 := ⟨fuel - 1, by omega⟩
    have hjl : j < e.2.length := by omega
    have hne : e.2.isEmpty = false := by
      cases h : e.2 with
      | nil => rw [h] at hjl; simp at hjl
      | cons _ _ => rfl
    have hnl : ¬ (j + 1 = e.2.length) := by omega
    rw [MultiMap.traverse_succ]
    simp only [MultiMapIterator.neMapIter, Bool.true_or, if_true, MultiMapIterator.deref,
      MultiMapIterator.inc, getElem?_append_length, hne, Bool.false_eq_true, if_false,
      List.getElem?_eq_getElem hjl, hjl, hnl]
    rw [ih (j + 1) f (by omega) (by omega), List.drop_eq_getElem_cons hjl]
    rfl

/-- The loop from the first value of a pair, in a map without empty lists and
with enough fuel, reads the values of that pair and of the pairs after it, and
ends as the outcome of those pairs says. -/
theorem MultiMap.traverse_from {V : Type} (suf : MultiMap V) :
    ∀ (pre : MultiMap V) (li fuel : Nat), MultiMap.NoEmptyList suf →
      MultiMap.size suf + 1 ≤ fuel →
      MultiMap.traverse (pre ++ suf) fuel
        { list_iter := li, map_iter := pre.length, list_valid := false } =
          (MultiMap.values suf, MultiMap.outcomeOf suf) := by
  induction suf with
  | nil =>
    intro pre li fuel _ hfuel
    obtain ⟨f, rfl⟩ : ∃ f, fuel = f + 1 := ⟨fuel - 1, by omega⟩
    rw [MultiMap.traverse_succ]
    simp [MultiMapIterator.neMapIter, MultiMap.mapEnd, MultiMap.values, MultiMap.outcomeOf_nil]
  | cons e rest ih =>
    intro pre li fuel hne hfuel
    obtain ⟨f, rfl⟩ : ∃ f, fuel = f + 1 := ⟨fuel - 1, by omega⟩
    rw [MultiMap.size_cons] at hfuel
    have hrestne : MultiMap.NoEmptyList rest := fun x hx => hne x (List.mem_cons_of_mem _ hx)
    have hrest : ∀ (li fuel : Nat), MultiMap.size rest + 1 ≤ fuel →
        MultiMap.traverse (pre ++ e :: rest) fuel
          { list_iter := li, map_iter := pre.length + 1, list_valid := false } =
            (MultiMap.values rest, MultiMap.outcomeOf rest) := by
      intro li fuel hf
      have := ih (pre ++ [e]) li fuel hrestne hf
      simpa using this
    have hend : ((pre.length != (pre ++ e :: rest).length) = true) := by
      simp
    have hvals : MultiMap.values (e :: rest) = e.2 ++ MultiMap.values rest := by
      simp [MultiMap.values]
    have hlist := hne e (List.mem_cons_self _ _)
    rcases hl : e.2 with _ | ⟨x, xs⟩
    · exact absurd hl hlist
    · cases xs with
      | nil =>
        rw [MultiMap.traverse_succ]
        cases rest with
        | nil =>
          simp only [MultiMapIterator.neMapIter, MultiMap.mapEnd, hend, Bool.false_or, if_true,
            MultiMapIterator.deref, MultiMapIterator.inc, getElem?_append_length, hl,
            List.isEmpty_cons, Bool.false_eq_true, if_false, List.head?_cons, List.length_cons,
            List.length_nil, Nat.zero_add, getElem?_append_length_succ, List.head?_nil]
          rw [hvals, hl, MultiMap.outcomeOf_singleton, hl]
          simp [MultiMap.values]
        | cons e2 rest2 =>
          have he2 : e2.2.isEmpty = false := by
            have := hne e2 (List.mem_cons_of_mem _ (List.mem_cons_self _ _))
            cases h : e2.2 with
            | nil => exact absurd h this
            | cons _ _ => rfl
          simp only [MultiMapIterator.neMapIter, MultiMap.mapEnd, hend, Bool.false_or, if_true,
            MultiMapIterator.deref, MultiMapIterator.inc, getElem?_append_length, hl,
            List.isEmpty_cons, Bool.false_eq_true, if_false, List.head?_cons, List.length_cons,
            List.length_nil, Nat.zero_add, getElem?_append_length_succ, he2]
          rw [hl] at hfuel
          rw [hrest 1 f (by simp at hfuel; omega), hvals, hl, MultiMap.outcomeOf_cons_cons]
          rfl
      | cons y ys =>
        rw [MultiMap.traverse_succ]
        simp only [MultiMapIterator.neMapIter, MultiMap.mapEnd, hend, Bool.false_or, if_true,
          MultiMapIterator.deref, MultiMapIterator.inc, getElem?_append_length, hl,
          List.isEmpty_cons, Bool.false_eq_true, if_false, List.head?_cons, List.length_cons,
          show ¬ (1 = ys.length + 1 + 1) by omega]
        have hin := MultiMap.traverse_inside pre e rest _ _ hrest (ys.length) 1 f
          (by rw [hl]; simp; omega) (by rw [hl] at hfuel; simp at hfuel; omega)
        rw [hin, hvals, hl]
        have hout : MultiMap.outcomeOf (e :: rest) = MultiMap.outcomeOf rest := by
          cases rest with
          | nil =>
            rw [MultiMap.outcomeOf_singleton, hl, MultiMap.outcomeOf_nil]
            simp
          | cons e2 rest2 => exact MultiMap.outcomeOf_cons_cons e e2 rest2
        rw [hout]
        rfl

/-- The loop over a whole map without empty lists, with fuel for one turn more
than the map has values: it reads the values of the map, list after list in key
order, and it reaches `end()` unless the list of the greatest key holds exactly
one value, in which case the last `operator++` faults. -/
theorem MultiMap.traverse_begin {V : Type} (m : MultiMap V) (fuel : Nat)
    (hne : m.NoEmptyList) (hfuel : m.size + 1 ≤ fuel) :
    m.traverse fuel m.begin = (m.values, m.outcomeOf) :=
  MultiMap.traverse_from m [] 0 fuel hne hfuel

/-- The key of a pair after `pushBack` is the new key or the key of a pair that
was there. -/
theorem MultiMap.key_of_mem_pushBack {V : Type} {m : MultiMap V} {key : Nat} {val : V}
    {z : Nat × List V} (h : z ∈ MultiMap.pushBack m key val) :
    z.1 = key ∨ ∃ e ∈ m, e.1 = z.1 := by
  induction m with
  | nil =>
    simp only [MultiMap.pushBack, List.mem_singleton] at h
    exact Or.inl (by rw [h])
  | cons e es ih =>
    unfold MultiMap.pushBack at h
    split at h
    · rcases List.mem_cons.mp h with h | h
      · exact Or.inl (by rw [h])
      · exact Or.inr ⟨z, h, rfl⟩
    · split at h
      · next heq =>
        rcases List.mem_cons.mp h with h | h
        · exact Or.inl (by rw [h]; exact heq.symm)
        · exact Or.inr ⟨z, List.mem_cons_of_mem _ h, rfl⟩
      · rcases List.mem_cons.mp h with h | h
        · exact Or.inr ⟨e, List.mem_cons_self _ _, by rw [h]⟩
        · rcases ih h with h | ⟨e', he', hk⟩
          · exact Or.inl h
          · exact Or.inr ⟨e', List.mem_cons_of_mem _ he', hk⟩

/-- `pushBack` keeps the keys of the map strictly ascending. -/
theorem MultiMap.pushBack_sorted {V : Type} {m : MultiMap V} (key : Nat) (val : V)
    (hs : m.Pairwise fun a b => a.1 < b.1) :
    (MultiMap.pushBack m key val).Pairwise fun a b => a.1 < b.1 := by
  induction m with
  | nil => simp [MultiMap.pushBack]
  | cons e es ih =>
    rw [List.pairwise_cons] at hs
    unfold MultiMap.pushBack
    split
    · next hlt =>
      refine List.pairwise_cons.mpr ⟨?_, List.pairwise_cons.mpr hs⟩
      intro z hz
      rcases List.mem_cons.mp hz with hz | hz
      · subst hz; exact hlt
      · exact Nat.lt_trans hlt (hs.1 z hz)
    · split
      · exact List.pairwise_cons.mpr ⟨fun z hz => hs.1 z hz, hs.2⟩
      · next hnlt hne =>
        refine List.pairwise_cons.mpr ⟨?_, ih hs.2⟩
        intro z hz
        rcases MultiMap.key_of_mem_pushBack hz with hz | ⟨e', he', hk⟩
        · rw [hz]; omega
        · rw [← hk]; exact hs.1 e' he'

/-- A key smaller than all keys of the map is not in the map. -/
theorem mapFind_eq_none {α : Type} {m : List (Nat × α)} {k : Nat}
    (h : ∀ e ∈ m, k < e.1) : mapFind m k = none := by
  induction m with
  | nil => rfl
  | cons e es ih =>
    unfold mapFind
    have := h e (List.mem_cons_self _ _)
    rw [if_neg (by omega)]
    exact ih fun z hz => h z (List.mem_cons_of_mem _ hz)

/-- In a map with ascending keys `pushBack` appends the value to the list of
its key and leaves the lists of the other keys. -/
theorem MultiMap.mapFind_pushBack {V : Type} {m : MultiMap V} (key k : Nat) (val : V)
    (hs : m.Pairwise fun a b => a.1 < b.1) :
    (mapFind (MultiMap.pushBack m key val) k).getD [] =
      (mapFind m k).getD [] ++ (if key = k then [val] else []) := by
  induction m with
  | nil =>
    by_cases h : key = k <;> simp [MultiMap.pushBack, mapFind, h]
  | cons e es ih =>
    rw [List.pairwise_cons] at hs
    unfold MultiMap.pushBack
    split
    · next hlt =>
      by_cases h : key = k
      · have hnone : mapFind (e :: es) k = none := by
          apply mapFind_eq_none
          intro z hz
          rcases List.mem_cons.mp hz with hz | hz
          · subst hz; omega
          · have := hs.1 z hz; omega
        rw [hnone]
        simp [mapFind, h]
      · conv_lhs => unfold mapFind
        simp [h]
    · split
      · next hnlt heq =>
        by_cases h : key = k
        · simp [mapFind, h, ← heq]
        · have hek : ¬ (e.1 = k) := by omega
          simp [mapFind, h, hek]
      · next hnlt hne =>
        by_cases hek : e.1 = k
        · have hkk : ¬ (key = k) := by omega
          simp [mapFind, hek, hkk]
        · conv_lhs => unfold mapFind
          conv_rhs => unfold mapFind
          simp only [hek, if_false]
          exact ih hs.2

/-- `Insert` always passes its assertion: it is `pushBack`. -/
theorem MultiMap.Insert_eq_some {V : Type} (m : MultiMap V) (key : Nat) (val : V) :
    MultiMap.Insert m key val = some (MultiMap.pushBack m key val) := by
  have h : ∃ l, mapFind (MultiMap.pushBack m key val) key = some l ∧ l.isEmpty = false := by
    induction m with
    | nil => exact ⟨[val], by simp [MultiMap.pushBack, mapFind], rfl⟩
    | cons e es ih =>
      unfold MultiMap.pushBack
      split
      · exact ⟨[val], by simp [mapFind], rfl⟩
      · split
        · next heq => exact ⟨e.2 ++ [val], by simp [mapFind, heq], by simp⟩
        · next hnlt hne =>
          obtain ⟨l, hl, hl'⟩ := ih
          refine ⟨l, ?_, hl'⟩
          unfold mapFind
          rw [if_neg (fun h => hne h.symm)]
          exact hl
  obtain ⟨l, hl, hl'⟩ := h
  unfold MultiMap.Insert
  rw [hl]
  simp [hl']

/-- `pushBack` adds one value to the size of the map. -/
theorem MultiMap.size_pushBack {V : Type} (m : MultiMap V) (key : Nat) (val : V) :
    MultiMap.size (MultiMap.pushBack m key val) = MultiMap.size m + 1 := by
  induction m with
  | nil => rfl
  | cons e es ih =>
    unfold MultiMap.pushBack
    split
    · rw [MultiMap.size_cons]
      show 1 + _ = _
      omega
    · split
      · rw [MultiMap.size_cons, MultiMap.size_cons]
        simp
        omega
      · rw [MultiMap.size_cons, MultiMap.size_cons, ih]
        omega

/-- `pushBack` adds the value to the values of the map and keeps the others. -/
theorem MultiMap.values_pushBack_perm {V : Type} (m : MultiMap V) (key : Nat) (val : V) :
    (MultiMap.values (MultiMap.pushBack m key val)).Perm (val :: MultiMap.values m) := by
  induction m with
  | nil => exact List.Perm.refl _
  | cons e es ih =>
    unfold MultiMap.pushBack
    split
    · exact List.Perm.refl _
    · split
      · show (e.2 ++ [val] ++ MultiMap.values es).Perm (val :: (e.2 ++ MultiMap.values es))
        rw [List.append_assoc]
        exact List.perm_middle
      · show (e.2 ++ MultiMap.values (MultiMap.pushBack es key val)).Perm
          (val :: (e.2 ++ MultiMap.values es))
        exact (List.Perm.append_left e.2 ih).trans List.perm_middle

/-- In a map with strictly ascending keys every pair is found under its key. -/
theorem mapFind_of_mem {α : Type} {m : List (Nat × α)} (hs : m.Pairwise fun a b => a.1 < b.1)
    {e : Nat × α} (he : e ∈ m) : mapFind m e.1 = some e.2 := by
  induction m with
  | nil => cases he
  | cons x xs ih =>
    rw [List.pairwise_cons] at hs
    unfold mapFind
    rcases List.mem_cons.mp he with h | h
    · subst h; rw [if_pos rfl]
    · have := hs.1 e h
      rw [if_neg (by omega)]
      exact ih hs.2 h

/-- A run of insertions never fails an assertion: it is a run of `pushBack`. -/
theorem MultiMap.foldl_Insert_eq {V : Type} (kvs : List (Nat × V)) :
    ∀ (m : MultiMap V),
      kvs.foldl (fun acc kv => acc.bind fun m => MultiMap.Insert m kv.1 kv.2) (some m) =
        some (kvs.foldl (fun m kv => MultiMap.pushBack m kv.1 kv.2) m) := by
  induction kvs with
  | nil => intro m; rfl
  | cons kv kvs ih =>
    intro m
    rw [List.foldl_cons, List.foldl_cons]
    show List.foldl _ (MultiMap.Insert m kv.1 kv.2) kvs = _
    rw [MultiMap.Insert_eq_some, ih]

/-- What a run of `pushBack` on a map with strictly ascending keys leaves: keys
strictly ascending, under each key its old list followed by the new values of
that key in their order, every key an old one or a new one, one more value per
insertion, and all values kept. -/
theorem MultiMap.foldl_pushBack_inv {V : Type} (kvs : List (Nat × V)) :
    ∀ (m : MultiMap V), (m.Pairwise fun a b => a.1 < b.1) →
      ((kvs.foldl (fun m kv => MultiMap.pushBack m kv.1 kv.2) m).Pairwise
        fun a b => a.1 < b.1) ∧
      (∀ k, (mapFind (kvs.foldl (fun m kv => MultiMap.pushBack m kv.1 kv.2) m) k).getD [] =
        (mapFind m k).getD [] ++ (kvs.filter fun kv => kv.1 == k).map fun kv => kv.2) ∧
      (∀ z ∈ kvs.foldl (fun m kv => MultiMap.pushBack m kv.1 kv.2) m,
        (∃ kv ∈ kvs, kv.1 = z.1) ∨ ∃ e ∈ m, e.1 = z.1) ∧
      MultiMap.size (kvs.foldl (fun m kv => MultiMap.pushBack m kv.1 kv.2) m) =
        MultiMap.size m + kvs.length ∧
      (MultiMap.values (kvs.foldl (fun m kv => MultiMap.pushBack m kv.1 kv.2) m)).Perm
        (MultiMap.values m ++ kvs.map fun kv => kv.2) := by
  induction kvs with
  | nil =>
    intro m hs
    exact ⟨hs, by simp, fun z hz => Or.inr ⟨z, hz, rfl⟩, rfl, by simp⟩
  | cons kv kvs ih =>
    intro m hs
    obtain ⟨h1, h2, h3, h4, h5⟩ := ih (MultiMap.pushBack m kv.1 kv.2)
      (MultiMap.pushBack_sorted kv.1 kv.2 hs)
    refine ⟨h1, ?_, ?_, ?_, ?_⟩
    · intro k
      rw [List.foldl_cons, h2 k, MultiMap.mapFind_pushBack kv.1 k kv.2 hs, List.filter_cons]
      by_cases h : kv.1 = k <;> simp [h]
    · intro z hz
      rcases h3 z hz with ⟨kv', hkv', hk⟩ | ⟨e, he, hk⟩
      · exact Or.inl ⟨kv', List.mem_cons_of_mem _ hkv', hk⟩
      · rcases MultiMap.key_of_mem_pushBack he with h | ⟨e', he', hk'⟩
        · exact Or.inl ⟨kv, List.mem_cons_self _ _, by rw [← h, hk]⟩
        · exact Or.inr ⟨e', he', by rw [hk', hk]⟩
    · rw [List.foldl_cons, h4, MultiMap.size_pushBack, List.length_cons]
      omega
    · rw [List.foldl_cons]
      refine h5.trans ?_
      refine (List.Perm.append_right _ (MultiMap.values_pushBack_perm m kv.1 kv.2)).trans ?_
      show (kv.2 :: (MultiMap.values m ++ _)).Perm (MultiMap.values m ++ kv.2 :: _)
      exact List.perm_middle.symm

/-- What a map built from the empty map by insertions looks like: the
insertions succeed; no list is empty; the keys are strictly ascending; the list
of each key holds the values inserted under that key, in the order of their
insertion; `size()` is the number of insertions; and the values of the map are
the inserted values, each once. -/
theorem MultiMap.ofInserts_spec {V : Type} (kvs : List (Nat × V)) :
    ∃ m, MultiMap.ofInserts kvs = some m ∧ m.NoEmptyList ∧
      (m.Pairwise fun a b => a.1 < b.1) ∧
      (∀ e ∈ m, e.2 = (kvs.filter fun kv => kv.1 == e.1).map fun kv => kv.2) ∧
      m.size = kvs.length ∧ m.values.Perm (kvs.map fun kv => kv.2) := by
  obtain ⟨h1, h2, h3, h4, h5⟩ := MultiMap.foldl_pushBack_inv kvs ([] : MultiMap V)
    List.Pairwise.nil
  have hlist : ∀ e ∈ kvs.foldl (fun m kv => MultiMap.pushBack m kv.1 kv.2) ([] : MultiMap V),
      e.2 = (kvs.filter fun kv => kv.1 == e.1).map fun kv => kv.2 := by
    intro e he
    have := h2 e.1
    rw [mapFind_of_mem h1 he] at this
    simpa [mapFind] using this
  refine ⟨_, MultiMap.foldl_Insert_eq kvs [], ?_, h1, hlist, ?_, ?_⟩
  · intro e he hempty
    rcases h3 e he with ⟨kv, hkv, hk⟩ | ⟨e', he', _⟩
    · have hl := hlist e he
      rw [hempty] at hl
      have hmem : kv ∈ kvs.filter fun kv => kv.1 == e.1 := by
        rw [List.mem_filter]
        exact ⟨hkv, by simpa using hk⟩
      have : kv.2 ∈ (kvs.filter fun kv => kv.1 == e.1).map fun kv => kv.2 :=
        List.mem_map_of_mem _ hmem
      rw [← hl] at this
      cases this
    · cases he'
  · rw [h4]
    show 0 + kvs.length = kvs.length
    omega
  · simpa [MultiMap.values] using h5

/-- The loop over a map built from the empty map by insertions, with fuel for
one turn more than there were insertions: it reads the values of the map, list
after list in key order, and reaches `end()` unless the list of the greatest key
holds exactly one value. -/
theorem MultiMap.traverse_ofInserts {V : Type} (kvs : List (Nat × V)) :
    ∃ m, MultiMap.ofInserts kvs = some m ∧
      m.traverse (kvs.length + 1) m.begin = (m.values, m.outcomeOf) := by
  obtain ⟨m, hm, hne, _, _, hsize, _⟩ := MultiMap.ofInserts_spec kvs
  exact ⟨m, hm, MultiMap.traverse_begin m _ hne (by omega)⟩

end MultiMapTheorems

section AIObjectTheorems

/-- C21: with an active instance, `CanSuspend()` is false exactly when
`allow_do_command` is false or the engine cannot suspend, and whenever it is
false `AIObject::DoCommand` throws the fatal error with the message "You are
not allowed to execute any DoCommand (even indirect) in your constructor,
Save(), Load(), and any valuator." and leaves the state as it was: the game,
so the command is not carried out, and the storage of the AI with all its
fields. -/
theorem AIObject.DoCommand_not_allowed {W : Type} (env : CommandEnv W) (s : AIState W)
    (inst : AIInstance) (tile p1 p2 cmd : Nat) (text : Option String)
    (callback : Option AISuspendCallback) (hact : s.active = some inst) :
    (AIObject.CanSuspend s = some false ↔
      (inst.storage.allow_do_command = false ∨ inst.engine_can_suspend = false)) ∧
    (AIObject.CanSuspend s = some false →
      AIObject.DoCommand env s tile p1 p2 cmd text callback =
        (s, DoCommandExit.AI_FatalError
          "You are not allowed to execute any DoCommand (even indirect) in your constructor, Save(), Load(), and any valuator.")) := by
  unfold AIObject.CanSuspend
  rw [hact]
  constructor
  · cases ha : inst.storage.allow_do_command <;> cases hc : inst.engine_can_suspend <;>
      simp [ha, hc]
  · intro h
    simp only [Option.some.injEq] at h
    unfold AIObject.DoCommand
    simp only [hact, h, Bool.not_false, if_true]
    rfl

/-- Witness of C21: with `allow_do_command` false the command of the scenario
is refused; the counter of the commands carried out stays 0 and the storage
keeps its last error 3, last cost 7, costs 100 and last command result. With
`allow_do_command` true the command is carried out. -/
theorem AIObject.DoCommand_not_allowed_witness :
    AIObject.CanSuspend ({ active := some { storage := scenarioStorage, engine_can_suspend := true }
                           world := 0 } : AIState Nat) = some false ∧
    AIObject.DoCommand scenarioCommandEnv
        { active := some { storage := scenarioStorage, engine_can_suspend := true }, world := 0 }
        1 2 3 4 none none =
      ({ active := some { storage := scenarioStorage, engine_can_suspend := true }, world := 0 },
        DoCommandExit.AI_FatalError
          "You are not allowed to execute any DoCommand (even indirect) in your constructor, Save(), Load(), and any valuator.") ∧
    (AIObject.DoCommand scenarioCommandEnv
        { active := some { storage := { scenarioStorage with allow_do_command := true }
                           engine_can_suspend := true }, world := 0 }
        1 2 3 4 none none).1.world = 1 :=
  ⟨rfl,
    (AIObject.DoCommand_not_allowed scenarioCommandEnv
      { active := some { storage := scenarioStorage, engine_can_suspend := true }, world := 0 }
      { storage := scenarioStorage, engine_can_suspend := true }
      1 2 3 4 none none rfl).2 rfl, by decide⟩

end AIObjectTheorems

section FlowStatOrderTheorems

/-- C24: `FlowStat::comp`, with the signed subtraction taken modulo `2 ^ 32`,
is a strict weak ordering on all flow stats: irreflexive, asymmetric,
transitive, and with transitive incomparability. -/
theorem FlowStat.comp_strict_weak_order :
    (∀ x : FlowStat, FlowStat.comp x x = false) ∧
    (∀ x y : FlowStat, FlowStat.comp x y = true → FlowStat.comp y x = false) ∧
    (∀ x y z : FlowStat, FlowStat.comp x y = true → FlowStat.comp y z = true →
      FlowStat.comp x z = true) ∧
    (∀ x y z : FlowStat, FlowStat.comp x y = false → FlowStat.comp y x = false →
      FlowStat.comp y z = false → FlowStat.comp z y = false →
      FlowStat.comp x z = false ∧ FlowStat.comp z x = false) := by
  have hf : ∀ x y : FlowStat, FlowStat.comp x y = false ↔
      ¬ (x.diff > y.diff ∨ (x.diff = y.diff ∧ x.via > y.via)) := by
    intro x y
    rw [← FlowStat.comp_iff]
    cases FlowStat.comp x y <;> simp
  refine ⟨?_, ?_, ?_, ?_⟩
  · intro x
    rw [hf]
    omega
  · intro x y hxy
    rw [FlowStat.comp_iff] at hxy
    rw [hf]
    omega
  · intro x y z hxy hyz
    exact FlowStat.comp_trans hxy hyz
  · intro x y z hxy hyx hyz hzy
    rw [hf] at hxy hyx hyz hzy ⊢
    rw [hf]
    constructor <;> omega

/-- Witness of C24: three flow stats whose differences wrap around, `x` with
`planned = 2 ^ 31` and signed credit `-2 ^ 31`, go in the order `z`, `y`, `x`. -/
theorem FlowStat.comp_strict_weak_order_witness :
    FlowStat.comp ⟨5, 0, 1⟩ ⟨2147483648, 0, 1⟩ = true ∧
    FlowStat.comp ⟨2147483648, 0, 1⟩ ⟨5, 0, 1⟩ = false ∧
    FlowStat.comp ⟨7, 0, 1⟩ ⟨2147483648, 0, 1⟩ = true :=
  ⟨by decide,
    FlowStat.comp_strict_weak_order.2.1 ⟨5, 0, 1⟩ ⟨2147483648, 0, 1⟩ (by decide),
    FlowStat.comp_strict_weak_order.2.2.1 ⟨7, 0, 1⟩ ⟨5, 0, 1⟩ ⟨2147483648, 0, 1⟩
      (by decide) (by decide)⟩

end FlowStatOrderTheorems

section MultiMapIteratorTheorems

/-- The comparison of two iterators looks at `map_iter` only, and `!=` is the
negation of `==`. -/
theorem MultiMapIterator.eqIter_eq (a b : MultiMapIterator) :
    MultiMapIterator.eqIter a b = (a.map_iter == b.map_iter) ∧
    MultiMapIterator.neIter a b = !MultiMapIterator.eqIter a b := by
  unfold MultiMapIterator.eqIter MultiMapIterator.neIter
  simp [bne]

/-- C25, evaluated: in the map `{5 ↦ [7, 8]}` the iterator at `begin()`
designates 7 and the iterator after one `operator++` designates 8, at another
position of the same list; `operator==` is true for the two and `operator!=`
false. -/
theorem MultiMapIterator.eqIter_failing_input :
    MultiMapIterator.inc [(5, [7, 8])] (MultiMap.begin [(5, [7, 8])]) =
      some { list_iter := 1, map_iter := 0, list_valid := true } ∧
    MultiMapIterator.deref [(5, [7, 8])] (MultiMap.begin [(5, [7, 8])]) = some 7 ∧
    MultiMapIterator.deref [(5, [7, 8])] { list_iter := 1, map_iter := 0, list_valid := true } =
      some 8 ∧
    (MultiMap.begin [(5, [7, 8])]).position ≠
      ({ list_iter := 1, map_iter := 0, list_valid := true } : MultiMapIterator).position ∧
    MultiMapIterator.eqIter (MultiMap.begin [(5, [7, 8])])
      { list_iter := 1, map_iter := 0, list_valid := true } = true ∧
    MultiMapIterator.neIter (MultiMap.begin [(5, [7, 8])])
      { list_iter := 1, map_iter := 0, list_valid := true } = false := by
  decide

/-- C26, evaluated: in the map `{5 ↦ [7]}` the iterator at `begin()` designates
the last element of the map, and `operator++` on it has no defined result: after
`++map_iter` its assertion evaluates `map_iter->second` at `end()`. From the
same element with `list_valid` true, `operator++` reaches `end()`. -/
theorem MultiMapIterator.inc_last_failing_input :
    MultiMap.NoEmptyList [(5, [7])] ∧
    MultiMapIterator.Designates [(5, [7])] (MultiMap.begin [(5, [7])]) ∧
    MultiMapIterator.inc [(5, [7])] (MultiMap.begin [(5, [7])]) = none ∧
    MultiMapIterator.inc [(5, [7])] { list_iter := 0, map_iter := 0, list_valid := true } =
      some { list_iter := 1, map_iter := 1, list_valid := false } := by
  refine ⟨?_, ⟨(5, [7]), rfl, by decide⟩, by decide, by decide⟩
  intro e he
  simp only [List.mem_singleton] at he
  subst he
  simp

/-- A list of a map without empty lists is not empty. -/
theorem MultiMap.isEmpty_eq_false_of_getElem? {V : Type} {m : MultiMap V} {i : Nat}
    {e : Nat × List V} (hne : m.NoEmptyList) (he : m[i]? = some e) : e.2.isEmpty = false := by
  have hmem : e ∈ m := List.getElem?_mem he
  have := hne e hmem
  cases h : e.2 with
  | nil => exact absurd h this
  | cons _ _ => rfl

/-- What `operator++` does on an iterator that designates an element of a map
without empty lists: it has no result exactly when `list_valid` is false, the
list holds one value and there is no pair after it; a result is in canonical
form and stands for the next position, in the same list or at the beginning of
the next pair (which is `end()` after the last pair). -/
theorem MultiMapIterator.inc_spec {V : Type} (m : MultiMap V) (it : MultiMapIterator)
    (e : Nat × List V) (hne : m.NoEmptyList) (he : m[it.map_iter]? = some e)
    (hpos : it.position < e.2.length) :
    (MultiMapIterator.inc m it = none ↔
      (it.list_valid = false ∧ e.2.length = 1 ∧ m[it.map_iter + 1]? = none)) ∧
    ∀ it2, MultiMapIterator.inc m it = some it2 →
      it2.Canonical ∧
      it2.map_iter = (if it.position + 1 < e.2.length then it.map_iter else it.map_iter + 1) ∧
      it2.position = (if it.position + 1 < e.2.length then it.position + 1 else 0) := by
  have hemp := MultiMap.isEmpty_eq_false_of_getElem? hne he
  unfold MultiMapIterator.inc
  rw [he]
  simp only [hemp, Bool.false_eq_true, if_false]
  cases hv : it.list_valid with
  | true =>
    have hp : it.position = it.list_iter := by simp [MultiMapIterator.position, hv]
    rw [hp] at hpos ⊢
    simp only [if_true, hpos]
    by_cases hlast : it.list_iter + 1 = e.2.length
    · simp only [hlast, if_true]
      refine ⟨by simp, ?_⟩
      intro it2 h2
      simp only [Option.some.injEq] at h2
      subst h2
      refine ⟨fun h => Bool.noConfusion h, ?_, ?_⟩
      · simp
      · simp [MultiMapIterator.position]
    · simp only [hlast, if_false]
      refine ⟨by simp, ?_⟩
      intro it2 h2
      simp only [Option.some.injEq] at h2
      subst h2
      have hlt : it.list_iter + 1 < e.2.length := by omega
      refine ⟨by intro _; simp, ?_, ?_⟩
      · simp [hlt]
      · simp [MultiMapIterator.position, hlt]
  | false =>
    have hp : it.position = 0 := by simp [MultiMapIterator.position, hv]
    rw [hp] at hpos ⊢
    simp only [Bool.false_eq_true, if_false]
    by_cases hone : e.2.length = 1
    · simp only [hone, if_true]
      rcases hnext : m[it.map_iter + 1]? with _ | e2
      · simp
      · have hemp2 := MultiMap.isEmpty_eq_false_of_getElem? hne hnext
        simp only [hemp2, Bool.false_eq_true, if_false]
        refine ⟨by simp, ?_⟩
        intro it2 h2
        simp only [Option.some.injEq] at h2
        subst h2
        refine ⟨fun h => Bool.noConfusion h, ?_, ?_⟩
        · simp
        · simp [MultiMapIterator.position]
    · have hone2 : ¬ (1 = e.2.length) := fun h => hone h.symm
      simp only [hone2, if_false]
      have hlt : 0 + 1 < e.2.length := by omega
      refine ⟨by simp; omega, ?_⟩
      intro it2 h2
      simp only [Option.some.injEq] at h2
      subst h2
      refine ⟨by intro _; simp, ?_, ?_⟩
      · simp [hlt]
      · simp [MultiMapIterator.position, hlt]

/-- C27: in a map without empty lists, for an iterator in canonical form that
designates an element other than the last one, `operator++` followed by
`operator--` has a result, and the result designates the same element (same
pair, same position in its list) and is in canonical form. -/
theorem MultiMapIterator.inc_dec_roundtrip {V : Type} (m : MultiMap V) (it : MultiMapIterator)
    (hne : m.NoEmptyList) (hc : it.Canonical) (hd : it.Designates m) (hnl : ¬ it.IsLast m) :
    ∃ it1 it2, MultiMapIterator.inc m it = some it1 ∧ MultiMapIterator.dec m it1 = some it2 ∧
      it2.map_iter = it.map_iter ∧ it2.position = it.position ∧
      it2.list_valid = it.list_valid ∧ it2.Canonical ∧ it2.Designates m ∧
      it2.element m = it.element m := by
  obtain ⟨e, he, hpos⟩ := hd
  have hemp := MultiMap.isEmpty_eq_false_of_getElem? hne he
  have hi : it.map_iter < m.length := by
    rcases List.getElem?_eq_some.mp he with ⟨h, _⟩
    exact h
  have hfin : ∀ it2 : MultiMapIterator, it2.map_iter = it.map_iter → it2.position = it.position →
      it2.Designates m ∧ it2.element m = it.element m := by
    intro it2 h1 h2
    refine ⟨⟨e, by rw [h1]; exact he, by rw [h2]; exact hpos⟩, ?_⟩
    unfold MultiMapIterator.element
    rw [h1, h2]
  have hnext : it.position + 1 = e.2.length → ∃ e2, m[it.map_iter + 1]? = some e2 := by
    intro hl
    have hlt : it.map_iter + 1 < m.length := by
      rcases Nat.lt_or_ge (it.map_iter + 1) m.length with h | h
      · exact h
      · exact absurd ⟨e, he, by omega, hl⟩ hnl
    exact ⟨m[it.map_iter + 1], List.getElem?_eq_getElem hlt⟩
  cases hv : it.list_valid with
  | true =>
    have hp : it.position = it.list_iter := by simp [MultiMapIterator.position, hv]
    have hj : it.list_iter ≠ 0 := hc hv
    rw [hp] at hpos hnext
    by_cases hlast : it.list_iter + 1 = e.2.length
    · obtain ⟨e2, he2⟩ := hnext hlast
      have hemp2 := MultiMap.isEmpty_eq_false_of_getElem? hne he2
      have hlen : e.2.length - 1 = it.list_iter := by omega
      have h1 : MultiMapIterator.inc m it =
          some { list_iter := it.list_iter + 1, map_iter := it.map_iter + 1, list_valid := false } := by
        unfold MultiMapIterator.inc
        simp [he, hemp, hv, hpos, hlast]
      have h2 : MultiMapIterator.dec m
          { list_iter := it.list_iter + 1, map_iter := it.map_iter + 1, list_valid := false } =
          some { list_iter := it.list_iter, map_iter := it.map_iter, list_valid := true } := by
        unfold MultiMapIterator.dec
        simp [he2, hemp2, he, hemp, hlen, hj]
      have hpos2 : ({ list_iter := it.list_iter, map_iter := it.map_iter, list_valid := true } :
          MultiMapIterator).position = it.position := by
        rw [hp]; rfl
      exact ⟨_, _, h1, h2, rfl, hpos2, rfl, fun _ => hj, hfin _ rfl hpos2⟩
    · have h1 : MultiMapIterator.inc m it =
          some { list_iter := it.list_iter + 1, map_iter := it.map_iter, list_valid := true } := by
        unfold MultiMapIterator.inc
        simp [he, hemp, hv, hpos, hlast]
      have h2 : MultiMapIterator.dec m
          { list_iter := it.list_iter + 1, map_iter := it.map_iter, list_valid := true } =
          some { list_iter := it.list_iter, map_iter := it.map_iter, list_valid := true } := by
        unfold MultiMapIterator.dec
        have hle : it.list_iter + 1 ≤ e.2.length := by omega
        simp [he, hemp, hle, hj]
      have hpos2 : ({ list_iter := it.list_iter, map_iter := it.map_iter, list_valid := true } :
          MultiMapIterator).position = it.position := by
        rw [hp]; rfl
      exact ⟨_, _, h1, h2, rfl, hpos2, rfl, fun _ => hj, hfin _ rfl hpos2⟩
  | false =>
    have hp : it.position = 0 := by simp [MultiMapIterator.position, hv]
    rw [hp] at hpos hnext
    by_cases hone : e.2.length = 1
    · obtain ⟨e2, he2⟩ := hnext (by omega)
      have hemp2 := MultiMap.isEmpty_eq_false_of_getElem? hne he2
      have h1 : MultiMapIterator.inc m it =
          some { list_iter := 1, map_iter := it.map_iter + 1, list_valid := false } := by
        unfold MultiMapIterator.inc
        simp [he, hemp, hv, hone, he2, hemp2]
      have h2 : MultiMapIterator.dec m
          { list_iter := 1, map_iter := it.map_iter + 1, list_valid := false } =
          some { list_iter := 0, map_iter := it.map_iter, list_valid := false } := by
        unfold MultiMapIterator.dec
        simp [he2, hemp2, he, hemp, hone]
      have hpos2 : ({ list_iter := 0, map_iter := it.map_iter, list_valid := false } :
          MultiMapIterator).position = it.position := by
        rw [hp]; rfl
      exact ⟨_, _, h1, h2, rfl, hpos2, rfl, fun h => Bool.noConfusion h, hfin _ rfl hpos2⟩
    · have hone2 : ¬ (1 = e.2.length) := fun h => hone h.symm
      have h1 : MultiMapIterator.inc m it =
          some { list_iter := 1, map_iter := it.map_iter, list_valid := true } := by
        unfold MultiMapIterator.inc
        simp [he, hemp, hv, hone2]
      have h2 : MultiMapIterator.dec m
          { list_iter := 1, map_iter := it.map_iter, list_valid := true } =
          some { list_iter := 0, map_iter := it.map_iter, list_valid := false } := by
        unfold MultiMapIterator.dec
        have hle : 1 ≤ e.2.length := by omega
        simp [he, hemp, hle]
      have hpos2 : ({ list_iter := 0, map_iter := it.map_iter, list_valid := false } :
          MultiMapIterator).position = it.position := by
        rw [hp]; rfl
      exact ⟨_, _, h1, h2, rfl, hpos2, rfl, fun h => Bool.noConfusion h, hfin _ rfl hpos2⟩

/-- C27, at a concrete map: in the map of key 3 with the list 1 and key 5 with
the list 7, 8 the iterator at the value of key 3 meets the hypotheses, so the
theorem applies; `operator++` moves it to the first value of key 5 and
`operator--` moves it back. -/
theorem MultiMapIterator.inc_dec_roundtrip_witness :
    (MultiMapIterator.inc ([(3, [1]), (5, [7, 8])] : MultiMap Nat)
        { list_iter := 0, map_iter := 0, list_valid := false } =
        some { list_iter := 1, map_iter := 1, list_valid := false } ∧
      MultiMapIterator.dec ([(3, [1]), (5, [7, 8])] : MultiMap Nat)
        { list_iter := 1, map_iter := 1, list_valid := false } =
        some { list_iter := 0, map_iter := 0, list_valid := false }) ∧
    ∃ it1 it2, MultiMapIterator.inc ([(3, [1]), (5, [7, 8])] : MultiMap Nat)
        { list_iter := 0, map_iter := 0, list_valid := false } = some it1 ∧
      MultiMapIterator.dec ([(3, [1]), (5, [7, 8])] : MultiMap Nat) it1 = some it2 ∧
      it2.map_iter =
        ({ list_iter := 0, map_iter := 0, list_valid := false } : MultiMapIterator).map_iter ∧
      it2.position =
        ({ list_iter := 0, map_iter := 0, list_valid := false } : MultiMapIterator).position ∧
      it2.list_valid =
        ({ list_iter := 0, map_iter := 0, list_valid := false } : MultiMapIterator).list_valid ∧
      it2.Canonical ∧ it2.Designates ([(3, [1]), (5, [7, 8])] : MultiMap Nat) ∧
      it2.element ([(3, [1]), (5, [7, 8])] : MultiMap Nat) =
        MultiMapIterator.element ([(3, [1]), (5, [7, 8])] : MultiMap Nat)
          { list_iter := 0, map_iter := 0, list_valid := false } :=
  ⟨by decide,
    MultiMapIterator.inc_dec_roundtrip [(3, [1]), (5, [7, 8])]
      { list_iter := 0, map_iter := 0, list_valid := false }
      (by unfold MultiMap.NoEmptyList; decide)
      (fun h => Bool.noConfusion h)
      ⟨(3, [1]), rfl, by decide⟩
      (by
        rintro ⟨e, _, h1, _⟩
        simp at h1)⟩

end MultiMapIteratorTheorems

section MultiMapEraseTheorems

/-- The size of two maps laid end to end. -/
theorem MultiMap.size_append {V : Type} (a b : MultiMap V) :
    MultiMap.size (a ++ b) = MultiMap.size a + MultiMap.size b := by
  induction a with
  | nil => simp [MultiMap.size]
  | cons x xs ih =>
    rw [List.cons_append, MultiMap.size_cons, MultiMap.size_cons, ih]
    omega

/-- A pair at a position splits the map around it. -/
theorem MultiMap.split_at {V : Type} {m : MultiMap V} {i : Nat} {e : Nat × List V}
    (he : m[i]? = some e) : ∃ pre post, m = pre ++ e :: post ∧ pre.length = i := by
  induction m generalizing i with
  | nil => simp at he
  | cons x xs ih =>
    cases i with
    | zero =>
      simp at he
      exact ⟨[], xs, by simp [he], rfl⟩
    | succ j =>
      simp at he
      obtain ⟨pre, post, h1, h2⟩ := ih he
      exact ⟨x :: pre, post, by simp [h1], by simp [h2]⟩

/-- Erasing the position after a prefix removes the element that follows the
prefix. -/
theorem MultiMap.eraseIdx_append_length {α : Type} (pre post : List α) (e : α) :
    (pre ++ e :: post).eraseIdx pre.length = pre ++ post := by
  induction pre with
  | nil => rfl
  | cons x xs ih => simp [List.eraseIdx, ih]

/-- Setting the position after a prefix replaces the element that follows the
prefix. -/
theorem MultiMap.set_append_length {α : Type} (pre post : List α) (e x : α) :
    (pre ++ e :: post).set pre.length x = pre ++ x :: post := by
  induction pre with
  | nil => rfl
  | cons y ys ih => simp [List.set, ih]

/-- A list of more than one element is not emptied by the removal of one. -/
theorem MultiMap.eraseIdx_isEmpty {α : Type} (l : List α) (p : Nat) (hp : p < l.length) :
    (l.eraseIdx p).isEmpty = decide (l.length = 1) := by
  have hlen : (l.eraseIdx p).length = l.length - 1 := by
    rw [List.length_eraseIdx, if_pos hp]
  cases h : l.eraseIdx p with
  | nil =>
    rw [h] at hlen
    simp at hlen
    simp
    omega
  | cons x xs =>
    rw [h] at hlen
    simp at hlen
    simp
    omega

/-- The result of `erase` at an element of the map, with the map split around
the pair of the element. -/
theorem MultiMap.erase_eq {V : Type} {it : MultiMapIterator} {pre post : MultiMap V}
    {e : Nat × List V} (hi : pre.length = it.map_iter) (hpos : it.position < e.2.length) :
    MultiMap.erase (pre ++ e :: post) it =
      some (pre ++ (if e.2.length = 1 then [] else [(e.1, e.2.eraseIdx it.position)]) ++ post) := by
  have he : (pre ++ e :: post)[it.map_iter]? = some e := by
    rw [← hi]
    exact getElem?_append_length pre e post
  have hemp : e.2.isEmpty = false := by
    cases h : e.2 with
    | nil => rw [h] at hpos; simp at hpos
    | cons x xs => rfl
  unfold MultiMap.erase
  rw [he]
  simp only [hemp, hpos, MultiMap.eraseIdx_isEmpty e.2 it.position hpos]
  by_cases hone : e.2.length = 1
  · simp [hone, ← hi, MultiMap.eraseIdx_append_length]
  · simp [hone, ← hi, MultiMap.set_append_length]

/-- What is found under a key is a pair of the map. -/
theorem mapFind_mem {α : Type} {m : List (Nat × α)} {k : Nat} {a : α}
    (h : mapFind m k = some a) : (k, a) ∈ m := by
  induction m with
  | nil => simp [mapFind] at h
  | cons x xs ih =>
    unfold mapFind at h
    by_cases hx : x.1 = k
    · rw [if_pos hx] at h
      have h2 : x.2 = a := Option.some.inj h
      have : x = (k, a) := by rw [← hx, ← h2]
      rw [this]
      exact List.mem_cons_self _ _
    · rw [if_neg hx] at h
      exact List.mem_cons_of_mem _ (ih h)

/-- A key that no pair of the map carries is not found. -/
theorem mapFind_eq_none_of_ne {α : Type} {m : List (Nat × α)} {k : Nat}
    (h : ∀ e ∈ m, e.1 ≠ k) : mapFind m k = none := by
  induction m with
  | nil => rfl
  | cons e es ih =>
    unfold mapFind
    rw [if_neg (h e (List.mem_cons_self _ _))]
    exact ih fun z hz => h z (List.mem_cons_of_mem _ hz)

/-- Two maps with strictly ascending keys that hold the same pairs under a key
give the same result for that key. -/
theorem mapFind_congr {α : Type} {m m2 : List (Nat × α)} {k : Nat}
    (hs : m.Pairwise fun a b => a.1 < b.1) (hs2 : m2.Pairwise fun a b => a.1 < b.1)
    (h : ∀ a, (k, a) ∈ m2 ↔ (k, a) ∈ m) : mapFind m2 k = mapFind m k := by
  cases h1 : mapFind m k with
  | some a =>
    have := mapFind_of_mem hs2 ((h a).mpr (mapFind_mem h1))
    exact this
  | none =>
    cases h2 : mapFind m2 k with
    | none => rfl
    | some a =>
      have := mapFind_of_mem hs ((h a).mp (mapFind_mem h2))
      rw [h1] at this
      cases this

/-- The map after an `erase`, with the map split around the pair of the
element: no list is empty and the keys are still strictly ascending. -/
theorem MultiMap.erased_inv {V : Type} {pre post : MultiMap V} {e : Nat × List V} (p : Nat)
    (hp : p < e.2.length)
    (hs : (pre ++ e :: post).Pairwise fun a b => a.1 < b.1)
    (hne : MultiMap.NoEmptyList (pre ++ e :: post)) :
    MultiMap.NoEmptyList
        (pre ++ (if e.2.length = 1 then [] else [(e.1, e.2.eraseIdx p)]) ++ post) ∧
      (pre ++ (if e.2.length = 1 then [] else [(e.1, e.2.eraseIdx p)]) ++ post).Pairwise
        fun a b => a.1 < b.1 := by
  have hlen : (e.2.eraseIdx p).length = e.2.length - 1 := by
    rw [List.length_eraseIdx, if_pos hp]
  by_cases hone : e.2.length = 1
  · rw [if_pos hone, List.append_nil]
    constructor
    · intro x hx
      apply hne x
      rcases List.mem_append.mp hx with h | h
      · exact List.mem_append_left _ h
      · exact List.mem_append_right _ (List.mem_cons_of_mem _ h)
    · refine hs.sublist ?_
      exact List.Sublist.append (List.Sublist.refl pre) (List.sublist_cons_self e post)
  · rw [if_neg hone]
    constructor
    · intro x hx
      rw [List.append_assoc] at hx
      rcases List.mem_append.mp hx with h | h
      · exact hne x (List.mem_append_left _ h)
      · rcases List.mem_cons.mp h with h | h
        · rw [h]
          intro hnil
          have : (e.2.eraseIdx p).length = 0 := by
            have h0 : e.2.eraseIdx p = [] := hnil
            rw [h0]; rfl
          omega
        · exact hne x (List.mem_append_right _ (List.mem_cons_of_mem _ h))
    · rw [List.append_assoc]
      rw [List.pairwise_append] at hs ⊢
      refine ⟨hs.1, ?_, ?_⟩
      · have h2 := hs.2.1
        rw [List.pairwise_cons] at h2
        show List.Pairwise _ ((e.1, e.2.eraseIdx p) :: post)
        rw [List.pairwise_cons]
        exact ⟨fun b hb => h2.1 b hb, h2.2⟩
      · intro a ha b hb
        rcases List.mem_cons.mp hb with h | h
        · rw [h]
          exact hs.2.2 a ha e (List.mem_cons_self _ _)
        · exact hs.2.2 a ha b (List.mem_cons_of_mem _ h)

/-- An `erase` that has a result was called at an element of the map. -/
theorem MultiMap.erase_some {V : Type} {m m2 : MultiMap V} {it : MultiMapIterator}
    (h : MultiMap.erase m it = some m2) : it.Designates m := by
  unfold MultiMap.erase at h
  cases he : m[it.map_iter]? with
  | none => rw [he] at h; cases h
  | some e =>
    rw [he] at h
    by_cases hpos : it.position < e.2.length
    · exact ⟨e, he, hpos⟩
    · simp [hpos] at h

/-- `pushBack` leaves no list empty. -/
theorem MultiMap.pushBack_noEmptyList {V : Type} {m : MultiMap V} (key : Nat) (val : V)
    (hne : m.NoEmptyList) : (MultiMap.pushBack m key val).NoEmptyList := by
  induction m with
  | nil =>
    intro x hx
    simp [MultiMap.pushBack] at hx
    rw [hx]
    simp
  | cons e es ih =>
    have hes : MultiMap.NoEmptyList es := fun x hx => hne x (List.mem_cons_of_mem _ hx)
    have he := hne e (List.mem_cons_self _ _)
    intro x hx
    unfold MultiMap.pushBack at hx
    by_cases h1 : key < e.1
    · rw [if_pos h1] at hx
      rcases List.mem_cons.mp hx with h | h
      · rw [h]; simp
      · exact hne x h
    · rw [if_neg h1] at hx
      by_cases h2 : key = e.1
      · rw [if_pos h2] at hx
        rcases List.mem_cons.mp hx with h | h
        · rw [h]; simp
        · exact hes x h
      · rw [if_neg h2] at hx
        rcases List.mem_cons.mp hx with h | h
        · rw [h]; exact he
        · exact ih hes x h

/-- Every map reachable from the empty map has no empty list and strictly
ascending keys. -/
theorem MultiMap.Reachable_inv {V : Type} {m : MultiMap V} (hr : MultiMap.Reachable m) :
    m.NoEmptyList ∧ m.Pairwise fun a b => a.1 < b.1 := by
  induction hr with
  | empty =>
    constructor
    · intro e he
      cases he
    · exact List.Pairwise.nil
  | insert m m2 key val _ hins ih =>
    rw [MultiMap.Insert_eq_some] at hins
    have := Option.some.inj hins
    rw [← this]
    exact ⟨MultiMap.pushBack_noEmptyList key val ih.1, MultiMap.pushBack_sorted key val ih.2⟩
  | erase m m2 it _ her ih =>
    obtain ⟨e, he, hpos⟩ := MultiMap.erase_some her
    obtain ⟨pre, post, hm, hi⟩ := MultiMap.split_at he
    subst hm
    rw [MultiMap.erase_eq hi hpos] at her
    have := Option.some.inj her
    rw [← this]
    exact MultiMap.erased_inv it.position hpos ih.2 ih.1

/-- Without empty lists `size()` is 0 exactly when `MapSize()` is 0. -/
theorem MultiMap.size_eq_zero_iff {V : Type} {m : MultiMap V} (hne : m.NoEmptyList) :
    m.size = 0 ↔ m.MapSize = 0 := by
  cases m with
  | nil => simp [MultiMap.size, MultiMap.MapSize]
  | cons e es =>
    have he := hne e (List.mem_cons_self _ _)
    have hl : 0 < e.2.length := List.length_pos.mpr he
    rw [MultiMap.size_cons]
    constructor
    · intro h
      omega
    · intro h
      simp [MultiMap.MapSize] at h

/-- The values of two maps laid end to end. -/
theorem MultiMap.values_append {V : Type} (a b : MultiMap V) :
    MultiMap.values (a ++ b) = MultiMap.values a ++ MultiMap.values b := by
  simp [MultiMap.values]

/-- The values of a map, one pair at a time. -/
theorem MultiMap.values_cons {V : Type} (e : Nat × List V) (m : MultiMap V) :
    MultiMap.values (e :: m) = e.2 ++ MultiMap.values m := by
  simp [MultiMap.values]

/-- C22: in a map with strictly ascending keys (the order a `std::map` keeps)
and without empty lists, `erase` at an iterator that designates a stored
element has a result, and the result is the map without exactly that element:
with the map split around the pair `e` of the element, the lists before and
after `e` are unchanged and the list of `e` loses the element at the position
of the iterator; `size()` decreases by one; the values of the map are the old
values without the one at the place of the element; the lists of all other
keys are found unchanged; the key of `e` is no longer found, and `MapSize()`
decreases by one, exactly when the list of `e` held one value, and otherwise
`MapSize()` is unchanged; the result has no empty list and strictly ascending
keys. -/
theorem MultiMap.erase_removes_element {V : Type} (m : MultiMap V) (it : MultiMapIterator)
    (hs : m.Pairwise fun a b => a.1 < b.1) (hne : m.NoEmptyList) (hd : it.Designates m) :
    ∃ e pre post m2, m = pre ++ e :: post ∧ pre.length = it.map_iter ∧
      it.position < e.2.length ∧ MultiMap.erase m it = some m2 ∧
      m2 = pre ++ (if e.2.length = 1 then [] else [(e.1, e.2.eraseIdx it.position)]) ++ post ∧
      m2.size + 1 = m.size ∧
      m2.values = m.values.eraseIdx ((MultiMap.values pre).length + it.position) ∧
      (∀ k, k ≠ e.1 → mapFind m2 k = mapFind m k) ∧
      mapFind m e.1 = some e.2 ∧
      mapFind m2 e.1 = (if e.2.length = 1 then none else some (e.2.eraseIdx it.position)) ∧
      (mapFind m2 e.1 = none ↔ e.2.length = 1) ∧
      (m2.MapSize + 1 = m.MapSize ↔ e.2.length = 1) ∧
      (m2.MapSize = m.MapSize ↔ e.2.length ≠ 1) ∧
      m2.NoEmptyList ∧ m2.Pairwise fun a b => a.1 < b.1 := by
  obtain ⟨e, he, hpos⟩ := hd
  obtain ⟨pre, post, hm, hi⟩ := MultiMap.split_at he
  subst hm
  obtain ⟨hne2, hs2⟩ := MultiMap.erased_inv it.position hpos hs hne
  have hlen : (e.2.eraseIdx it.position).length = e.2.length - 1 := by
    rw [List.length_eraseIdx, if_pos hpos]
  have hnil : MultiMap.size ([] : MultiMap V) = 0 := rfl
  have hsp := hs
  rw [List.pairwise_append, List.pairwise_cons] at hsp
  have hfind : mapFind
      (pre ++ (if e.2.length = 1 then [] else [(e.1, e.2.eraseIdx it.position)]) ++ post) e.1 =
      (if e.2.length = 1 then none else some (e.2.eraseIdx it.position)) := by
    by_cases hone : e.2.length = 1
    · rw [if_pos hone, if_pos hone, List.append_nil]
      apply mapFind_eq_none_of_ne
      intro x hx
      rcases List.mem_append.mp hx with h | h
      · have := hsp.2.2 x h e (List.mem_cons_self _ _)
        omega
      · have := hsp.2.1.1 x h
        omega
    · rw [if_neg hone] at hs2 ⊢
      rw [if_neg hone]
      have hmem : (e.1, e.2.eraseIdx it.position) ∈
          pre ++ [(e.1, e.2.eraseIdx it.position)] ++ post := by simp
      exact mapFind_of_mem hs2 hmem
  refine ⟨e, pre, post, _, rfl, hi, hpos, MultiMap.erase_eq hi hpos, rfl, ?_, ?_, ?_, ?_, hfind,
    ?_, ?_, ?_, hne2, hs2⟩
  · by_cases hone : e.2.length = 1
    · rw [if_pos hone]
      simp only [MultiMap.size_append, MultiMap.size_cons, hnil]
      omega
    · rw [if_neg hone]
      simp only [MultiMap.size_append, MultiMap.size_cons, hnil, hlen]
      omega
  · have hr : (MultiMap.values pre ++ (e.2 ++ MultiMap.values post)).eraseIdx
        ((MultiMap.values pre).length + it.position) =
        MultiMap.values pre ++ (e.2.eraseIdx it.position ++ MultiMap.values post) := by
      rw [List.eraseIdx_append_of_length_le (Nat.le_add_right _ _), Nat.add_sub_cancel_left,
        List.eraseIdx_append_of_lt_length hpos]
    simp only [MultiMap.values_append, MultiMap.values_cons]
    rw [hr]
    by_cases hone : e.2.length = 1
    · rw [if_pos hone]
      have : e.2.eraseIdx it.position = [] := List.length_eq_zero.mp (by omega)
      rw [this]
      simp [MultiMap.values]
    · rw [if_neg hone]
      simp [MultiMap.values]
  · intro k hk
    apply mapFind_congr hs hs2
    intro a
    have h1 : (k, a) ≠ e := fun h => hk (by rw [← h])
    have h2 : (k, a) ≠ (e.1, e.2.eraseIdx it.position) := fun h => hk (by
      have := congrArg Prod.fst h
      exact this)
    by_cases hone : e.2.length = 1
    · simp [hone, h1]
    · simp [hone, h1, h2]
  · exact mapFind_of_mem hs (e := e) (by simp)
  · rw [hfind]
    by_cases hone : e.2.length = 1
    · simp [hone]
    · simp [hone]
  · by_cases hone : e.2.length = 1
    · simp [hone, MultiMap.MapSize]
      omega
    · simp [hone, MultiMap.MapSize]
  · by_cases hone : e.2.length = 1
    · simp [hone, MultiMap.MapSize]
    · simp [hone, MultiMap.MapSize]

/-- C22, at a concrete map: in the map of key 3 with the list 1 and key 5 with
the list 7, 8 the iterator at the second value of key 5 meets the hypotheses,
so the theorem applies; `erase` there leaves key 5 with the list 7, and
`erase` at the only value of key 3 removes the key. -/
theorem MultiMap.erase_removes_element_witness :
    (MultiMap.erase [(3, [1]), (5, [7, 8])]
        { list_iter := 1, map_iter := 1, list_valid := true } = some [(3, [1]), (5, [7])] ∧
      MultiMap.erase [(3, [1]), (5, [7, 8])]
        { list_iter := 0, map_iter := 0, list_valid := false } = some [(5, [7, 8])]) ∧
    ∃ e pre post m2, ([(3, [1]), (5, [7, 8])] : MultiMap Nat) = pre ++ e :: post ∧
      pre.length = ({ list_iter := 1, map_iter := 1, list_valid := true } : MultiMapIterator).map_iter ∧
      ({ list_iter := 1, map_iter := 1, list_valid := true } : MultiMapIterator).position
        < e.2.length ∧
      MultiMap.erase [(3, [1]), (5, [7, 8])]
        { list_iter := 1, map_iter := 1, list_valid := true } = some m2 ∧
      m2 = pre ++ (if e.2.length = 1 then [] else [(e.1, e.2.eraseIdx
        ({ list_iter := 1, map_iter := 1, list_valid := true } : MultiMapIterator).position)])
        ++ post ∧
      m2.size + 1 = MultiMap.size ([(3, [1]), (5, [7, 8])] : MultiMap Nat) ∧
      m2.values = (MultiMap.values ([(3, [1]), (5, [7, 8])] : MultiMap Nat)).eraseIdx
        ((MultiMap.values pre).length +
          ({ list_iter := 1, map_iter := 1, list_valid := true } : MultiMapIterator).position) ∧
      (∀ k, k ≠ e.1 → mapFind m2 k = mapFind ([(3, [1]), (5, [7, 8])] : MultiMap Nat) k) ∧
      mapFind ([(3, [1]), (5, [7, 8])] : MultiMap Nat) e.1 = some e.2 ∧
      mapFind m2 e.1 = (if e.2.length = 1 then none else some (e.2.eraseIdx
        ({ list_iter := 1, map_iter := 1, list_valid := true } : MultiMapIterator).position)) ∧
      (mapFind m2 e.1 = none ↔ e.2.length = 1) ∧
      (m2.MapSize + 1 = MultiMap.MapSize ([(3, [1]), (5, [7, 8])] : MultiMap Nat) ↔
        e.2.length = 1) ∧
      (m2.MapSize = MultiMap.MapSize ([(3, [1]), (5, [7, 8])] : MultiMap Nat) ↔
        e.2.length ≠ 1) ∧
      m2.NoEmptyList ∧ m2.Pairwise fun a b => a.1 < b.1 :=
  ⟨by decide,
    MultiMap.erase_removes_element [(3, [1]), (5, [7, 8])]
      { list_iter := 1, map_iter := 1, list_valid := true }
      (by decide) (by unfold MultiMap.NoEmptyList; decide) ⟨(5, [7, 8]), rfl, by decide⟩⟩

/-- C23: every map reachable from the empty map by `Insert` and `erase` calls
has no key with an empty list. So the condition `!map_iter->second.empty()`
that `Insert`, `erase` and the iterator assert is true at every pair of the
map; `Insert` has a result for every key and value; at every iterator that
designates a stored element `erase` has a result and `operator*` yields the
designated element; `operator++` has a result at every designated element but
the last; and `size()` is 0 exactly when `MapSize()` is 0. -/
theorem MultiMap.Reachable_noEmptyList {V : Type} (m : MultiMap V)
    (hr : MultiMap.Reachable m) :
    m.NoEmptyList ∧
      (∀ (i : Nat) (e : Nat × List V), m[i]? = some e → e.2.isEmpty = false) ∧
      (∀ key val, ∃ m2, MultiMap.Insert m key val = some m2 ∧ MultiMap.Reachable m2) ∧
      (∀ it : MultiMapIterator, it.Designates m →
        (∃ m2, MultiMap.erase m it = some m2 ∧ MultiMap.Reachable m2) ∧
        (∃ v, it.deref m = some v ∧ it.element m = some v)) ∧
      (∀ it : MultiMapIterator, it.Designates m → ¬ it.IsLast m →
        ∃ it2, MultiMapIterator.inc m it = some it2) ∧
      (m.size = 0 ↔ m.MapSize = 0) := by
  obtain ⟨hne, hs⟩ := MultiMap.Reachable_inv hr
  refine ⟨hne, fun i e he => MultiMap.isEmpty_eq_false_of_getElem? hne he, ?_, ?_, ?_,
    MultiMap.size_eq_zero_iff hne⟩
  · intro key val
    exact ⟨_, MultiMap.Insert_eq_some m key val,
      MultiMap.Reachable.insert m _ key val hr (MultiMap.Insert_eq_some m key val)⟩
  · intro it hd
    obtain ⟨e, he, hpos⟩ := hd
    have hemp := MultiMap.isEmpty_eq_false_of_getElem? hne he
    constructor
    · obtain ⟨pre, post, hm, hi⟩ := MultiMap.split_at he
      have her : MultiMap.erase m it = some
          (pre ++ (if e.2.length = 1 then [] else [(e.1, e.2.eraseIdx it.position)]) ++ post) := by
        rw [hm]
        exact MultiMap.erase_eq hi hpos
      exact ⟨_, her, MultiMap.Reachable.erase m _ it hr her⟩
    · refine ⟨e.2.get ⟨it.position, hpos⟩, ?_, ?_⟩
      · unfold MultiMapIterator.deref
        rw [he]
        simp only [hemp]
        cases hv : it.list_valid with
        | true =>
          have hp : it.position = it.list_iter := by simp [MultiMapIterator.position, hv]
          simp [hp, List.getElem?_eq_getElem (hp ▸ hpos)]
        | false =>
          have hp : it.position = 0 := by simp [MultiMapIterator.position, hv]
          simp [hp, List.head?_eq_getElem?, List.getElem?_eq_getElem (hp ▸ hpos)]
      · unfold MultiMapIterator.element
        rw [he]
        simp [List.getElem?_eq_getElem hpos]
  · intro it hd hnl
    obtain ⟨e, he, hpos⟩ := hd
    cases hinc : MultiMapIterator.inc m it with
    | some it2 => exact ⟨it2, rfl⟩
    | none =>
      exfalso
      obtain ⟨hv, hone, hnext⟩ := (MultiMapIterator.inc_spec m it e hne he hpos).1.mp hinc
      apply hnl
      have hi : it.map_iter < m.length := (List.getElem?_eq_some.mp he).1
      have hn : m.length ≤ it.map_iter + 1 := List.getElem?_eq_none_iff.mp hnext
      have hp : it.position = 0 := by simp [MultiMapIterator.position, hv]
      exact ⟨e, he, by omega, by omega⟩

/-- C23, at a concrete map: the map of key 5 with the list 7, 8 is reached from
the empty map by three `Insert` calls and an `erase`, so the theorem applies to
it. -/
theorem MultiMap.Reachable_noEmptyList_witness :
    MultiMap.Reachable ([(5, [7, 8])] : MultiMap Nat) ∧
    (MultiMap.NoEmptyList ([(5, [7, 8])] : MultiMap Nat) ∧
      (∀ (i : Nat) (e : Nat × List Nat), ([(5, [7, 8])] : MultiMap Nat)[i]? = some e →
        e.2.isEmpty = false) ∧
      (∀ key val, ∃ m2, MultiMap.Insert ([(5, [7, 8])] : MultiMap Nat) key val = some m2 ∧
        MultiMap.Reachable m2) ∧
      (∀ it : MultiMapIterator, it.Designates ([(5, [7, 8])] : MultiMap Nat) →
        (∃ m2, MultiMap.erase ([(5, [7, 8])] : MultiMap Nat) it = some m2 ∧
          MultiMap.Reachable m2) ∧
        (∃ v, it.deref ([(5, [7, 8])] : MultiMap Nat) = some v ∧
          it.element ([(5, [7, 8])] : MultiMap Nat) = some v)) ∧
      (∀ it : MultiMapIterator, it.Designates ([(5, [7, 8])] : MultiMap Nat) →
        ¬ it.IsLast ([(5, [7, 8])] : MultiMap Nat) →
        ∃ it2, MultiMapIterator.inc ([(5, [7, 8])] : MultiMap Nat) it = some it2) ∧
      (MultiMap.size ([(5, [7, 8])] : MultiMap Nat) = 0 ↔
        MultiMap.MapSize ([(5, [7, 8])] : MultiMap Nat) = 0)) :=
  have h1 : MultiMap.Reachable ([(5, [7])] : MultiMap Nat) :=
    MultiMap.Reachable.insert [] _ 5 7 MultiMap.Reachable.empty (by decide)
  have h2 : MultiMap.Reachable ([(5, [7, 8])] : MultiMap Nat) :=
    MultiMap.Reachable.insert _ _ 5 8 h1 (by decide)
  have h3 : MultiMap.Reachable ([(3, [1]), (5, [7, 8])] : MultiMap Nat) :=
    MultiMap.Reachable.insert _ _ 3 1 h2 (by decide)
  have h4 : MultiMap.Reachable ([(5, [7, 8])] : MultiMap Nat) :=
    MultiMap.Reachable.erase _ _ { list_iter := 0, map_iter := 0, list_valid := false } h3
      (by decide)
  ⟨h4, MultiMap.Reachable_noEmptyList _ h4⟩

end MultiMapEraseTheorems

end CargoDist
